import Mathlib

/-!
Verification of the DayFlow hierarchical task store.

The development shallowly embeds the Zustand store of
`src/hooks/use-task-store.ts` together with the helpers of
`src/lib/store-utils.ts`.  Dates (JS `Date` objects) are modelled as `Int`
millisecond timestamps; ids (uuid strings) are modelled as `Nat`; the
in-place `immer` mutations are modelled as structural replacement of the
first pre-order occurrence of the target id, which coincides with the
in-place semantics on stores whose ids are unique.  The entity record
types mirror `src/lib/types.ts` as reconstructed from spec section 3 and
from every field access in the store code.
-/

namespace DayFlow

/-- Status of an item: `todo | started | inprogress | done`. -/
inductive Status where
  | todo
  | started
  | inprogress
  | done
deriving DecidableEq, Repr, Inhabited

/-- Priority of an item: `high | medium | low`. -/
inductive Priority where
  | high
  | medium
  | low
deriving DecidableEq, Repr, Inhabited

/-- One entry of an item's description-history log. -/
structure DescriptionHistoryEntry where
  timestamp : Int
  content : String
deriving DecidableEq, Repr

/-- Attachment owned by a Task/Subtask/Activity.  The embedded file payload
and MIME type are irrelevant to every store operation and are kept as an
opaque-name string field. -/
structure Attachment where
  id : Nat
  kind : String
  name : String
  url : Option String
  timestamp : Int
deriving DecidableEq, Repr

/-- Recurrence-schedule record (`{ recurrenceRule, specificTimes, timeZone }`). -/
structure Schedule where
  recurrenceRule : String
  specificTimes : List String
  timeZone : String
deriving DecidableEq, Repr

/-- Reminder record (`{ remindAt, message }`). -/
structure Reminder where
  remindAt : String
  message : String
deriving DecidableEq, Repr

/-- Leaf entity: an Activity owned by a Subtask. -/
structure Activity where
  id : Nat
  parentId : Nat
  name : String
  description : Option String
  creationDate : Int
  expectedCompletionDate : Int
  actualCompletionDate : Option Int
  lastEditedDate : Int
  status : Status
  priority : Priority
  order : Nat
  descriptionHistory : List DescriptionHistoryEntry
  attachments : List Attachment
  autoRepeat : Bool
  schedule : Schedule
  reminder : Reminder
  lastInstanceDate : Option Int
  notes : String
  numericValue : Option Int
  isSkipped : Bool
  isDue : Bool
  dueCount : Nat
deriving DecidableEq, Repr

/-- Subtask: owned by a Task, owns an ordered sequence of Activities. -/
structure Subtask where
  id : Nat
  parentId : Nat
  name : String
  description : Option String
  creationDate : Int
  expectedCompletionDate : Int
  actualCompletionDate : Option Int
  lastEditedDate : Int
  status : Status
  priority : Priority
  order : Nat
  serialCompletionMandatory : Bool
  sequenceMandatory : Bool
  activities : List Activity
  dependencies : List Nat
  descriptionHistory : List DescriptionHistoryEntry
  attachments : List Attachment
  autoRepeat : Bool
  schedule : Schedule
  reminder : Reminder
deriving DecidableEq, Repr

/-- Task: owned by a TaskList, owns an ordered sequence of Subtasks. -/
structure Task where
  id : Nat
  listId : Nat
  name : String
  description : Option String
  creationDate : Int
  expectedCompletionDate : Int
  actualCompletionDate : Option Int
  lastEditedDate : Int
  status : Status
  priority : Priority
  order : Nat
  serialCompletionMandatory : Bool
  sequenceMandatory : Bool
  subtasks : List Subtask
  dependencies : List Nat
  descriptionHistory : List DescriptionHistoryEntry
  attachments : List Attachment
  autoRepeat : Bool
  schedule : Schedule
  reminder : Reminder
deriving DecidableEq, Repr

/-- Root container: a TaskList owning an ordered sequence of Tasks. -/
structure TaskList where
  id : Nat
  name : String
  tasks : List Task
deriving DecidableEq, Repr

/-- The store state is the array `taskLists` (the `isLoading`/`error` flags
play no role in any modelled operation). -/
abbrev Store := List TaskList

/-- Discriminated result of the hierarchy locator, mirroring the return shape
of `findItemInDraft` / `findItemRecursive`: the item plus its immediate
parent (a found task always carries its TaskList, a subtask its Task, an
activity its Subtask). -/
inductive FindResult where
  | taskList (l : TaskList)
  | task (t : Task) (parent : TaskList)
  | subtask (st : Subtask) (parent : Task)
  | activity (a : Activity) (parent : Subtask)
deriving DecidableEq, Repr

/-- Scan of one subtask's activities (innermost loop of `findItemInDraft`). -/
def findInActivities (i : Nat) (parent : Subtask) : List Activity → Option FindResult
  | [] => none
  | a :: rest =>
    if a.id = i then some (.activity a parent) else findInActivities i parent rest

/-- Scan of one task's subtasks, each followed by its activities. -/
def findInSubtasks (i : Nat) (parent : Task) : List Subtask → Option FindResult
  | [] => none
  | st :: rest =>
    if st.id = i then some (.subtask st parent)
    else
      match findInActivities i st st.activities with
      | some r => some r
      | none => findInSubtasks i parent rest

/-- Scan of one list's tasks, each followed by its whole subtree. -/
def findInTasks (i : Nat) (parent : TaskList) : List Task → Option FindResult
  | [] => none
  | t :: rest =>
    if t.id = i then some (.task t parent)
    else
      match findInSubtasks i t t.subtasks with
      | some r => some r
      | none => findInTasks i parent rest

/-- Embedding of `findItemInDraft` (and of `findItemRecursive`, whose
traversal visits the tree in the identical pre-order): first pre-order match
of the id in List → Task → Subtask → Activity order. -/
def findItemInDraft (i : Nat) : Store → Option FindResult
  | [] => none
  | l :: rest =>
    if l.id = i then some (.taskList l)
    else
      match findInTasks i l l.tasks with
      | some r => some r
      | none => findItemInDraft i rest

/-- Embedding of `findParentListRecursive`: the first list that contains the
id at any depth (or is the id itself). -/
def listContainsId (i : Nat) (l : TaskList) : Bool :=
  l.id = i
    || l.tasks.any (fun t =>
        t.id = i
          || t.subtasks.any (fun st =>
              st.id = i || st.activities.any (fun a => a.id = i)))

/-- First list for which `listContainsId` holds. -/
def findParentListRecursive (i : Nat) : Store → Option TaskList
  | [] => none
  | l :: rest => if listContainsId i l then some l else findParentListRecursive i rest

/-- Embedding of `canStartItem`: the serial-completion gate.  The source's
`sibling.order === undefined` guards are vacuous here because `order` is a
total `Nat` field, and the `type === 'task' && parent.type === 'taskList'`
(and the corresponding subtask/activity parent-kind) tests are satisfied by
construction of `FindResult`. -/
def canStartItem (s : Store) (itemId : Nat) : Bool :=
  match findItemInDraft itemId s with
  | none => false
  | some (.taskList _) => true
  | some (.task _ _) => true
  | some (.subtask st parentTask) =>
    if !parentTask.serialCompletionMandatory then true
    else
      parentTask.subtasks.all (fun sib =>
        sib.id = st.id || !(decide (sib.order < st.order)) || sib.status = Status.done)
  | some (.activity a parentSubtask) =>
    if !parentSubtask.serialCompletionMandatory then true
    else
      parentSubtask.activities.all (fun sib =>
        sib.id = a.id || !(decide (sib.order < a.order)) || sib.status = Status.done)

/-- Result type of the update operations: `true` on success, a
human-readable failure string otherwise (`boolean | string` in the source). -/
inductive UpdateResult where
  | ok
  | err (msg : String)
deriving DecidableEq, Repr

/-- Partial update record for `updateTask`.  The TS parameter type is
`Partial` of `Task` minus id/listId/subtasks/order/descriptionHistory/
attachments/schedule/reminder; `none` means the key is absent.
`dependencies` (compared by JS reference in the generic branch) and
`lastEditedDate` are not modelled as updatable keys; no claim mentions
them.  For `actualCompletionDate` the inner `Option` is the stored value (a
present key may clear the field, `newValue ? new Date(newValue) : undefined`). -/
structure TaskUpdates where
  name : Option String := none
  description : Option String := none
  creationDate : Option Int := none
  expectedCompletionDate : Option Int := none
  actualCompletionDate : Option (Option Int) := none
  status : Option Status := none
  priority : Option Priority := none
  serialCompletionMandatory : Option Bool := none
  sequenceMandatory : Option Bool := none
  autoRepeat : Option Bool := none
deriving DecidableEq, Repr

/-- Partial update record for `updateSubtask` (same shape as `TaskUpdates`). -/
structure SubtaskUpdates where
  name : Option String := none
  description : Option String := none
  creationDate : Option Int := none
  expectedCompletionDate : Option Int := none
  actualCompletionDate : Option (Option Int) := none
  status : Option Status := none
  priority : Option Priority := none
  serialCompletionMandatory : Option Bool := none
  sequenceMandatory : Option Bool := none
  autoRepeat : Option Bool := none
deriving DecidableEq, Repr

/-- Partial update record for `updateActivity`; its TS `Omit` additionally
excludes autoRepeat/schedule/reminder/lastInstanceDate/notes/numericValue/
isSkipped/isDue/dueCount, so only these keys remain. -/
structure ActivityUpdates where
  name : Option String := none
  description : Option String := none
  creationDate : Option Int := none
  expectedCompletionDate : Option Int := none
  actualCompletionDate : Option (Option Int) := none
  status : Option Status := none
  priority : Option Priority := none
deriving DecidableEq, Repr

/-- Embedding of `addHistoryEntry`: append the trimmed content when it is
non-blank. -/
def pushHistory (h : List DescriptionHistoryEntry) (timestamp : Int) (content : String) :
    List DescriptionHistoryEntry :=
  if content.trim = "" then h else h ++ [{ timestamp := timestamp, content := content.trim }]

/-- Content of the description-edit history entry. -/
def editTag (oldDescription : String) : String :=
  "[EDIT] " ++ (if oldDescription = "" then "(empty)" else oldDescription)

/-- Steps of the `for key in updates` loop of `updateTask`, applied in a
fixed field order (JS iterates the caller's key-insertion order; each
per-key action only reads and writes its own field except for the date
clamps, which behave identically under either relative order of the two
date keys).  The state is the task paired with the `changed` flag. -/
def taskStepName (u : TaskUpdates) (p : Task × Bool) : Task × Bool :=
  match u.name with
  | none => p
  | some v => if v ≠ p.1.name then ({ p.1 with name := v }, true) else p

/-- Description key: compare after `|| ''` normalization, store `''` as absent. -/
def taskStepDescription (u : TaskUpdates) (p : Task × Bool) : Task × Bool :=
  match u.description with
  | none => p
  | some d =>
    if d ≠ p.1.description.getD "" then
      ({ p.1 with description := if d = "" then none else some d }, true)
    else p

/-- creationDate key: apply, then pull back to `expectedCompletionDate` when
the new value overshoots it. -/
def taskStepCreation (u : TaskUpdates) (p : Task × Bool) : Task × Bool :=
  match u.creationDate with
  | none => p
  | some d =>
    if d ≠ p.1.creationDate then
      let t := { p.1 with creationDate := d }
      let t :=
        if d > t.expectedCompletionDate then
          { t with creationDate := t.expectedCompletionDate }
        else t
      (t, true)
    else p

/-- expectedCompletionDate key: apply, then raise to `creationDate` when the
new value undershoots it. -/
def taskStepExpected (u : TaskUpdates) (p : Task × Bool) : Task × Bool :=
  match u.expectedCompletionDate with
  | none => p
  | some d =>
    if d ≠ p.1.expectedCompletionDate then
      let t := { p.1 with expectedCompletionDate := d }
      let t :=
        if d < t.creationDate then
          { t with expectedCompletionDate := t.creationDate }
        else t
      (t, true)
    else p

/-- actualCompletionDate key (no clamp in `updateTask`). -/
def taskStepActual (u : TaskUpdates) (p : Task × Bool) : Task × Bool :=
  match u.actualCompletionDate with
  | none => p
  | some v =>
    if v ≠ p.1.actualCompletionDate then ({ p.1 with actualCompletionDate := v }, true) else p

/-- Generic `oldValue !== newValue` branch for the remaining scalar keys. -/
def taskStepStatus (u : TaskUpdates) (p : Task × Bool) : Task × Bool :=
  match u.status with
  | none => p
  | some v => if v ≠ p.1.status then ({ p.1 with status := v }, true) else p

/-- Generic branch, priority key. -/
def taskStepPriority (u : TaskUpdates) (p : Task × Bool) : Task × Bool :=
  match u.priority with
  | none => p
  | some v => if v ≠ p.1.priority then ({ p.1 with priority := v }, true) else p

/-- Generic branch, serialCompletionMandatory key. -/
def taskStepSerial (u : TaskUpdates) (p : Task × Bool) : Task × Bool :=
  match u.serialCompletionMandatory with
  | none => p
  | some v =>
    if v ≠ p.1.serialCompletionMandatory then
      ({ p.1 with serialCompletionMandatory := v }, true)
    else p

/-- Generic branch, sequenceMandatory key. -/
def taskStepSequence (u : TaskUpdates) (p : Task × Bool) : Task × Bool :=
  match u.sequenceMandatory with
  | none => p
  | some v =>
    if v ≠ p.1.sequenceMandatory then ({ p.1 with sequenceMandatory := v }, true) else p

/-- Generic branch, autoRepeat key. -/
def taskStepAutoRepeat (u : TaskUpdates) (p : Task × Bool) : Task × Bool :=
  match u.autoRepeat with
  | none => p
  | some v => if v ≠ p.1.autoRepeat then ({ p.1 with autoRepeat := v }, true) else p

/-- Date cascade of `updateTask`/`updateSubtask` for one activity: clamp into
the (possibly just-updated) subtask bounds, then restore
`expected >= creation`, refreshing `lastEditedDate` when anything moved. -/
def cascadeActivity (pc pe now : Int) (a : Activity) : Activity :=
  let r1 :=
    if a.creationDate < pc then ({ a with creationDate := pc }, true) else (a, false)
  let r2 :=
    if r1.1.expectedCompletionDate > pe then
      ({ r1.1 with expectedCompletionDate := pe }, true)
    else r1
  let r3 :=
    if r2.1.expectedCompletionDate < r2.1.creationDate then
      ({ r2.1 with expectedCompletionDate := r2.1.creationDate }, true)
    else r2
  if r3.2 then { r3.1 with lastEditedDate := now } else r3.1

/-- Date cascade of `updateTask` for one subtask: clamp into the new task
bounds, restore `expected >= creation`, then cascade into the activities
with the updated subtask bounds. -/
def cascadeSubtask (pc pe now : Int) (st : Subtask) : Subtask :=
  let r1 :=
    if st.creationDate < pc then ({ st with creationDate := pc }, true) else (st, false)
  let r2 :=
    if r1.1.expectedCompletionDate > pe then
      ({ r1.1 with expectedCompletionDate := pe }, true)
    else r1
  let r3 :=
    if r2.1.expectedCompletionDate < r2.1.creationDate then
      ({ r2.1 with expectedCompletionDate := r2.1.creationDate }, true)
    else r2
  let s4 := if r3.2 then { r3.1 with lastEditedDate := now } else r3.1
  { s4 with
    activities :=
      s4.activities.map (cascadeActivity s4.creationDate s4.expectedCompletionDate now) }

/-- Description-history hook of `updateTask` (runs before the loop, with
the pre-update `lastEditedDate` as timestamp). -/
def taskHistoryStep (u : TaskUpdates) (t0 : Task) : Task × Bool :=
  let oldDescription := t0.description.getD ""
  match u.description with
  | some d =>
    if d ≠ oldDescription then
      ({ t0 with
          descriptionHistory :=
            pushHistory t0.descriptionHistory t0.lastEditedDate (editTag oldDescription) },
        true)
    else (t0, false)
  | none => (t0, false)

/-- The whole `for key in updates` loop of `updateTask`. -/
def taskLoop (u : TaskUpdates) (p : Task × Bool) : Task × Bool :=
  taskStepAutoRepeat u (taskStepSequence u (taskStepSerial u (taskStepPriority u
    (taskStepStatus u (taskStepActual u (taskStepExpected u (taskStepCreation u
      (taskStepDescription u (taskStepName u p)))))))))

/-- Tail of `updateTask`: conditional `lastEditedDate` refresh, then the
downward cascade when a creation/expected key was present. -/
def taskFinish (u : TaskUpdates) (now : Int) (p : Task × Bool) : Task :=
  let t := if p.2 then { p.1 with lastEditedDate := now } else p.1
  if u.creationDate.isSome || u.expectedCompletionDate.isSome then
    { t with
      subtasks :=
        t.subtasks.map (cascadeSubtask t.creationDate t.expectedCompletionDate now) }
  else t

/-- Body of `updateTask` applied to the located task: description-history
hook, update loop, conditional `lastEditedDate` refresh, downward cascade. -/
def applyTaskUpdates (t0 : Task) (u : TaskUpdates) (now : Int) : Task :=
  taskFinish u now (taskLoop u (taskHistoryStep u t0))

/-- Replace the first task with the given id inside one list's task array. -/
def replaceTaskInList (i : Nat) (f : Task → Task) : List Task → Option (List Task)
  | [] => none
  | t :: rest =>
    if t.id = i then some (f t :: rest)
    else (replaceTaskInList i f rest).map (t :: ·)

/-- Replace the first task with the given id anywhere in the store. -/
def replaceFirstTask (i : Nat) (f : Task → Task) : Store → Store
  | [] => []
  | l :: rest =>
    match replaceTaskInList i f l.tasks with
    | some ts => { l with tasks := ts } :: rest
    | none => l :: replaceFirstTask i f rest

/-- The `updateTask` not-found message. -/
def taskNotFoundMsg (i : Nat) : String := "Task with ID " ++ toString i ++ " not found."

/-- Embedding of `updateTask`. -/
def updateTask (s : Store) (taskId : Nat) (u : TaskUpdates) (now : Int) :
    Store × UpdateResult :=
  match findItemInDraft taskId s with
  | some (.task _ _) => (replaceFirstTask taskId (fun t => applyTaskUpdates t u now) s, .ok)
  | _ => (s, .err (taskNotFoundMsg taskId))

/-- Steps of the `updateSubtask` loop.  The date keys clamp against the
parent task's bounds and each re-runs the trailing
`expected >= creation` restoration, exactly as in the source. -/
def subStepName (u : SubtaskUpdates) (p : Subtask × Bool) : Subtask × Bool :=
  match u.name with
  | none => p
  | some v => if v ≠ p.1.name then ({ p.1 with name := v }, true) else p

/-- Description key of `updateSubtask`. -/
def subStepDescription (u : SubtaskUpdates) (p : Subtask × Bool) : Subtask × Bool :=
  match u.description with
  | none => p
  | some d =>
    if d ≠ p.1.description.getD "" then
      ({ p.1 with description := if d = "" then none else some d }, true)
    else p

/-- creationDate key of `updateSubtask`: apply, clamp up to the parent
task's creationDate, then restore `expected >= creation`. -/
def subStepCreation (pt : Task) (u : SubtaskUpdates) (p : Subtask × Bool) : Subtask × Bool :=
  match u.creationDate with
  | none => p
  | some d =>
    if d ≠ p.1.creationDate then
      let st := { p.1 with creationDate := d }
      let st := if d < pt.creationDate then { st with creationDate := pt.creationDate } else st
      let st :=
        if st.expectedCompletionDate < st.creationDate then
          { st with expectedCompletionDate := st.creationDate }
        else st
      (st, true)
    else p

/-- expectedCompletionDate key of `updateSubtask`: apply, clamp down to the
parent task's expectedCompletionDate, then restore `expected >= creation`. -/
def subStepExpected (pt : Task) (u : SubtaskUpdates) (p : Subtask × Bool) : Subtask × Bool :=
  match u.expectedCompletionDate with
  | none => p
  | some d =>
    if d ≠ p.1.expectedCompletionDate then
      let st := { p.1 with expectedCompletionDate := d }
      let st :=
        if d > pt.expectedCompletionDate then
          { st with expectedCompletionDate := pt.expectedCompletionDate }
        else st
      let st :=
        if st.expectedCompletionDate < st.creationDate then
          { st with expectedCompletionDate := st.creationDate }
        else st
      (st, true)
    else p

/-- actualCompletionDate key of `updateSubtask` (the trailing restoration
runs for every date key in the source). -/
def subStepActual (u : SubtaskUpdates) (p : Subtask × Bool) : Subtask × Bool :=
  match u.actualCompletionDate with
  | none => p
  | some v =>
    if v ≠ p.1.actualCompletionDate then
      let st := { p.1 with actualCompletionDate := v }
      let st :=
        if st.expectedCompletionDate < st.creationDate then
          { st with expectedCompletionDate := st.creationDate }
        else st
      (st, true)
    else p

/-- Generic branch, status key. -/
def subStepStatus (u : SubtaskUpdates) (p : Subtask × Bool) : Subtask × Bool :=
  match u.status with
  | none => p
  | some v => if v ≠ p.1.status then ({ p.1 with status := v }, true) else p

/-- Generic branch, priority key. -/
def subStepPriority (u : SubtaskUpdates) (p : Subtask × Bool) : Subtask × Bool :=
  match u.priority with
  | none => p
  | some v => if v ≠ p.1.priority then ({ p.1 with priority := v }, true) else p

/-- Generic branch, serialCompletionMandatory key. -/
def subStepSerial (u : SubtaskUpdates) (p : Subtask × Bool) : Subtask × Bool :=
  match u.serialCompletionMandatory with
  | none => p
  | some v =>
    if v ≠ p.1.serialCompletionMandatory then
      ({ p.1 with serialCompletionMandatory := v }, true)
    else p

/-- Generic branch, sequenceMandatory key. -/
def subStepSequence (u : SubtaskUpdates) (p : Subtask × Bool) : Subtask × Bool :=
  match u.sequenceMandatory with
  | none => p
  | some v =>
    if v ≠ p.1.sequenceMandatory then ({ p.1 with sequenceMandatory := v }, true) else p

/-- Generic branch, autoRepeat key. -/
def subStepAutoRepeat (u : SubtaskUpdates) (p : Subtask × Bool) : Subtask × Bool :=
  match u.autoRepeat with
  | none => p
  | some v => if v ≠ p.1.autoRepeat then ({ p.1 with autoRepeat := v }, true) else p

/-- Description-history hook of `updateSubtask`. -/
def subHistoryStep (u : SubtaskUpdates) (st0 : Subtask) : Subtask × Bool :=
  let oldDescription := st0.description.getD ""
  match u.description with
  | some d =>
    if d ≠ oldDescription then
      ({ st0 with
          descriptionHistory :=
            pushHistory st0.descriptionHistory st0.lastEditedDate (editTag oldDescription) },
        true)
    else (st0, false)
  | none => (st0, false)

/-- The whole `for key in updates` loop of `updateSubtask`. -/
def subLoop (pt : Task) (u : SubtaskUpdates) (p : Subtask × Bool) : Subtask × Bool :=
  subStepAutoRepeat u (subStepSequence u (subStepSerial u (subStepPriority u
    (subStepStatus u (subStepActual u (subStepExpected pt u (subStepCreation pt u
      (subStepDescription u (subStepName u p)))))))))

/-- Tail of `updateSubtask`: `lastEditedDate` refresh when changed, then
the activity cascade when a creation/expected key was present. -/
def subFinish (u : SubtaskUpdates) (now : Int) (p : Subtask × Bool) : Subtask × Bool :=
  let st := if p.2 then { p.1 with lastEditedDate := now } else p.1
  let st2 :=
    if u.creationDate.isSome || u.expectedCompletionDate.isSome then
      { st with
        activities :=
          st.activities.map (cascadeActivity st.creationDate st.expectedCompletionDate now) }
    else st
  (st2, p.2)

/-- Body of `updateSubtask` applied to the located subtask (with its parent
task's bounds): history hook, update loop, `lastEditedDate` refresh and the
activity cascade.  Returns the subtask together with the `changed` flag,
which the caller uses for the parent task's timestamp. -/
def applySubtaskUpdates (pt : Task) (st0 : Subtask) (u : SubtaskUpdates) (now : Int) :
    Subtask × Bool :=
  subFinish u now (subLoop pt u (subHistoryStep u st0))

/-- Apply `applySubtaskUpdates` to the first subtask with the given id in a
task's subtask array, threading the `changed` flag out. -/
def replaceSubtaskInList (pt : Task) (i : Nat) (u : SubtaskUpdates) (now : Int) :
    List Subtask → Option (List Subtask × Bool)
  | [] => none
  | st :: rest =>
    if st.id = i then
      let r := applySubtaskUpdates pt st u now
      some (r.1 :: rest, r.2)
    else (replaceSubtaskInList pt i u now rest).map (fun q => (st :: q.1, q.2))

/-- Body of `updateSubtask` at the level of the containing task: update the
subtask in place and refresh the parent task's `lastEditedDate` when the
subtask actually changed. -/
def applyUpdateSubtaskInTask (t : Task) (i : Nat) (u : SubtaskUpdates) (now : Int) : Task :=
  match replaceSubtaskInList t i u now t.subtasks with
  | some (sts, changed) =>
    let t2 := { t with subtasks := sts }
    if changed then { t2 with lastEditedDate := now } else t2
  | none => t

/-- Does the task directly contain a subtask with this id. -/
def taskContainsSubtask (i : Nat) (t : Task) : Bool := t.subtasks.any (fun st => st.id = i)

/-- Transform the first task (in scan order) that directly contains the
subtask id. -/
def replaceFirstSubtaskSiteInTasks (i : Nat) (g : Task → Task) :
    List Task → Option (List Task)
  | [] => none
  | t :: rest =>
    if taskContainsSubtask i t then some (g t :: rest)
    else (replaceFirstSubtaskSiteInTasks i g rest).map (t :: ·)

/-- Transform, anywhere in the store, the first task that directly contains
the subtask id. -/
def replaceFirstSubtaskSite (i : Nat) (g : Task → Task) : Store → Store
  | [] => []
  | l :: rest =>
    match replaceFirstSubtaskSiteInTasks i g l.tasks with
    | some ts => { l with tasks := ts } :: rest
    | none => l :: replaceFirstSubtaskSite i g rest

/-- The `updateSubtask` not-found message. -/
def subtaskNotFoundMsg (i : Nat) : String :=
  "Subtask with ID " ++ toString i ++ " not found."

/-- Embedding of `updateSubtask`. -/
def updateSubtask (s : Store) (subtaskId : Nat) (u : SubtaskUpdates) (now : Int) :
    Store × UpdateResult :=
  match findItemInDraft subtaskId s with
  | some (.subtask _ _) =>
    (replaceFirstSubtaskSite subtaskId (fun t => applyUpdateSubtaskInTask t subtaskId u now) s,
      .ok)
  | _ => (s, .err (subtaskNotFoundMsg subtaskId))

/-- Steps of the `updateActivity` loop (the schedule/reminder/isDue/isSkipped
history hooks of the source act on keys excluded by the TS parameter type
and are therefore no-ops here). -/
def actStepName (u : ActivityUpdates) (p : Activity × Bool) : Activity × Bool :=
  match u.name with
  | none => p
  | some v => if v ≠ p.1.name then ({ p.1 with name := v }, true) else p

/-- Description key of `updateActivity`. -/
def actStepDescription (u : ActivityUpdates) (p : Activity × Bool) : Activity × Bool :=
  match u.description with
  | none => p
  | some d =>
    if d ≠ p.1.description.getD "" then
      ({ p.1 with description := if d = "" then none else some d }, true)
    else p

/-- creationDate key of `updateActivity`: apply, clamp up to the parent
subtask's creationDate, then restore `expected >= creation`. -/
def actStepCreation (ps : Subtask) (u : ActivityUpdates) (p : Activity × Bool) :
    Activity × Bool :=
  match u.creationDate with
  | none => p
  | some d =>
    if d ≠ p.1.creationDate then
      let a := { p.1 with creationDate := d }
      let a := if d < ps.creationDate then { a with creationDate := ps.creationDate } else a
      let a :=
        if a.expectedCompletionDate < a.creationDate then
          { a with expectedCompletionDate := a.creationDate }
        else a
      (a, true)
    else p

/-- expectedCompletionDate key of `updateActivity`: apply, clamp down to the
parent subtask's expectedCompletionDate, then restore `expected >= creation`. -/
def actStepExpected (ps : Subtask) (u : ActivityUpdates) (p : Activity × Bool) :
    Activity × Bool :=
  match u.expectedCompletionDate with
  | none => p
  | some d =>
    if d ≠ p.1.expectedCompletionDate then
      let a := { p.1 with expectedCompletionDate := d }
      let a :=
        if d > ps.expectedCompletionDate then
          { a with expectedCompletionDate := ps.expectedCompletionDate }
        else a
      let a :=
        if a.expectedCompletionDate < a.creationDate then
          { a with expectedCompletionDate := a.creationDate }
        else a
      (a, true)
    else p

/-- actualCompletionDate key of `updateActivity`. -/
def actStepActual (u : ActivityUpdates) (p : Activity × Bool) : Activity × Bool :=
  match u.actualCompletionDate with
  | none => p
  | some v =>
    if v ≠ p.1.actualCompletionDate then
      let a := { p.1 with actualCompletionDate := v }
      let a :=
        if a.expectedCompletionDate < a.creationDate then
          { a with expectedCompletionDate := a.creationDate }
        else a
      (a, true)
    else p

/-- Generic branch, status key. -/
def actStepStatus (u : ActivityUpdates) (p : Activity × Bool) : Activity × Bool :=
  match u.status with
  | none => p
  | some v => if v ≠ p.1.status then ({ p.1 with status := v }, true) else p

/-- Generic branch, priority key. -/
def actStepPriority (u : ActivityUpdates) (p : Activity × Bool) : Activity × Bool :=
  match u.priority with
  | none => p
  | some v => if v ≠ p.1.priority then ({ p.1 with priority := v }, true) else p

/-- Description-history hook of `updateActivity`. -/
def actHistoryStep (u : ActivityUpdates) (a0 : Activity) : Activity × Bool :=
  let oldDescription := a0.description.getD ""
  match u.description with
  | some d =>
    if d ≠ oldDescription then
      ({ a0 with
          descriptionHistory :=
            pushHistory a0.descriptionHistory a0.lastEditedDate (editTag oldDescription) },
        true)
    else (a0, false)
  | none => (a0, false)

/-- The whole `for key in updates` loop of `updateActivity`. -/
def actLoop (ps : Subtask) (u : ActivityUpdates) (p : Activity × Bool) : Activity × Bool :=
  actStepPriority u (actStepStatus u (actStepActual u (actStepExpected ps u
    (actStepCreation ps u (actStepDescription u (actStepName u p))))))

/-- Body of `updateActivity` applied to the located activity (with its
parent subtask's bounds): history hook, update loop, `lastEditedDate`
refresh.  Returns the activity with the `changed` flag. -/
def applyActivityUpdates (ps : Subtask) (a0 : Activity) (u : ActivityUpdates) (now : Int) :
    Activity × Bool :=
  let p := actLoop ps u (actHistoryStep u a0)
  (if p.2 then { p.1 with lastEditedDate := now } else p.1, p.2)

/-- Apply `applyActivityUpdates` to the first activity with the given id in
a subtask's activity array, threading the `changed` flag out. -/
def replaceActivityInList (ps : Subtask) (i : Nat) (u : ActivityUpdates) (now : Int) :
    List Activity → Option (List Activity × Bool)
  | [] => none
  | a :: rest =>
    if a.id = i then
      let r := applyActivityUpdates ps a u now
      some (r.1 :: rest, r.2)
    else (replaceActivityInList ps i u now rest).map (fun q => (a :: q.1, q.2))

/-- Body of `updateActivity` at the level of the containing subtask: update
the activity and refresh the subtask's `lastEditedDate` when it changed. -/
def applyUpdateActivityInSubtask (st : Subtask) (i : Nat) (u : ActivityUpdates) (now : Int) :
    Subtask × Bool :=
  match replaceActivityInList st i u now st.activities with
  | some (acts, changed) =>
    let st2 := { st with activities := acts }
    (if changed then { st2 with lastEditedDate := now } else st2, changed)
  | none => (st, false)

/-- Does the subtask directly contain an activity with this id. -/
def subtaskContainsActivity (i : Nat) (st : Subtask) : Bool :=
  st.activities.any (fun a => a.id = i)

/-- `updateActivity` mutation at the first subtask (in scan order) that
directly contains the activity id, threading the `changed` flag. -/
def updateActivityInSubtasks (i : Nat) (u : ActivityUpdates) (now : Int) :
    List Subtask → Option (List Subtask × Bool)
  | [] => none
  | st :: rest =>
    if subtaskContainsActivity i st then
      let r := applyUpdateActivityInSubtask st i u now
      some (r.1 :: rest, r.2)
    else (updateActivityInSubtasks i u now rest).map (fun q => (st :: q.1, q.2))

/-- `updateActivity` mutation over one list's tasks. -/
def updateActivityInTasks (i : Nat) (u : ActivityUpdates) (now : Int) :
    List Task → Option (List Task × Bool)
  | [] => none
  | t :: rest =>
    match updateActivityInSubtasks i u now t.subtasks with
    | some (sts, ch) => some ({ t with subtasks := sts } :: rest, ch)
    | none => (updateActivityInTasks i u now rest).map (fun q => (t :: q.1, q.2))

/-- `updateActivity` mutation over the whole store (activity and structural
parent subtask sites only; the parent task timestamp is handled by
`bumpLastEdited` below, mirroring the source's lookup by
`parentSubtask.parentId`). -/
def updateActivityStore (i : Nat) (u : ActivityUpdates) (now : Int) : Store → Store × Bool
  | [] => ([], false)
  | l :: rest =>
    match updateActivityInTasks i u now l.tasks with
    | some (ts, ch) => ({ l with tasks := ts } :: rest, ch)
    | none =>
      let r := updateActivityStore i u now rest
      (l :: r.1, r.2)

/-- Replace the first subtask with the given id (inside the first task that
directly contains it). -/
def replaceSubtaskInSubs (i : Nat) (g : Subtask → Subtask) : List Subtask → List Subtask
  | [] => []
  | st :: rest => if st.id = i then g st :: rest else st :: replaceSubtaskInSubs i g rest

/-- Replace the first activity with the given id inside one activity array. -/
def replaceActivityInActs (i : Nat) (g : Activity → Activity) : List Activity → List Activity
  | [] => []
  | a :: rest => if a.id = i then g a :: rest else a :: replaceActivityInActs i g rest

/-- Apply `g` to the first subtask of the array that contains the activity id. -/
def replaceFirstMatchingSubtask (i : Nat) (g : Subtask → Subtask) :
    List Subtask → List Subtask
  | [] => []
  | st :: rest =>
    if subtaskContainsActivity i st then g st :: rest
    else st :: replaceFirstMatchingSubtask i g rest

/-- Transform the first subtask (in scan order) that directly contains the
activity id. -/
def replaceFirstActivityContainerInTasks (i : Nat) (g : Subtask → Subtask) :
    List Task → Option (List Task)
  | [] => none
  | t :: rest =>
    if t.subtasks.any (subtaskContainsActivity i) then
      some ({ t with subtasks := replaceFirstMatchingSubtask i g t.subtasks } :: rest)
    else (replaceFirstActivityContainerInTasks i g rest).map (t :: ·)

/-- Transform, anywhere in the store, the first subtask that directly
contains the activity id. -/
def replaceFirstActivityContainer (i : Nat) (g : Subtask → Subtask) : Store → Store
  | [] => []
  | l :: rest =>
    match replaceFirstActivityContainerInTasks i g l.tasks with
    | some ts => { l with tasks := ts } :: rest
    | none => l :: replaceFirstActivityContainer i g rest

/-- Refresh `lastEditedDate` of the first pre-order item matching the id (the
source writes `item.lastEditedDate = now` on whatever `findItemInDraft`
returned; on a TaskList that JS write creates a property outside the
modelled record, so the list case is the identity here). -/
def bumpLastEdited (i : Nat) (now : Int) (s : Store) : Store :=
  match findItemInDraft i s with
  | some (.task _ _) => replaceFirstTask i (fun t => { t with lastEditedDate := now }) s
  | some (.subtask _ _) =>
    replaceFirstSubtaskSite i
      (fun t =>
        { t with
          subtasks :=
            replaceSubtaskInSubs i (fun st => { st with lastEditedDate := now }) t.subtasks }) s
  | some (.activity _ _) =>
    replaceFirstActivityContainer i
      (fun st =>
        { st with
          activities :=
            replaceActivityInActs i (fun a => { a with lastEditedDate := now }) st.activities }) s
  | _ => s

/-- The `updateActivity` not-found message. -/
def activityNotFoundMsg (i : Nat) : String :=
  "Activity with ID " ++ toString i ++ " not found."

/-- The `updateActivity` missing-context message. -/
def activityContextMsg (i : Nat) : String :=
  "Activity context not found for ID " ++ toString i ++ "."

/-- Embedding of `updateActivity`.  The parent task is looked up through
`parentSubtask.parentId` (not structurally), exactly as in the source; its
timestamp is refreshed only when the activity actually changed. -/
def updateActivity (s : Store) (activityId : Nat) (u : ActivityUpdates) (now : Int) :
    Store × UpdateResult :=
  match findItemInDraft activityId s with
  | some (.activity _ ps) =>
    match findItemInDraft ps.parentId s with
    | none => (s, .err (activityContextMsg activityId))
    | some _ =>
      let r := updateActivityStore activityId u now s
      (if r.2 then bumpLastEdited ps.parentId now r.1 else r.1, .ok)
  | _ => (s, .err (activityNotFoundMsg activityId))

/-- Blank schedule initialised by every `add` operation. -/
def blankSchedule : Schedule := { recurrenceRule := "", specificTimes := [], timeZone := "" }

/-- Blank reminder initialised by every `add` operation. -/
def blankReminder : Reminder := { remindAt := "", message := "" }

/-- Milliseconds in a day. -/
def msPerDay : Int := 86400000

/-- Milliseconds in a week (`7 * 24 * 60 * 60 * 1000`). -/
def msPerWeek : Int := 604800000

/-- The fresh task built by `addTask` before the order is assigned.  `newId`
stands for the generated uuid, `now` for `new Date()`; the caller supplies
the `creationDate`/`expectedCompletionDate` arguments (their TS defaults
live in the signature). -/
def mkTask (listId : Nat) (name : String) (priority : Priority)
    (creationDate expectedCompletionDate : Int) (newId : Nat) (now : Int) : Task :=
  let expected :=
    if expectedCompletionDate < creationDate then creationDate + msPerWeek
    else expectedCompletionDate
  { id := newId, listId := listId, name := name, description := some "",
    creationDate := creationDate, expectedCompletionDate := expected,
    actualCompletionDate := none, lastEditedDate := now, status := .todo,
    priority := priority, order := 0, serialCompletionMandatory := false,
    sequenceMandatory := false, subtasks := [], dependencies := [],
    descriptionHistory := [], attachments := [], autoRepeat := false,
    schedule := blankSchedule, reminder := blankReminder }

/-- Append the fresh task (with `order := list.tasks.length`) to the first
list carrying the id. -/
def addTaskToLists (base : Task) (listId : Nat) : Store → Option (Store × Task)
  | [] => none
  | l :: rest =>
    if l.id = listId then
      let t := { base with order := l.tasks.length }
      some ({ l with tasks := l.tasks ++ [t] } :: rest, t)
    else (addTaskToLists base listId rest).map (fun r => (l :: r.1, r.2))

/-- Embedding of `addTask`: returns the new store and the added task
(`null` — here `none` — when the list id does not resolve). -/
def addTask (s : Store) (listId : Nat) (name : String) (priority : Priority)
    (creationDate expectedCompletionDate : Int) (newId : Nat) (now : Int) :
    Store × Option Task :=
  match addTaskToLists (mkTask listId name priority creationDate expectedCompletionDate newId now)
      listId s with
  | some r => (r.1, some r.2)
  | none => (s, none)

/-- The fresh subtask built by `addSubtask` from its parent task: dates are
inherited and clamped so that `expected >= creation`. -/
def mkSubtask (t : Task) (taskId : Nat) (name : String) (priority : Priority)
    (newId : Nat) (now : Int) : Subtask :=
  let sc := t.creationDate
  let se := if t.expectedCompletionDate < sc then sc else t.expectedCompletionDate
  { id := newId, parentId := taskId, name := name, description := some "",
    creationDate := sc, expectedCompletionDate := se, actualCompletionDate := none,
    lastEditedDate := now, status := .todo, priority := priority,
    order := t.subtasks.length, serialCompletionMandatory := false,
    sequenceMandatory := false, activities := [], dependencies := [],
    descriptionHistory := [], attachments := [], autoRepeat := false,
    schedule := blankSchedule, reminder := blankReminder }

/-- Embedding of `addSubtask`: push the inherited subtask onto the parent
task and refresh the parent's `lastEditedDate`. -/
def addSubtask (s : Store) (taskId : Nat) (name : String) (priority : Priority)
    (newId : Nat) (now : Int) : Store × Option Subtask :=
  match findItemInDraft taskId s with
  | some (.task t _) =>
    (replaceFirstTask taskId
        (fun t2 =>
          { t2 with
            subtasks := t2.subtasks ++ [mkSubtask t2 taskId name priority newId now],
            lastEditedDate := now }) s,
      some (mkSubtask t taskId name priority newId now))
  | _ => (s, none)

/-- The fresh activity built by `addActivity` from its parent subtask. -/
def mkActivity (st : Subtask) (subtaskId : Nat) (name : String) (priority : Priority)
    (newId : Nat) (now : Int) : Activity :=
  let ac := st.creationDate
  let ae := if st.expectedCompletionDate < ac then ac else st.expectedCompletionDate
  { id := newId, parentId := subtaskId, name := name, description := some "",
    creationDate := ac, expectedCompletionDate := ae, actualCompletionDate := none,
    lastEditedDate := now, status := .todo, priority := priority,
    order := st.activities.length, descriptionHistory := [], attachments := [],
    autoRepeat := false, schedule := blankSchedule, reminder := blankReminder,
    lastInstanceDate := none, notes := "", numericValue := none,
    isSkipped := false, isDue := false, dueCount := 0 }

/-- Embedding of `addActivity`: push the inherited activity onto the parent
subtask, refresh the subtask's and the (structural) parent task's
`lastEditedDate`. -/
def addActivity (s : Store) (subtaskId : Nat) (name : String) (priority : Priority)
    (newId : Nat) (now : Int) : Store × Option Activity :=
  match findItemInDraft subtaskId s with
  | some (.subtask st _) =>
    (replaceFirstSubtaskSite subtaskId
        (fun t =>
          { t with
            lastEditedDate := now,
            subtasks :=
              replaceSubtaskInSubs subtaskId
                (fun st2 =>
                  { st2 with
                    activities :=
                      st2.activities ++ [mkActivity st2 subtaskId name priority newId now],
                    lastEditedDate := now }) t.subtasks }) s,
      some (mkActivity st subtaskId name priority newId now))
  | _ => (s, none)

/-- Renumber a task array to dense orders `0..n-1` (the
`forEach((t, index) => t.order = index)` pass). -/
def renumberTasks (ts : List Task) : List Task :=
  ts.mapIdx (fun idx t => { t with order := idx })

/-- Renumber a subtask array to dense orders. -/
def renumberSubtasks (sts : List Subtask) : List Subtask :=
  sts.mapIdx (fun idx st => { st with order := idx })

/-- Renumber an activity array to dense orders. -/
def renumberActivities (acts : List Activity) : List Activity :=
  acts.mapIdx (fun idx a => { a with order := idx })

/-- Embedding of `deleteTask`: filter the id out of the first list that
loses an element, renumber the survivors and stop. -/
def deleteTask (taskId : Nat) : Store → Store
  | [] => []
  | l :: rest =>
    let filtered := l.tasks.filter (fun t => t.id ≠ taskId)
    if filtered.length < l.tasks.length then
      { l with tasks := renumberTasks filtered } :: rest
    else l :: deleteTask taskId rest

/-- Embedding of `deleteSubtask`: remove the subtask from its parent task,
renumber the surviving siblings, refresh the parent's timestamp. -/
def deleteSubtask (s : Store) (subtaskId : Nat) (now : Int) : Store :=
  match findItemInDraft subtaskId s with
  | some (.subtask _ _) =>
    replaceFirstSubtaskSite subtaskId
      (fun t =>
        let filtered := t.subtasks.filter (fun st => st.id ≠ subtaskId)
        if filtered.length < t.subtasks.length then
          { t with subtasks := renumberSubtasks filtered, lastEditedDate := now }
        else t) s
  | _ => s

/-- Embedding of `deleteActivity`: requires the activity and (per the
source's truthiness test) any item behind `parentSubtask.parentId`; removes
the activity, renumbers, refreshes the subtask and the looked-up parent. -/
def deleteActivity (s : Store) (activityId : Nat) (now : Int) : Store :=
  match findItemInDraft activityId s with
  | some (.activity _ ps) =>
    match findItemInDraft ps.parentId s with
    | some _ =>
      let s2 :=
        replaceFirstActivityContainer activityId
          (fun st =>
            let filtered := st.activities.filter (fun a => a.id ≠ activityId)
            if filtered.length < st.activities.length then
              { st with activities := renumberActivities filtered, lastEditedDate := now }
            else st) s
      bumpLastEdited ps.parentId now s2
    | none => s
  | _ => s

/-- Lookup in the `newOrderMap` built by
`ids.forEach((id, index) => map.set(id, index))`: the last index wins for a
duplicated id, mirroring `Map.set` overwrite. -/
def orderMapGetAux (k : Nat) (idx : Nat) : List Nat → Option Nat
  | [] => none
  | x :: rest =>
    match orderMapGetAux k (idx + 1) rest with
    | some n => some n
    | none => if x = k then some idx else none

/-- Map lookup starting at index 0. -/
def orderMapGet (ids : List Nat) (k : Nat) : Option Nat := orderMapGetAux k 0 ids

/-- Apply the new order mapping to a task array (ids absent from the list
keep their former order). -/
def applyTaskOrders (ids : List Nat) (ts : List Task) : List Task :=
  ts.map (fun t =>
    match orderMapGet ids t.id with
    | some n => { t with order := n }
    | none => t)

/-- Stable ascending sort by `order` (JS `sort((a, b) => a.order - b.order)`). -/
def sortTasksByOrder (ts : List Task) : List Task :=
  List.insertionSort (fun a b => a.order ≤ b.order) ts

/-- Apply the new order mapping to a subtask array. -/
def applySubtaskOrders (ids : List Nat) (sts : List Subtask) : List Subtask :=
  sts.map (fun st =>
    match orderMapGet ids st.id with
    | some n => { st with order := n }
    | none => st)

/-- Stable ascending sort of subtasks by `order`. -/
def sortSubtasksByOrder (sts : List Subtask) : List Subtask :=
  List.insertionSort (fun a b => a.order ≤ b.order) sts

/-- Apply the new order mapping to an activity array. -/
def applyActivityOrders (ids : List Nat) (acts : List Activity) : List Activity :=
  acts.map (fun a =>
    match orderMapGet ids a.id with
    | some n => { a with order := n }
    | none => a)

/-- Stable ascending sort of activities by `order`. -/
def sortActivitiesByOrder (acts : List Activity) : List Activity :=
  List.insertionSort (fun a b => a.order ≤ b.order) acts

/-- Transform the first list carrying the id (`draft.taskLists.find`). -/
def replaceFirstList (listId : Nat) (g : TaskList → TaskList) : Store → Store
  | [] => []
  | l :: rest => if l.id = listId then g l :: rest else l :: replaceFirstList listId g rest

/-- Embedding of `reorderTasks` (lists carry no `sequenceMandatory` lock and
no timestamp). -/
def reorderTasks (s : Store) (listId : Nat) (taskIds : List Nat) : Store :=
  replaceFirstList listId
    (fun l => { l with tasks := sortTasksByOrder (applyTaskOrders taskIds l.tasks) }) s

/-- Embedding of `reorderSubtasks`: rejected outright when the task's
`sequenceMandatory` flag is set. -/
def reorderSubtasks (s : Store) (taskId : Nat) (subtaskIds : List Nat) (now : Int) : Store :=
  match findItemInDraft taskId s with
  | some (.task t _) =>
    if !t.sequenceMandatory then
      replaceFirstTask taskId
        (fun t2 =>
          { t2 with
            subtasks := sortSubtasksByOrder (applySubtaskOrders subtaskIds t2.subtasks),
            lastEditedDate := now }) s
    else s
  | _ => s

/-- Embedding of `reorderActivities`: rejected outright when the subtask's
`sequenceMandatory` flag is set; otherwise the subtask and its (structural)
parent task timestamps are refreshed. -/
def reorderActivities (s : Store) (subtaskId : Nat) (activityIds : List Nat) (now : Int) :
    Store :=
  match findItemInDraft subtaskId s with
  | some (.subtask st _) =>
    if !st.sequenceMandatory then
      replaceFirstSubtaskSite subtaskId
        (fun t =>
          { t with
            lastEditedDate := now,
            subtasks :=
              replaceSubtaskInSubs subtaskId
                (fun st2 =>
                  { st2 with
                    activities :=
                      sortActivitiesByOrder (applyActivityOrders activityIds st2.activities),
                    lastEditedDate := now }) t.subtasks }) s
    else s
  | _ => s

/-- Kind tag of a flattened item. -/
inductive ItemKind where
  | task
  | subtask
  | activity
deriving DecidableEq, Repr, Inhabited

/-- Projection of a Task/Subtask/Activity onto the fields the Today selector
reads (the heterogeneous `(Task | Subtask | Activity)[]` of `getAllItems`).
`parentRef` is `listId` for a task and `parentId` otherwise. -/
structure FlatItem where
  kind : ItemKind
  id : Nat
  parentRef : Nat
  name : String
  status : Status
  priority : Priority
  creationDate : Int
  expectedCompletionDate : Int
deriving DecidableEq, Repr, Inhabited

/-- Flatten a task. -/
def taskFlat (t : Task) : FlatItem :=
  { kind := .task, id := t.id, parentRef := t.listId, name := t.name, status := t.status,
    priority := t.priority, creationDate := t.creationDate,
    expectedCompletionDate := t.expectedCompletionDate }

/-- Flatten a subtask. -/
def subFlat (st : Subtask) : FlatItem :=
  { kind := .subtask, id := st.id, parentRef := st.parentId, name := st.name,
    status := st.status, priority := st.priority, creationDate := st.creationDate,
    expectedCompletionDate := st.expectedCompletionDate }

/-- Flatten an activity. -/
def actFlat (a : Activity) : FlatItem :=
  { kind := .activity, id := a.id, parentRef := a.parentId, name := a.name,
    status := a.status, priority := a.priority, creationDate := a.creationDate,
    expectedCompletionDate := a.expectedCompletionDate }

/-- Embedding of `getAllItemsRecursive`: pre-order flattening, each task
followed by its subtasks, each subtask by its activities. -/
def getAllItems (s : Store) : List FlatItem :=
  s.flatMap (fun l =>
    l.tasks.flatMap (fun t =>
      taskFlat t :: t.subtasks.flatMap (fun st =>
        subFlat st :: st.activities.map actFlat)))

/-- The `priorityScore` table: high 3, medium 2, low 1. -/
def priorityScore : Priority → Int
  | .high => 3
  | .medium => 2
  | .low => 1

/-- The `statusScore` table: inprogress 4, started 3, todo 2, done 0. -/
def statusScore : Status → Int
  | .inprogress => 4
  | .started => 3
  | .todo => 2
  | .done => 0

/-- A row of the Today view (`TodayItem` interface); `originalItem` keeps
the flattened projection of the source's embedded original. -/
structure TodayItem where
  id : Nat
  parentId : Option Nat
  grandparentId : Option Nat
  kind : ItemKind
  name : String
  priority : Priority
  status : Status
  creationDate : Int
  expectedCompletionDate : Int
  isOverdue : Bool
  daysUntilDue : Int
  urgencyScore : Int
  listName : Option String
  taskName : Option String
  subtaskName : Option String
  originalItem : FlatItem
deriving DecidableEq, Repr, Inhabited

/-- Breadcrumb resolution of `getTodayItems`: owning list name, then parent
task / parent subtask names and parent/grandparent ids depending on depth.
Result order: (listName, taskName, subtaskName, parentId, grandparentId). -/
def todayNames (s : Store) (it : FlatItem) :
    Option String × Option String × Option String × Option Nat × Option Nat :=
  let listName := (findParentListRecursive it.id s).map (fun l => l.name)
  match it.kind with
  | .task => (listName, none, none, some it.parentRef, none)
  | _ =>
    match findItemInDraft it.parentRef s with
    | some (.task t _) => (listName, some t.name, none, some it.parentRef, some t.listId)
    | some (.subtask st _) =>
      let taskName :=
        match findItemInDraft st.parentId s with
        | some (.task t2 _) => some t2.name
        | _ => none
      (listName, taskName, some st.name, some it.parentRef, some st.parentId)
    | _ => (listName, none, none, some it.parentRef, none)

/-- One iteration of the `getTodayItems` filter: skip `done`, skip low
priority, keep overdue or due within seven days, compute the urgency score.
The source's `today = new Date()` and date-fns `isPast` (`date < Date.now()`)
collapse to the single instant `now`; date-fns `differenceInDays` is the
day-difference truncated toward zero (`Int.tdiv`). -/
def todayEntry (s : Store) (now : Int) (it : FlatItem) : Option TodayItem :=
  if it.status = Status.done then none
  else if !(it.priority = Priority.high || it.priority = Priority.medium) then none
  else
    let isOverdue := decide (it.expectedCompletionDate < now) && !(it.status = Status.done)
    let daysUntilDue := Int.tdiv (it.expectedCompletionDate - now) msPerDay
    let isDueSoon := decide (daysUntilDue ≤ 7)
    if isOverdue || isDueSoon then
      let score :=
        priorityScore it.priority * 10 + statusScore it.status * 5 - daysUntilDue
          + (if isOverdue then 10 else 0)
      let names := todayNames s it
      some
        { id := it.id, parentId := names.2.2.2.1, grandparentId := names.2.2.2.2,
          kind := it.kind, name := it.name, priority := it.priority, status := it.status,
          creationDate := it.creationDate,
          expectedCompletionDate := it.expectedCompletionDate, isOverdue := isOverdue,
          daysUntilDue := daysUntilDue, urgencyScore := score, listName := names.1,
          taskName := names.2.1, subtaskName := names.2.2.1, originalItem := it }
    else none

/-- Stable descending sort by urgency score
(JS `sort((a, b) => b.urgencyScore - a.urgencyScore)`). -/
def sortTodayByUrgency (l : List TodayItem) : List TodayItem :=
  List.insertionSort (fun a b => b.urgencyScore ≤ a.urgencyScore) l

/-- Embedding of `getTodayItems`. -/
def getTodayItems (s : Store) (now : Int) : List TodayItem :=
  sortTodayByUrgency ((getAllItems s).filterMap (todayEntry s now))

/-- The activity scan only produces `.activity` results, carrying its parent
argument, a member of the scanned array, and the searched id. -/
theorem findInActivities_spec {i : Nat} {ps : Subtask} {acts : List Activity} {r : FindResult}
    (h : findInActivities i ps acts = some r) :
    ∃ a, r = .activity a ps ∧ a ∈ acts ∧ a.id = i := by
  induction acts with
  | nil => simp [findInActivities] at h
  | cons a rest ih =>
    by_cases ha : a.id = i
    · refine ⟨a, ?_, by simp, ha⟩
      simp [findInActivities, ha] at h
      exact h.symm
    · simp only [findInActivities, ha, if_false] at h
      obtain ⟨a2, hr, hm, hid⟩ := ih h
      exact ⟨a2, hr, by simp [hm], hid⟩

/-- The subtask scan produces `.subtask` results under its parent argument
or `.activity` results under one of the scanned subtasks. -/
theorem findInSubtasks_spec {i : Nat} {pt : Task} {sts : List Subtask} {r : FindResult}
    (h : findInSubtasks i pt sts = some r) :
    (∃ st, r = .subtask st pt ∧ st ∈ sts ∧ st.id = i) ∨
    (∃ st a, st ∈ sts ∧ r = .activity a st ∧ a ∈ st.activities ∧ a.id = i) := by
  induction sts with
  | nil => simp [findInSubtasks] at h
  | cons st rest ih =>
    by_cases hst : st.id = i
    · left
      refine ⟨st, ?_, by simp, hst⟩
      simp [findInSubtasks, hst] at h
      exact h.symm
    · simp only [findInSubtasks, hst, if_false] at h
      cases hfa : findInActivities i st st.activities with
      | some r2 =>
        rw [hfa] at h
        obtain ⟨a, hr, hm, hid⟩ := findInActivities_spec hfa
        right
        refine ⟨st, a, by simp, ?_, hm, hid⟩
        simp at h
        rw [← h, hr]
      | none =>
        rw [hfa] at h
        rcases ih h with ⟨st2, hr, hm, hid⟩ | ⟨st2, a, hm, hr, hma, hid⟩
        · exact Or.inl ⟨st2, hr, by simp [hm], hid⟩
        · exact Or.inr ⟨st2, a, by simp [hm], hr, hma, hid⟩

/-- The task scan produces `.task` results under its parent argument or
deeper results under one of the scanned tasks. -/
theorem findInTasks_spec {i : Nat} {pl : TaskList} {ts : List Task} {r : FindResult}
    (h : findInTasks i pl ts = some r) :
    (∃ t, r = .task t pl ∧ t ∈ ts ∧ t.id = i) ∨
    (∃ t, t ∈ ts ∧
      ((∃ st, r = .subtask st t ∧ st ∈ t.subtasks ∧ st.id = i) ∨
        (∃ st a, st ∈ t.subtasks ∧ r = .activity a st ∧ a ∈ st.activities ∧ a.id = i))) := by
  induction ts with
  | nil => simp [findInTasks] at h
  | cons t rest ih =>
    by_cases ht : t.id = i
    · left
      refine ⟨t, ?_, by simp, ht⟩
      simp [findInTasks, ht] at h
      exact h.symm
    · simp only [findInTasks, ht, if_false] at h
      cases hfs : findInSubtasks i t t.subtasks with
      | some r2 =>
        rw [hfs] at h
        simp at h
        right
        refine ⟨t, by simp, ?_⟩
        rcases findInSubtasks_spec hfs with hsub | hact
        · exact Or.inl (by rw [← h]; exact hsub)
        · exact Or.inr (by rw [← h]; exact hact)
      | none =>
        rw [hfs] at h
        rcases ih h with ⟨t2, hr, hm, hid⟩ | ⟨t2, hm, hrest⟩
        · exact Or.inl ⟨t2, hr, by simp [hm], hid⟩
        · exact Or.inr ⟨t2, by simp [hm], hrest⟩

/-- A found task carries the searched id and belongs to the returned list. -/
theorem find_task_id {i : Nat} {s : Store} {t : Task} {pl : TaskList}
    (h : findItemInDraft i s = some (.task t pl)) : t.id = i ∧ t ∈ pl.tasks := by
  induction s with
  | nil => simp [findItemInDraft] at h
  | cons l rest ih =>
    by_cases hl : l.id = i
    · simp [findItemInDraft, hl] at h
    · simp only [findItemInDraft, hl, if_false] at h
      cases hft : findInTasks i l l.tasks with
      | some r2 =>
        rw [hft] at h
        simp at h
        rcases findInTasks_spec hft with ⟨t2, hr, hm, hid⟩ | ⟨t2, _, hrest⟩
        · rw [hr] at h
          injection h with h1 h2
          subst h1; subst h2
          exact ⟨hid, hm⟩
        · rcases hrest with ⟨st, hr, _, _⟩ | ⟨st, a, _, hr, _, _⟩ <;> rw [hr] at h <;> simp at h
      | none =>
        rw [hft] at h
        exact ih h

/-- A found subtask carries the searched id and belongs to the returned
parent task. -/
theorem find_subtask_mem {i : Nat} {s : Store} {st : Subtask} {pt : Task}
    (h : findItemInDraft i s = some (.subtask st pt)) : st.id = i ∧ st ∈ pt.subtasks := by
  induction s with
  | nil => simp [findItemInDraft] at h
  | cons l rest ih =>
    by_cases hl : l.id = i
    · simp [findItemInDraft, hl] at h
    · simp only [findItemInDraft, hl, if_false] at h
      cases hft : findInTasks i l l.tasks with
      | some r2 =>
        rw [hft] at h
        simp at h
        rcases findInTasks_spec hft with ⟨t2, hr, _, _⟩ | ⟨t2, _, hrest⟩
        · rw [hr] at h; simp at h
        · rcases hrest with ⟨st2, hr, hm, hid⟩ | ⟨st2, a, _, hr, _, _⟩ <;> rw [hr] at h
          · injection h with h1 h2
            subst h1; subst h2
            exact ⟨hid, hm⟩
          · simp at h
      | none =>
        rw [hft] at h
        exact ih h

/-- A found activity carries the searched id and belongs to the returned
parent subtask. -/
theorem find_activity_mem {i : Nat} {s : Store} {a : Activity} {ps : Subtask}
    (h : findItemInDraft i s = some (.activity a ps)) : a.id = i ∧ a ∈ ps.activities := by
  induction s with
  | nil => simp [findItemInDraft] at h
  | cons l rest ih =>
    by_cases hl : l.id = i
    · simp [findItemInDraft, hl] at h
    · simp only [findItemInDraft, hl, if_false] at h
      cases hft : findInTasks i l l.tasks with
      | some r2 =>
        rw [hft] at h
        simp at h
        rcases findInTasks_spec hft with ⟨t2, hr, _, _⟩ | ⟨t2, _, hrest⟩
        · rw [hr] at h; simp at h
        · rcases hrest with ⟨st2, hr, _, _⟩ | ⟨st2, a2, _, hr, hma, hid⟩ <;> rw [hr] at h
          · simp at h
          · injection h with h1 h2
            subst h1; subst h2
            exact ⟨hid, hma⟩
      | none =>
        rw [hft] at h
        exact ih h

/-- When the task scan misses, so does the task replacement. -/
theorem replaceTaskInList_none {i : Nat} {pl : TaskList} {ts : List Task}
    (h : findInTasks i pl ts = none) (f : Task → Task) :
    replaceTaskInList i f ts = none := by
  induction ts with
  | nil => rfl
  | cons t rest ih =>
    by_cases ht : t.id = i
    · simp [findInTasks, ht] at h
    · simp only [findInTasks, ht, if_false] at h
      cases hfs : findInSubtasks i t t.subtasks with
      | some r2 => rw [hfs] at h; simp at h
      | none =>
        rw [hfs] at h
        simp [replaceTaskInList, ht, ih h]

/-- When the task scan finds a task, the replacement fires at the same
position and a rescan of the replaced array finds the transformed task
(under any parent), provided the transformation preserves the id. -/
theorem replaceTaskInList_of_find {i : Nat} {pl pl2 : TaskList} {ts : List Task} {t : Task}
    (h : findInTasks i pl ts = some (.task t pl2)) (f : Task → Task) (hid : (f t).id = i) :
    ∃ ts2, replaceTaskInList i f ts = some ts2 ∧
      (f t = t → ts2 = ts) ∧
      ∀ pl3, findInTasks i pl3 ts2 = some (.task (f t) pl3) := by
  induction ts with
  | nil => simp [findInTasks] at h
  | cons t0 rest ih =>
    by_cases ht : t0.id = i
    · simp only [findInTasks] at h
      rw [if_pos ht] at h
      injection h with h2
      injection h2 with h1 _
      subst h1
      refine ⟨f t0 :: rest, by simp [replaceTaskInList, ht], ?_, ?_⟩
      · intro hf; rw [hf]
      · intro pl3
        simp [findInTasks, hid]
    · simp only [findInTasks, ht, if_false] at h
      cases hfs : findInSubtasks i t0 t0.subtasks with
      | some r2 =>
        rw [hfs] at h
        simp at h
        rcases findInSubtasks_spec hfs with ⟨st, hr, _, _⟩ | ⟨st, a, _, hr, _, _⟩ <;>
          rw [hr] at h <;> simp at h
      | none =>
        rw [hfs] at h
        obtain ⟨ts2, hrep, hself, hfind⟩ := ih h
        refine ⟨t0 :: ts2, by simp [replaceTaskInList, ht, hrep], ?_, ?_⟩
        · intro hf; rw [hself hf]
        · intro pl3
          simp [findInTasks, ht, hfs, hfind pl3]

/-- Extract the task of a `.task` find result. -/
def foundTask : Option FindResult → Option Task
  | some (.task t _) => some t
  | _ => none

/-- Store-level version of `replaceTaskInList_of_find`: after replacing the
found task, the same id resolves to the transformed task, and an identity
transformation leaves the store intact. -/
theorem replaceFirstTask_of_find {i : Nat} {s : Store} {t : Task} {pl : TaskList}
    (h : findItemInDraft i s = some (.task t pl)) (f : Task → Task) (hid : (f t).id = i) :
    (f t = t → replaceFirstTask i f s = s) ∧
    foundTask (findItemInDraft i (replaceFirstTask i f s)) = some (f t) := by
  induction s with
  | nil => simp [findItemInDraft] at h
  | cons l rest ih =>
    by_cases hl : l.id = i
    · simp [findItemInDraft, hl] at h
    · simp only [findItemInDraft, hl, if_false] at h
      cases hft : findInTasks i l l.tasks with
      | some r2 =>
        rw [hft] at h
        simp at h
        subst h
        obtain ⟨ts2, hrep, hself, hfind⟩ := replaceTaskInList_of_find hft f hid
        constructor
        · intro hf
          simp [replaceFirstTask, hrep, hself hf]
        · simp [replaceFirstTask, hrep, findItemInDraft, hl, hfind, foundTask]
      | none =>
        rw [hft] at h
        obtain ⟨ihself, ihfind⟩ := ih h
        constructor
        · intro hf
          simp [replaceFirstTask, replaceTaskInList_none hft f, ihself hf]
        · simp [replaceFirstTask, replaceTaskInList_none hft f, findItemInDraft, hl, hft,
            ihfind]

/-- C4: reordering the children of a `sequenceMandatory` container
(`reorderSubtasks` on such a Task, `reorderActivities` on such a Subtask)
is rejected outright and leaves the store completely unchanged. -/
theorem reorder_sequenceMandatory_noop (s : Store) (tid sid : Nat)
    (subtaskIds activityIds : List Nat) (now now2 : Int) :
    (∀ t pl, findItemInDraft tid s = some (.task t pl) → t.sequenceMandatory = true →
      reorderSubtasks s tid subtaskIds now = s) ∧
    (∀ st pt, findItemInDraft sid s = some (.subtask st pt) → st.sequenceMandatory = true →
      reorderActivities s sid activityIds now2 = s) := by
  constructor
  · intro t pl hfind hseq
    simp [reorderSubtasks, hfind, hseq]
  · intro st pt hfind hseq
    simp [reorderActivities, hfind, hseq]

/-- Concrete fixture activity used by the witnesses below. -/
def wAct : Activity :=
  { id := 30, parentId := 20, name := "A", description := some "", creationDate := 0,
    expectedCompletionDate := 10, actualCompletionDate := none, lastEditedDate := 0,
    status := .todo, priority := .medium, order := 0, descriptionHistory := [],
    attachments := [], autoRepeat := false, schedule := blankSchedule,
    reminder := blankReminder, lastInstanceDate := none, notes := "", numericValue := none,
    isSkipped := false, isDue := false, dueCount := 0 }

/-- Concrete fixture subtask. -/
def wSub : Subtask :=
  { id := 20, parentId := 10, name := "S", description := some "", creationDate := 0,
    expectedCompletionDate := 10, actualCompletionDate := none, lastEditedDate := 0,
    status := .todo, priority := .medium, order := 0, serialCompletionMandatory := false,
    sequenceMandatory := false, activities := [], dependencies := [],
    descriptionHistory := [], attachments := [], autoRepeat := false,
    schedule := blankSchedule, reminder := blankReminder }

/-- Concrete fixture task. -/
def wTask : Task :=
  { id := 10, listId := 0, name := "T", description := some "", creationDate := 0,
    expectedCompletionDate := 10, actualCompletionDate := none, lastEditedDate := 0,
    status := .todo, priority := .medium, order := 0, serialCompletionMandatory := false,
    sequenceMandatory := false, subtasks := [], dependencies := [],
    descriptionHistory := [], attachments := [], autoRepeat := false,
    schedule := blankSchedule, reminder := blankReminder }

/-- Concrete fixture list holding one sequence-locked task. -/
def wListSeqLocked : TaskList :=
  { id := 0, name := "P", tasks := [{ wTask with sequenceMandatory := true }] }

/-- Concrete fixture store: one list, one sequence-locked task. -/
def wStoreSeqLocked : Store := [wListSeqLocked]

/-- C4 witness: a concrete sequence-locked task rejects a reorder request. -/
theorem reorder_sequenceMandatory_noop_witness :
    reorderSubtasks wStoreSeqLocked 10 [5, 4] 99 = wStoreSeqLocked := by
  exact (reorder_sequenceMandatory_noop wStoreSeqLocked 10 0 [5, 4] [] 99 0).1
    { wTask with sequenceMandatory := true } wListSeqLocked (by decide) rfl

/-- C8: each update operation returns the not-found failure string and
leaves the store untouched when the id does not resolve to the expected
kind, and returns `true` when it does (for `updateActivity` the success
additionally needs the parent link `parentSubtask.parentId` to resolve,
which holds in every store produced by the operations themselves; a
dangling link is reported as a context failure, also without any state
change). -/
theorem update_notFound_spec (s : Store) (i : Nat) (ut : TaskUpdates) (us : SubtaskUpdates)
    (ua : ActivityUpdates) (now : Int) :
    ((∀ t pl, findItemInDraft i s ≠ some (.task t pl)) →
      updateTask s i ut now = (s, .err (taskNotFoundMsg i))) ∧
    (∀ t pl, findItemInDraft i s = some (.task t pl) →
      (updateTask s i ut now).2 = .ok) ∧
    ((∀ st pt, findItemInDraft i s ≠ some (.subtask st pt)) →
      updateSubtask s i us now = (s, .err (subtaskNotFoundMsg i))) ∧
    (∀ st pt, findItemInDraft i s = some (.subtask st pt) →
      (updateSubtask s i us now).2 = .ok) ∧
    ((∀ a ps, findItemInDraft i s ≠ some (.activity a ps)) →
      updateActivity s i ua now = (s, .err (activityNotFoundMsg i))) ∧
    (∀ a ps, findItemInDraft i s = some (.activity a ps) →
      findItemInDraft ps.parentId s = none →
      updateActivity s i ua now = (s, .err (activityContextMsg i))) ∧
    (∀ a ps, findItemInDraft i s = some (.activity a ps) →
      (findItemInDraft ps.parentId s).isSome →
      (updateActivity s i ua now).2 = .ok) := by
  refine ⟨?_, ?_, ?_, ?_, ?_, ?_, ?_⟩
  · intro hn
    unfold updateTask
    cases hf : findItemInDraft i s with
    | none => rfl
    | some r =>
      cases r with
      | task t pl => exact absurd hf (hn t pl)
      | taskList l => rfl
      | subtask st pt => rfl
      | activity a ps => rfl
  · intro t pl hf
    simp [updateTask, hf]
  · intro hn
    unfold updateSubtask
    cases hf : findItemInDraft i s with
    | none => rfl
    | some r =>
      cases r with
      | subtask st pt => exact absurd hf (hn st pt)
      | taskList l => rfl
      | task t pl => rfl
      | activity a ps => rfl
  · intro st pt hf
    simp [updateSubtask, hf]
  · intro hn
    unfold updateActivity
    cases hf : findItemInDraft i s with
    | none => rfl
    | some r =>
      cases r with
      | activity a ps => exact absurd hf (hn a ps)
      | taskList l => rfl
      | task t pl => rfl
      | subtask st pt => rfl
  · intro a ps hf hp
    simp [updateActivity, hf, hp]
  · intro a ps hf hp
    cases hp2 : findItemInDraft ps.parentId s with
    | none => rw [hp2] at hp; simp at hp
    | some r2 => simp [updateActivity, hf, hp2]

/-- Concrete fixture store: one list, one plain task. -/
def wStorePlain : Store := [{ id := 0, name := "P", tasks := [wTask] }]

/-- C8 witness: on a one-task store, an unknown id fails with the message
and an identical store. -/
theorem update_notFound_spec_witness :
    updateTask wStorePlain 99 {} 5 = (wStorePlain, .err (taskNotFoundMsg 99)) := by
  refine (update_notFound_spec wStorePlain 99 {} {} {} 5).1 ?_
  intro t pl h
  have hn : findItemInDraft 99 wStorePlain = none := by decide
  rw [hn] at h
  cases h

/-- Computation of `applyTaskUpdates` for an update containing only a
creationDate that overshoots the expected completion bound: the clamp in
the creationDate branch pulls the creation date back. -/
theorem applyTaskUpdates_creation_overshoot (t : Task) (d now : Int)
    (hne : t.expectedCompletionDate < d) (hinv : t.creationDate ≤ t.expectedCompletionDate) :
    (applyTaskUpdates t { creationDate := some d } now).id = t.id ∧
      (applyTaskUpdates t { creationDate := some d } now).creationDate =
        t.expectedCompletionDate ∧
      (applyTaskUpdates t { creationDate := some d } now).expectedCompletionDate =
        t.expectedCompletionDate := by
  have hne2 : ¬d = t.creationDate := by omega
  simp [applyTaskUpdates, taskHistoryStep, taskLoop, taskFinish, taskStepName,
    taskStepDescription, taskStepCreation, taskStepExpected, taskStepActual, taskStepStatus,
    taskStepPriority, taskStepSerial, taskStepSequence, taskStepAutoRepeat, hne2, hne]

/-- C9: when `updateTask` receives only a `creationDate` strictly later than
the task's current `expectedCompletionDate`, the update succeeds and the
resulting task has its creation date pulled back to the (unchanged)
expected-completion bound rather than pushing that bound forward. -/
theorem updateTask_creation_clamped {s : Store} {tid : Nat} {t : Task} {pl : TaskList}
    (d now : Int)
    (hfind : findItemInDraft tid s = some (.task t pl))
    (hinv : t.creationDate ≤ t.expectedCompletionDate)
    (hd : t.expectedCompletionDate < d) :
    (updateTask s tid { creationDate := some d } now).2 = .ok ∧
      (foundTask (findItemInDraft tid
          (updateTask s tid { creationDate := some d } now).1)).map
          (fun t2 => (t2.creationDate, t2.expectedCompletionDate)) =
        some (t.expectedCompletionDate, t.expectedCompletionDate) := by
  obtain ⟨hid0, _⟩ := find_task_id hfind
  obtain ⟨hidn, hcre, hexp⟩ := applyTaskUpdates_creation_overshoot t d now hd hinv
  have hid : (applyTaskUpdates t { creationDate := some d } now).id = tid := by
    rw [hidn, hid0]
  obtain ⟨_, hrefind⟩ :=
    replaceFirstTask_of_find hfind (fun t2 => applyTaskUpdates t2 { creationDate := some d } now)
      hid
  constructor
  · simp [updateTask, hfind]
  · simp only [updateTask, hfind]
    rw [hrefind]
    simp [hcre, hexp]

/-- Fixture list for the C9 witness: one plain task with creation 0 and
expected completion 10. -/
def wListC9 : TaskList := { id := 0, name := "P", tasks := [wTask] }

/-- Fixture store for the C9 witness. -/
def wStoreC9 : Store := [wListC9]

/-- C9 witness: setting creation to 50 on a task expected at 10 yields
creation = expected = 10. -/
theorem updateTask_creation_clamped_witness :
    (updateTask wStoreC9 10 { creationDate := some 50 } 77).2 = .ok ∧
      (foundTask (findItemInDraft 10
          (updateTask wStoreC9 10 { creationDate := some 50 } 77).1)).map
          (fun t2 => (t2.creationDate, t2.expectedCompletionDate)) = some (10, 10) := by
  exact @updateTask_creation_clamped wStoreC9 10 wTask wListC9 50 77 (by decide) (by decide)
    (by decide)

/-- A name key equal to the current value leaves the loop state unchanged. -/
theorem taskStepName_noop {u : TaskUpdates} {t : Task}
    (h : ∀ v, u.name = some v → v = t.name) (b : Bool) : taskStepName u (t, b) = (t, b) := by
  cases hn : u.name with
  | none => simp [taskStepName, hn]
  | some v => simp [taskStepName, hn, h v hn]

/-- An absent creationDate key leaves the loop state unchanged. -/
theorem taskStepCreation_noop {u : TaskUpdates} (h : u.creationDate = none) (p : Task × Bool) :
    taskStepCreation u p = p := by
  simp [taskStepCreation, h]

/-- An absent expectedCompletionDate key leaves the loop state unchanged. -/
theorem taskStepExpected_noop {u : TaskUpdates} (h : u.expectedCompletionDate = none)
    (p : Task × Bool) : taskStepExpected u p = p := by
  simp [taskStepExpected, h]

/-- An absent actualCompletionDate key leaves the loop state unchanged. -/
theorem taskStepActual_noop {u : TaskUpdates} (h : u.actualCompletionDate = none)
    (p : Task × Bool) : taskStepActual u p = p := by
  simp [taskStepActual, h]

/-- A status key equal to the current value leaves the loop state unchanged. -/
theorem taskStepStatus_noop {u : TaskUpdates} {t : Task}
    (h : ∀ v, u.status = some v → v = t.status) (b : Bool) :
    taskStepStatus u (t, b) = (t, b) := by
  cases hn : u.status with
  | none => simp [taskStepStatus, hn]
  | some v => simp [taskStepStatus, hn, h v hn]

/-- A priority key equal to the current value leaves the loop state unchanged. -/
theorem taskStepPriority_noop {u : TaskUpdates} {t : Task}
    (h : ∀ v, u.priority = some v → v = t.priority) (b : Bool) :
    taskStepPriority u (t, b) = (t, b) := by
  cases hn : u.priority with
  | none => simp [taskStepPriority, hn]
  | some v => simp [taskStepPriority, hn, h v hn]

/-- A serialCompletionMandatory key equal to the current value leaves the
loop state unchanged. -/
theorem taskStepSerial_noop {u : TaskUpdates} {t : Task}
    (h : ∀ v, u.serialCompletionMandatory = some v → v = t.serialCompletionMandatory)
    (b : Bool) : taskStepSerial u (t, b) = (t, b) := by
  cases hn : u.serialCompletionMandatory with
  | none => simp [taskStepSerial, hn]
  | some v => simp [taskStepSerial, hn, h v hn]

/-- A sequenceMandatory key equal to the current value leaves the loop
state unchanged. -/
theorem taskStepSequence_noop {u : TaskUpdates} {t : Task}
    (h : ∀ v, u.sequenceMandatory = some v → v = t.sequenceMandatory) (b : Bool) :
    taskStepSequence u (t, b) = (t, b) := by
  cases hn : u.sequenceMandatory with
  | none => simp [taskStepSequence, hn]
  | some v => simp [taskStepSequence, hn, h v hn]

/-- An autoRepeat key equal to the current value leaves the loop state
unchanged. -/
theorem taskStepAutoRepeat_noop {u : TaskUpdates} {t : Task}
    (h : ∀ v, u.autoRepeat = some v → v = t.autoRepeat) (b : Bool) :
    taskStepAutoRepeat u (t, b) = (t, b) := by
  cases hn : u.autoRepeat with
  | none => simp [taskStepAutoRepeat, hn]
  | some v => simp [taskStepAutoRepeat, hn, h v hn]

/-- C10: an `updateTask` whose partial update carries no date keys (and no
schedule/reminder keys, which its TS parameter type already excludes) and
whose present fields all equal the task's current values returns `true` and
leaves the entire store unchanged; in particular `lastEditedDate` is not
refreshed. -/
theorem updateTask_noop_when_unchanged {s : Store} {tid : Nat} {t : Task} {pl : TaskList}
    (u : TaskUpdates) (now : Int)
    (hfind : findItemInDraft tid s = some (.task t pl))
    (hcre : u.creationDate = none) (hexp : u.expectedCompletionDate = none)
    (hact : u.actualCompletionDate = none)
    (hname : ∀ v, u.name = some v → v = t.name)
    (hdesc : ∀ v, u.description = some v → v = t.description.getD "")
    (hstatus : ∀ v, u.status = some v → v = t.status)
    (hprio : ∀ v, u.priority = some v → v = t.priority)
    (hserial : ∀ v, u.serialCompletionMandatory = some v → v = t.serialCompletionMandatory)
    (hseq : ∀ v, u.sequenceMandatory = some v → v = t.sequenceMandatory)
    (hauto : ∀ v, u.autoRepeat = some v → v = t.autoRepeat) :
    updateTask s tid u now = (s, .ok) := by
  have hft : applyTaskUpdates t u now = t := by
    cases hdd : u.description with
    | none =>
      simp [applyTaskUpdates, taskHistoryStep, taskLoop, taskFinish, hdd,
        taskStepDescription, hcre, hexp,
        taskStepName_noop hname, taskStepCreation_noop hcre, taskStepExpected_noop hexp,
        taskStepActual_noop hact, taskStepStatus_noop hstatus, taskStepPriority_noop hprio,
        taskStepSerial_noop hserial, taskStepSequence_noop hseq,
        taskStepAutoRepeat_noop hauto]
    | some v =>
      have hveq := hdesc v hdd
      simp [applyTaskUpdates, taskHistoryStep, taskLoop, taskFinish, hdd,
        taskStepDescription, hveq, hcre, hexp,
        taskStepName_noop hname, taskStepCreation_noop hcre, taskStepExpected_noop hexp,
        taskStepActual_noop hact, taskStepStatus_noop hstatus, taskStepPriority_noop hprio,
        taskStepSerial_noop hserial, taskStepSequence_noop hseq,
        taskStepAutoRepeat_noop hauto]
  have hid : (applyTaskUpdates t u now).id = tid := by
    rw [hft]; exact (find_task_id hfind).1
  obtain ⟨hself, _⟩ :=
    replaceFirstTask_of_find hfind (fun t2 => applyTaskUpdates t2 u now) hid
  simp [updateTask, hfind, hself hft]

/-- C10 witness: re-sending the current name/priority/status changes
nothing. -/
theorem updateTask_noop_when_unchanged_witness :
    updateTask wStoreC9 10
        { name := some "T", status := some .todo, priority := some .medium } 77 =
      (wStoreC9, .ok) := by
  refine @updateTask_noop_when_unchanged wStoreC9 10 wTask wListC9
    { name := some "T", status := some .todo, priority := some .medium } 77
    (by decide) rfl rfl rfl ?_ ?_ ?_ ?_ ?_ ?_ ?_ <;> intro v hv <;> simp at hv <;>
    subst hv <;> rfl

/-- C3: `canStartItem` returns true for TaskLists and top-level Tasks; for
an item under a `serialCompletionMandatory` container (a Subtask under a
Task, an Activity under a Subtask, with duplicate-free sibling ids) it
returns true exactly when every sibling with a strictly lower order has
status `done`; a non-serial container never gates. -/
theorem canStartItem_spec (s : Store) (i : Nat) :
    (∀ st pt, findItemInDraft i s = some (.subtask st pt) →
      (pt.subtasks.map (fun st2 => st2.id)).Nodup →
      (canStartItem s i = true ↔
        (pt.serialCompletionMandatory = false ∨
          ∀ sib ∈ pt.subtasks, sib.order < st.order → sib.status = Status.done))) ∧
    (∀ a ps, findItemInDraft i s = some (.activity a ps) →
      (ps.activities.map (fun a2 => a2.id)).Nodup →
      (canStartItem s i = true ↔
        (ps.serialCompletionMandatory = false ∨
          ∀ sib ∈ ps.activities, sib.order < a.order → sib.status = Status.done))) ∧
    (∀ t pl, findItemInDraft i s = some (.task t pl) → canStartItem s i = true) ∧
    (∀ l, findItemInDraft i s = some (.taskList l) → canStartItem s i = true) := by
  refine ⟨?_, ?_, ?_, ?_⟩
  · intro st pt hfind hnodup
    obtain ⟨_, hmem⟩ := find_subtask_mem hfind
    simp only [canStartItem, hfind]
    cases hser : pt.serialCompletionMandatory
    · simp [hser]
    · simp only [hser, Bool.not_true, Bool.false_eq_true, if_false, List.all_eq_true,
        Bool.or_eq_true, decide_eq_true_eq, Bool.not_eq_true', decide_eq_false_iff_not]
      constructor
      · intro hall
        refine Or.inr ?_
        intro sib hsib horder
        rcases hall sib hsib with (hcase | hcase) | hcase
        · have hss : sib = st := List.inj_on_of_nodup_map hnodup hsib hmem hcase
          subst hss
          omega
        · omega
        · exact hcase
      · intro hor sib hsib
        rcases hor with hor | hor
        · cases hor
        · by_cases ho : sib.order < st.order
          · simp [hor sib hsib ho]
          · simp [ho]
  · intro a ps hfind hnodup
    obtain ⟨_, hmem⟩ := find_activity_mem hfind
    simp only [canStartItem, hfind]
    cases hser : ps.serialCompletionMandatory
    · simp [hser]
    · simp only [hser, Bool.not_true, Bool.false_eq_true, if_false, List.all_eq_true,
        Bool.or_eq_true, decide_eq_true_eq, Bool.not_eq_true', decide_eq_false_iff_not]
      constructor
      · intro hall
        refine Or.inr ?_
        intro sib hsib horder
        rcases hall sib hsib with (hcase | hcase) | hcase
        · have hss : sib = a := List.inj_on_of_nodup_map hnodup hsib hmem hcase
          subst hss
          omega
        · omega
        · exact hcase
      · intro hor sib hsib
        rcases hor with hor | hor
        · cases hor
        · by_cases ho : sib.order < a.order
          · simp [hor sib hsib ho]
          · simp [ho]
  · intro t pl hfind
    simp [canStartItem, hfind]
  · intro l hfind
    simp [canStartItem, hfind]

/-- First subtask fixture for the C3 witness (order 0, not done). -/
def wSubA : Subtask := { wSub with id := 20, order := 0, status := .todo }

/-- Second subtask fixture for the C3 witness (order 1). -/
def wSubB : Subtask := { wSub with id := 21, order := 1 }

/-- Serial task fixture for the C3 witness. -/
def wTaskSerial : Task :=
  { wTask with serialCompletionMandatory := true, subtasks := [wSubA, wSubB] }

/-- Store fixture for the C3 witness. -/
def wStoreC3 : Store := [{ id := 0, name := "P", tasks := [wTaskSerial] }]

/-- C3 witness: under a serial parent, the order-1 subtask is blocked while
the order-0 sibling is still `todo`. -/
theorem canStartItem_spec_witness : canStartItem wStoreC3 21 = false := by
  have h := (canStartItem_spec wStoreC3 21).1 wSubB wTaskSerial (by decide) (by decide)
  rw [Bool.eq_false_iff]
  intro h2
  have h3 := h.mp h2
  revert h3
  decide

/-- `taskStepName` leaves `id` unchanged. -/
theorem taskStepName_id (u : TaskUpdates) (p : Task × Bool) :
    (taskStepName u p).1.id = p.1.id := by
  cases h : u.name
  · simp [taskStepName, h]
  · simp only [taskStepName, h]
    split_ifs <;> simp

/-- `taskStepName` leaves `creationDate` unchanged. -/
theorem taskStepName_cre (u : TaskUpdates) (p : Task × Bool) :
    (taskStepName u p).1.creationDate = p.1.creationDate := by
  cases h : u.name
  · simp [taskStepName, h]
  · simp only [taskStepName, h]
    split_ifs <;> simp

/-- `taskStepName` leaves `expectedCompletionDate` unchanged. -/
theorem taskStepName_exp (u : TaskUpdates) (p : Task × Bool) :
    (taskStepName u p).1.expectedCompletionDate = p.1.expectedCompletionDate := by
  cases h : u.name
  · simp [taskStepName, h]
  · simp only [taskStepName, h]
    split_ifs <;> simp

/-- `taskStepName` leaves `subtasks` unchanged. -/
theorem taskStepName_subs (u : TaskUpdates) (p : Task × Bool) :
    (taskStepName u p).1.subtasks = p.1.subtasks := by
  cases h : u.name
  · simp [taskStepName, h]
  · simp only [taskStepName, h]
    split_ifs <;> simp

/-- `taskStepDescription` leaves `id` unchanged. -/
theorem taskStepDescription_id (u : TaskUpdates) (p : Task × Bool) :
    (taskStepDescription u p).1.id = p.1.id := by
  cases h : u.description
  · simp [taskStepDescription, h]
  · simp only [taskStepDescription, h]
    split_ifs <;> simp

/-- `taskStepDescription` leaves `creationDate` unchanged. -/
theorem taskStepDescription_cre (u : TaskUpdates) (p : Task × Bool) :
    (taskStepDescription u p).1.creationDate = p.1.creationDate := by
  cases h : u.description
  · simp [taskStepDescription, h]
  · simp only [taskStepDescription, h]
    split_ifs <;> simp

/-- `taskStepDescription` leaves `expectedCompletionDate` unchanged. -/
theorem taskStepDescription_exp (u : TaskUpdates) (p : Task × Bool) :
    (taskStepDescription u p).1.expectedCompletionDate = p.1.expectedCompletionDate := by
  cases h : u.description
  · simp [taskStepDescription, h]
  · simp only [taskStepDescription, h]
    split_ifs <;> simp

/-- `taskStepDescription` leaves `subtasks` unchanged. -/
theorem taskStepDescription_subs (u : TaskUpdates) (p : Task × Bool) :
    (taskStepDescription u p).1.subtasks = p.1.subtasks := by
  cases h : u.description
  · simp [taskStepDescription, h]
  · simp only [taskStepDescription, h]
    split_ifs <;> simp

/-- `taskStepCreation` leaves `id` unchanged. -/
theorem taskStepCreation_id (u : TaskUpdates) (p : Task × Bool) :
    (taskStepCreation u p).1.id = p.1.id := by
  cases h : u.creationDate
  · simp [taskStepCreation, h]
  · simp only [taskStepCreation, h]
    split_ifs <;> simp

/-- `taskStepCreation` leaves `subtasks` unchanged. -/
theorem taskStepCreation_subs (u : TaskUpdates) (p : Task × Bool) :
    (taskStepCreation u p).1.subtasks = p.1.subtasks := by
  cases h : u.creationDate
  · simp [taskStepCreation, h]
  · simp only [taskStepCreation, h]
    split_ifs <;> simp

/-- `taskStepExpected` leaves `id` unchanged. -/
theorem taskStepExpected_id (u : TaskUpdates) (p : Task × Bool) :
    (taskStepExpected u p).1.id = p.1.id := by
  cases h : u.expectedCompletionDate
  · simp [taskStepExpected, h]
  · simp only [taskStepExpected, h]
    split_ifs <;> simp

/-- `taskStepExpected` leaves `subtasks` unchanged. -/
theorem taskStepExpected_subs (u : TaskUpdates) (p : Task × Bool) :
    (taskStepExpected u p).1.subtasks = p.1.subtasks := by
  cases h : u.expectedCompletionDate
  · simp [taskStepExpected, h]
  · simp only [taskStepExpected, h]
    split_ifs <;> simp

/-- `taskStepActual` leaves `id` unchanged. -/
theorem taskStepActual_id (u : TaskUpdates) (p : Task × Bool) :
    (taskStepActual u p).1.id = p.1.id := by
  cases h : u.actualCompletionDate
  · simp [taskStepActual, h]
  · simp only [taskStepActual, h]
    split_ifs <;> simp

/-- `taskStepActual` leaves `creationDate` unchanged. -/
theorem taskStepActual_cre (u : TaskUpdates) (p : Task × Bool) :
    (taskStepActual u p).1.creationDate = p.1.creationDate := by
  cases h : u.actualCompletionDate
  · simp [taskStepActual, h]
  · simp only [taskStepActual, h]
    split_ifs <;> simp

/-- `taskStepActual` leaves `expectedCompletionDate` unchanged. -/
theorem taskStepActual_exp (u : TaskUpdates) (p : Task × Bool) :
    (taskStepActual u p).1.expectedCompletionDate = p.1.expectedCompletionDate := by
  cases h : u.actualCompletionDate
  · simp [taskStepActual, h]
  · simp only [taskStepActual, h]
    split_ifs <;> simp

/-- `taskStepActual` leaves `subtasks` unchanged. -/
theorem taskStepActual_subs (u : TaskUpdates) (p : Task × Bool) :
    (taskStepActual u p).1.subtasks = p.1.subtasks := by
  cases h : u.actualCompletionDate
  · simp [taskStepActual, h]
  · simp only [taskStepActual, h]
    split_ifs <;> simp

/-- `taskStepStatus` leaves `id` unchanged. -/
theorem taskStepStatus_id (u : TaskUpdates) (p : Task × Bool) :
    (taskStepStatus u p).1.id = p.1.id := by
  cases h : u.status
  · simp [taskStepStatus, h]
  · simp only [taskStepStatus, h]
    split_ifs <;> simp

/-- `taskStepStatus` leaves `creationDate` unchanged. -/
theorem taskStepStatus_cre (u : TaskUpdates) (p : Task × Bool) :
    (taskStepStatus u p).1.creationDate = p.1.creationDate := by
  cases h : u.status
  · simp [taskStepStatus, h]
  · simp only [taskStepStatus, h]
    split_ifs <;> simp

/-- `taskStepStatus` leaves `expectedCompletionDate` unchanged. -/
theorem taskStepStatus_exp (u : TaskUpdates) (p : Task × Bool) :
    (taskStepStatus u p).1.expectedCompletionDate = p.1.expectedCompletionDate := by
  cases h : u.status
  · simp [taskStepStatus, h]
  · simp only [taskStepStatus, h]
    split_ifs <;> simp

/-- `taskStepStatus` leaves `subtasks` unchanged. -/
theorem taskStepStatus_subs (u : TaskUpdates) (p : Task × Bool) :
    (taskStepStatus u p).1.subtasks = p.1.subtasks := by
  cases h : u.status
  · simp [taskStepStatus, h]
  · simp only [taskStepStatus, h]
    split_ifs <;> simp

/-- `taskStepPriority` leaves `id` unchanged. -/
theorem taskStepPriority_id (u : TaskUpdates) (p : Task × Bool) :
    (taskStepPriority u p).1.id = p.1.id := by
  cases h : u.priority
  · simp [taskStepPriority, h]
  · simp only [taskStepPriority, h]
    split_ifs <;> simp

/-- `taskStepPriority` leaves `creationDate` unchanged. -/
theorem taskStepPriority_cre (u : TaskUpdates) (p : Task × Bool) :
    (taskStepPriority u p).1.creationDate = p.1.creationDate := by
  cases h : u.priority
  · simp [taskStepPriority, h]
  · simp only [taskStepPriority, h]
    split_ifs <;> simp

/-- `taskStepPriority` leaves `expectedCompletionDate` unchanged. -/
theorem taskStepPriority_exp (u : TaskUpdates) (p : Task × Bool) :
    (taskStepPriority u p).1.expectedCompletionDate = p.1.expectedCompletionDate := by
  cases h : u.priority
  · simp [taskStepPriority, h]
  · simp only [taskStepPriority, h]
    split_ifs <;> simp

/-- `taskStepPriority` leaves `subtasks` unchanged. -/
theorem taskStepPriority_subs (u : TaskUpdates) (p : Task × Bool) :
    (taskStepPriority u p).1.subtasks = p.1.subtasks := by
  cases h : u.priority
  · simp [taskStepPriority, h]
  · simp only [taskStepPriority, h]
    split_ifs <;> simp

/-- `taskStepSerial` leaves `id` unchanged. -/
theorem taskStepSerial_id (u : TaskUpdates) (p : Task × Bool) :
    (taskStepSerial u p).1.id = p.1.id := by
  cases h : u.serialCompletionMandatory
  · simp [taskStepSerial, h]
  · simp only [taskStepSerial, h]
    split_ifs <;> simp

/-- `taskStepSerial` leaves `creationDate` unchanged. -/
theorem taskStepSerial_cre (u : TaskUpdates) (p : Task × Bool) :
    (taskStepSerial u p).1.creationDate = p.1.creationDate := by
  cases h : u.serialCompletionMandatory
  · simp [taskStepSerial, h]
  · simp only [taskStepSerial, h]
    split_ifs <;> simp

/-- `taskStepSerial` leaves `expectedCompletionDate` unchanged. -/
theorem taskStepSerial_exp (u : TaskUpdates) (p : Task × Bool) :
    (taskStepSerial u p).1.expectedCompletionDate = p.1.expectedCompletionDate := by
  cases h : u.serialCompletionMandatory
  · simp [taskStepSerial, h]
  · simp only [taskStepSerial, h]
    split_ifs <;> simp

/-- `taskStepSerial` leaves `subtasks` unchanged. -/
theorem taskStepSerial_subs (u : TaskUpdates) (p : Task × Bool) :
    (taskStepSerial u p).1.subtasks = p.1.subtasks := by
  cases h : u.serialCompletionMandatory
  · simp [taskStepSerial, h]
  · simp only [taskStepSerial, h]
    split_ifs <;> simp

/-- `taskStepSequence` leaves `id` unchanged. -/
theorem taskStepSequence_id (u : TaskUpdates) (p : Task × Bool) :
    (taskStepSequence u p).1.id = p.1.id := by
  cases h : u.sequenceMandatory
  · simp [taskStepSequence, h]
  · simp only [taskStepSequence, h]
    split_ifs <;> simp

/-- `taskStepSequence` leaves `creationDate` unchanged. -/
theorem taskStepSequence_cre (u : TaskUpdates) (p : Task × Bool) :
    (taskStepSequence u p).1.creationDate = p.1.creationDate := by
  cases h : u.sequenceMandatory
  · simp [taskStepSequence, h]
  · simp only [taskStepSequence, h]
    split_ifs <;> simp

/-- `taskStepSequence` leaves `expectedCompletionDate` unchanged. -/
theorem taskStepSequence_exp (u : TaskUpdates) (p : Task × Bool) :
    (taskStepSequence u p).1.expectedCompletionDate = p.1.expectedCompletionDate := by
  cases h : u.sequenceMandatory
  · simp [taskStepSequence, h]
  · simp only [taskStepSequence, h]
    split_ifs <;> simp

/-- `taskStepSequence` leaves `subtasks` unchanged. -/
theorem taskStepSequence_subs (u : TaskUpdates) (p : Task × Bool) :
    (taskStepSequence u p).1.subtasks = p.1.subtasks := by
  cases h : u.sequenceMandatory
  · simp [taskStepSequence, h]
  · simp only [taskStepSequence, h]
    split_ifs <;> simp

/-- `taskStepAutoRepeat` leaves `id` unchanged. -/
theorem taskStepAutoRepeat_id (u : TaskUpdates) (p : Task × Bool) :
    (taskStepAutoRepeat u p).1.id = p.1.id := by
  cases h : u.autoRepeat
  · simp [taskStepAutoRepeat, h]
  · simp only [taskStepAutoRepeat, h]
    split_ifs <;> simp

/-- `taskStepAutoRepeat` leaves `creationDate` unchanged. -/
theorem taskStepAutoRepeat_cre (u : TaskUpdates) (p : Task × Bool) :
    (taskStepAutoRepeat u p).1.creationDate = p.1.creationDate := by
  cases h : u.autoRepeat
  · simp [taskStepAutoRepeat, h]
  · simp only [taskStepAutoRepeat, h]
    split_ifs <;> simp

/-- `taskStepAutoRepeat` leaves `expectedCompletionDate` unchanged. -/
theorem taskStepAutoRepeat_exp (u : TaskUpdates) (p : Task × Bool) :
    (taskStepAutoRepeat u p).1.expectedCompletionDate = p.1.expectedCompletionDate := by
  cases h : u.autoRepeat
  · simp [taskStepAutoRepeat, h]
  · simp only [taskStepAutoRepeat, h]
    split_ifs <;> simp

/-- `taskStepAutoRepeat` leaves `subtasks` unchanged. -/
theorem taskStepAutoRepeat_subs (u : TaskUpdates) (p : Task × Bool) :
    (taskStepAutoRepeat u p).1.subtasks = p.1.subtasks := by
  cases h : u.autoRepeat
  · simp [taskStepAutoRepeat, h]
  · simp only [taskStepAutoRepeat, h]
    split_ifs <;> simp

/-- The description-history hook leaves ids, dates and subtasks unchanged. -/
theorem taskHistoryStep_pres (u : TaskUpdates) (t : Task) :
    (taskHistoryStep u t).1.id = t.id ∧
      (taskHistoryStep u t).1.creationDate = t.creationDate ∧
      (taskHistoryStep u t).1.expectedCompletionDate = t.expectedCompletionDate ∧
      (taskHistoryStep u t).1.subtasks = t.subtasks := by
  cases h : u.description
  · simp [taskHistoryStep, h]
  · simp only [taskHistoryStep, h]
    split_ifs <;> simp

/-- After the creationDate and expectedCompletionDate branches (in either
role), `expected >= creation` holds provided it held before. -/
theorem taskStepCE_inv (u : TaskUpdates) (p : Task × Bool)
    (h : p.1.creationDate ≤ p.1.expectedCompletionDate) :
    (taskStepExpected u (taskStepCreation u p)).1.creationDate ≤
      (taskStepExpected u (taskStepCreation u p)).1.expectedCompletionDate := by
  cases hc : u.creationDate <;> cases he : u.expectedCompletionDate <;>
    simp only [taskStepCreation, taskStepExpected, hc, he] <;>
    (try split_ifs) <;> (try simp_all) <;> omega

/-- The update loop preserves the id and the subtasks and re-establishes
`expected >= creation`. -/
theorem taskLoop_inv (u : TaskUpdates) (p : Task × Bool)
    (h : p.1.creationDate ≤ p.1.expectedCompletionDate) :
    (taskLoop u p).1.creationDate ≤ (taskLoop u p).1.expectedCompletionDate ∧
      (taskLoop u p).1.subtasks = p.1.subtasks ∧ (taskLoop u p).1.id = p.1.id := by
  unfold taskLoop
  refine ⟨?_, ?_, ?_⟩
  · simp only [taskStepAutoRepeat_cre, taskStepAutoRepeat_exp, taskStepSequence_cre,
      taskStepSequence_exp, taskStepSerial_cre, taskStepSerial_exp, taskStepPriority_cre,
      taskStepPriority_exp, taskStepStatus_cre, taskStepStatus_exp, taskStepActual_cre,
      taskStepActual_exp]
    refine taskStepCE_inv u _ ?_
    simp only [taskStepDescription_cre, taskStepDescription_exp, taskStepName_cre,
      taskStepName_exp]
    exact h
  · simp only [taskStepAutoRepeat_subs, taskStepSequence_subs, taskStepSerial_subs,
      taskStepPriority_subs, taskStepStatus_subs, taskStepActual_subs, taskStepExpected_subs,
      taskStepCreation_subs, taskStepDescription_subs, taskStepName_subs]
  · simp only [taskStepAutoRepeat_id, taskStepSequence_id, taskStepSerial_id,
      taskStepPriority_id, taskStepStatus_id, taskStepActual_id, taskStepExpected_id,
      taskStepCreation_id, taskStepDescription_id, taskStepName_id]

/-- The date invariant of spec section 3 for one activity:
`expectedCompletionDate >= creationDate`. -/
def activityDatesOk (a : Activity) : Bool :=
  decide (a.creationDate ≤ a.expectedCompletionDate)

/-- The date invariant for a subtask and all its activities. -/
def subtaskDatesOk (st : Subtask) : Bool :=
  decide (st.creationDate ≤ st.expectedCompletionDate) && st.activities.all activityDatesOk

/-- The date invariant for a task and all its descendants. -/
def taskDatesOk (t : Task) : Bool :=
  decide (t.creationDate ≤ t.expectedCompletionDate) && t.subtasks.all subtaskDatesOk

/-- The date invariant for every item of the store. -/
def storeDatesOk (s : Store) : Bool := s.all (fun l => l.tasks.all taskDatesOk)

/-- The activity cascade always leaves `expected >= creation`. -/
theorem cascadeActivity_ok (pc pe now : Int) (a : Activity) :
    activityDatesOk (cascadeActivity pc pe now a) = true := by
  simp only [cascadeActivity, activityDatesOk, decide_eq_true_eq]
  split_ifs <;> (try simp_all) <;> omega

/-- The subtask cascade always leaves the subtask and each of its
activities with `expected >= creation`. -/
theorem cascadeSubtask_ok (pc pe now : Int) (st : Subtask) :
    subtaskDatesOk (cascadeSubtask pc pe now st) = true := by
  simp only [cascadeSubtask, subtaskDatesOk, Bool.and_eq_true]
  constructor
  · simp only [decide_eq_true_eq]
    split_ifs <;> (try simp_all) <;> omega
  · simp only [List.all_eq_true]
    intro a ha
    obtain ⟨b, hb, rfl⟩ := List.mem_map.mp ha
    exact cascadeActivity_ok _ _ now b

/-- The `updateTask` tail keeps the whole-task date invariant: the cascade
re-establishes it for every subtask, and without a date key the subtasks
are untouched. -/
theorem taskFinish_ok (u : TaskUpdates) (now : Int) (p : Task × Bool)
    (hce : p.1.creationDate ≤ p.1.expectedCompletionDate)
    (hsubs : p.1.subtasks.all subtaskDatesOk = true) :
    taskDatesOk (taskFinish u now p) = true := by
  unfold taskFinish
  split_ifs <;>
    simp_all [taskDatesOk, List.all_eq_true] <;>
    intro st hst <;> exact cascadeSubtask_ok _ _ now st

/-- The whole `updateTask` body preserves the task-subtree date invariant. -/
theorem applyTaskUpdates_ok (t : Task) (u : TaskUpdates) (now : Int)
    (h : taskDatesOk t = true) : taskDatesOk (applyTaskUpdates t u now) = true := by
  simp only [taskDatesOk, Bool.and_eq_true, decide_eq_true_eq] at h
  obtain ⟨hce, hsubs⟩ := h
  obtain ⟨_, hhc, hhe, hhs⟩ := taskHistoryStep_pres u t
  have hce0 : (taskHistoryStep u t).1.creationDate ≤
      (taskHistoryStep u t).1.expectedCompletionDate := by rw [hhc, hhe]; exact hce
  obtain ⟨hlc, hls, _⟩ := taskLoop_inv u (taskHistoryStep u t) hce0
  unfold applyTaskUpdates
  exact taskFinish_ok u now _ hlc (by rw [hls, hhs]; exact hsubs)

/-- Replacing one task by an invariant-preserving transformation keeps
every task of the array invariant. -/
theorem replaceTaskInList_all {i : Nat} {f : Task → Task} {ts ts2 : List Task}
    (hrep : replaceTaskInList i f ts = some ts2)
    (hall : ∀ t ∈ ts, taskDatesOk t = true)
    (hf : ∀ t, taskDatesOk t = true → taskDatesOk (f t) = true) :
    ∀ t ∈ ts2, taskDatesOk t = true := by
  induction ts generalizing ts2 with
  | nil => simp [replaceTaskInList] at hrep
  | cons t0 rest ih =>
    by_cases ht : t0.id = i
    · simp only [replaceTaskInList, ht, if_pos] at hrep
      injection hrep with hrep
      subst hrep
      intro t ht2
      rcases List.mem_cons.mp ht2 with rfl | hmem
      · exact hf t0 (hall t0 (by simp))
      · exact hall t (by simp [hmem])
    · simp only [replaceTaskInList, ht, if_false] at hrep
      cases hr : replaceTaskInList i f rest with
      | none => rw [hr] at hrep; simp at hrep
      | some r2 =>
        rw [hr] at hrep
        simp at hrep
        subst hrep
        intro t ht2
        rcases List.mem_cons.mp ht2 with rfl | hmem
        · exact hall t (by simp)
        · exact ih hr (fun t3 h3 => hall t3 (by simp [h3])) t hmem

/-- Store-level preservation for `replaceFirstTask`. -/
theorem replaceFirstTask_ok {i : Nat} {f : Task → Task} {s : Store}
    (h : storeDatesOk s = true)
    (hf : ∀ t, taskDatesOk t = true → taskDatesOk (f t) = true) :
    storeDatesOk (replaceFirstTask i f s) = true := by
  induction s with
  | nil => simp [replaceFirstTask, storeDatesOk]
  | cons l rest ih =>
    simp only [storeDatesOk, List.all_cons, Bool.and_eq_true, List.all_eq_true] at h
    obtain ⟨hl, hrest⟩ := h
    unfold replaceFirstTask
    cases hr : replaceTaskInList i f l.tasks with
    | some ts =>
      simp only [storeDatesOk, List.all_cons, Bool.and_eq_true, List.all_eq_true]
      refine ⟨fun t ht => replaceTaskInList_all hr hl hf t ht, hrest⟩
    | none =>
      simp only [storeDatesOk, List.all_cons, Bool.and_eq_true, List.all_eq_true]
      have := ih (by simp [storeDatesOk, List.all_eq_true]; exact hrest)
      simp only [storeDatesOk, List.all_eq_true] at this
      exact ⟨hl, this⟩

/-- `subStepName` leaves `id` unchanged. -/
theorem subStepName_id (u : SubtaskUpdates) (p : Subtask × Bool) :
    (subStepName u p).1.id = p.1.id := by
  cases h : u.name
  · simp [subStepName, h]
  · simp only [subStepName, h]
    split_ifs <;> simp

/-- `subStepName` leaves `creationDate` unchanged. -/
theorem subStepName_cre (u : SubtaskUpdates) (p : Subtask × Bool) :
    (subStepName u p).1.creationDate = p.1.creationDate := by
  cases h : u.name
  · simp [subStepName, h]
  · simp only [subStepName, h]
    split_ifs <;> simp

/-- `subStepName` leaves `expectedCompletionDate` unchanged. -/
theorem subStepName_exp (u : SubtaskUpdates) (p : Subtask × Bool) :
    (subStepName u p).1.expectedCompletionDate = p.1.expectedCompletionDate := by
  cases h : u.name
  · simp [subStepName, h]
  · simp only [subStepName, h]
    split_ifs <;> simp

/-- `subStepName` leaves `activities` unchanged. -/
theorem subStepName_acts (u : SubtaskUpdates) (p : Subtask × Bool) :
    (subStepName u p).1.activities = p.1.activities := by
  cases h : u.name
  · simp [subStepName, h]
  · simp only [subStepName, h]
    split_ifs <;> simp

/-- `subStepDescription` leaves `id` unchanged. -/
theorem subStepDescription_id (u : SubtaskUpdates) (p : Subtask × Bool) :
    (subStepDescription u p).1.id = p.1.id := by
  cases h : u.description
  · simp [subStepDescription, h]
  · simp only [subStepDescription, h]
    split_ifs <;> simp

/-- `subStepDescription` leaves `creationDate` unchanged. -/
theorem subStepDescription_cre (u : SubtaskUpdates) (p : Subtask × Bool) :
    (subStepDescription u p).1.creationDate = p.1.creationDate := by
  cases h : u.description
  · simp [subStepDescription, h]
  · simp only [subStepDescription, h]
    split_ifs <;> simp

/-- `subStepDescription` leaves `expectedCompletionDate` unchanged. -/
theorem subStepDescription_exp (u : SubtaskUpdates) (p : Subtask × Bool) :
    (subStepDescription u p).1.expectedCompletionDate = p.1.expectedCompletionDate := by
  cases h : u.description
  · simp [subStepDescription, h]
  · simp only [subStepDescription, h]
    split_ifs <;> simp

/-- `subStepDescription` leaves `activities` unchanged. -/
theorem subStepDescription_acts (u : SubtaskUpdates) (p : Subtask × Bool) :
    (subStepDescription u p).1.activities = p.1.activities := by
  cases h : u.description
  · simp [subStepDescription, h]
  · simp only [subStepDescription, h]
    split_ifs <;> simp

/-- `subStepCreation` leaves `id` unchanged. -/
theorem subStepCreation_id (pt : Task) (u : SubtaskUpdates) (p : Subtask × Bool) :
    (subStepCreation pt u p).1.id = p.1.id := by
  cases h : u.creationDate
  · simp [subStepCreation, h]
  · simp only [subStepCreation, h]
    split_ifs <;> simp

/-- `subStepCreation` leaves `activities` unchanged. -/
theorem subStepCreation_acts (pt : Task) (u : SubtaskUpdates) (p : Subtask × Bool) :
    (subStepCreation pt u p).1.activities = p.1.activities := by
  cases h : u.creationDate
  · simp [subStepCreation, h]
  · simp only [subStepCreation, h]
    split_ifs <;> simp

/-- `subStepCreation` keeps `expected >= creation` (re-establishing it whenever the
key fires, via the trailing restoration). -/
theorem subStepCreation_inv (pt : Task) (u : SubtaskUpdates) (p : Subtask × Bool)
    (h : p.1.creationDate ≤ p.1.expectedCompletionDate) :
    (subStepCreation pt u p).1.creationDate ≤ (subStepCreation pt u p).1.expectedCompletionDate := by
  cases hc : u.creationDate <;> simp only [subStepCreation, hc] <;> (try split_ifs) <;>
    (try simp_all) <;> omega

/-- `subStepExpected` leaves `id` unchanged. -/
theorem subStepExpected_id (pt : Task) (u : SubtaskUpdates) (p : Subtask × Bool) :
    (subStepExpected pt u p).1.id = p.1.id := by
  cases h : u.expectedCompletionDate
  · simp [subStepExpected, h]
  · simp only [subStepExpected, h]
    split_ifs <;> simp

/-- `subStepExpected` leaves `activities` unchanged. -/
theorem subStepExpected_acts (pt : Task) (u : SubtaskUpdates) (p : Subtask × Bool) :
    (subStepExpected pt u p).1.activities = p.1.activities := by
  cases h : u.expectedCompletionDate
  · simp [subStepExpected, h]
  · simp only [subStepExpected, h]
    split_ifs <;> simp

/-- `subStepExpected` keeps `expected >= creation` (re-establishing it whenever the
key fires, via the trailing restoration). -/
theorem subStepExpected_inv (pt : Task) (u : SubtaskUpdates) (p : Subtask × Bool)
    (h : p.1.creationDate ≤ p.1.expectedCompletionDate) :
    (subStepExpected pt u p).1.creationDate ≤ (subStepExpected pt u p).1.expectedCompletionDate := by
  cases hc : u.expectedCompletionDate <;> simp only [subStepExpected, hc] <;> (try split_ifs) <;>
    (try simp_all) <;> omega

/-- `subStepActual` leaves `id` unchanged. -/
theorem subStepActual_id (u : SubtaskUpdates) (p : Subtask × Bool) :
    (subStepActual u p).1.id = p.1.id := by
  cases h : u.actualCompletionDate
  · simp [subStepActual, h]
  · simp only [subStepActual, h]
    split_ifs <;> simp

/-- `subStepActual` leaves `activities` unchanged. -/
theorem subStepActual_acts (u : SubtaskUpdates) (p : Subtask × Bool) :
    (subStepActual u p).1.activities = p.1.activities := by
  cases h : u.actualCompletionDate
  · simp [subStepActual, h]
  · simp only [subStepActual, h]
    split_ifs <;> simp

/-- `subStepActual` keeps `expected >= creation` (re-establishing it whenever the
key fires, via the trailing restoration). -/
theorem subStepActual_inv (u : SubtaskUpdates) (p : Subtask × Bool)
    (h : p.1.creationDate ≤ p.1.expectedCompletionDate) :
    (subStepActual u p).1.creationDate ≤ (subStepActual u p).1.expectedCompletionDate := by
  cases hc : u.actualCompletionDate <;> simp only [subStepActual, hc] <;> (try split_ifs) <;>
    (try simp_all) <;> omega

/-- `subStepStatus` leaves `id` unchanged. -/
theorem subStepStatus_id (u : SubtaskUpdates) (p : Subtask × Bool) :
    (subStepStatus u p).1.id = p.1.id := by
  cases h : u.status
  · simp [subStepStatus, h]
  · simp only [subStepStatus, h]
    split_ifs <;> simp

/-- `subStepStatus` leaves `creationDate` unchanged. -/
theorem subStepStatus_cre (u : SubtaskUpdates) (p : Subtask × Bool) :
    (subStepStatus u p).1.creationDate = p.1.creationDate := by
  cases h : u.status
  · simp [subStepStatus, h]
  · simp only [subStepStatus, h]
    split_ifs <;> simp

/-- `subStepStatus` leaves `expectedCompletionDate` unchanged. -/
theorem subStepStatus_exp (u : SubtaskUpdates) (p : Subtask × Bool) :
    (subStepStatus u p).1.expectedCompletionDate = p.1.expectedCompletionDate := by
  cases h : u.status
  · simp [subStepStatus, h]
  · simp only [subStepStatus, h]
    split_ifs <;> simp

/-- `subStepStatus` leaves `activities` unchanged. -/
theorem subStepStatus_acts (u : SubtaskUpdates) (p : Subtask × Bool) :
    (subStepStatus u p).1.activities = p.1.activities := by
  cases h : u.status
  · simp [subStepStatus, h]
  · simp only [subStepStatus, h]
    split_ifs <;> simp

/-- `subStepPriority` leaves `id` unchanged. -/
theorem subStepPriority_id (u : SubtaskUpdates) (p : Subtask × Bool) :
    (subStepPriority u p).1.id = p.1.id := by
  cases h : u.priority
  · simp [subStepPriority, h]
  · simp only [subStepPriority, h]
    split_ifs <;> simp

/-- `subStepPriority` leaves `creationDate` unchanged. -/
theorem subStepPriority_cre (u : SubtaskUpdates) (p : Subtask × Bool) :
    (subStepPriority u p).1.creationDate = p.1.creationDate := by
  cases h : u.priority
  · simp [subStepPriority, h]
  · simp only [subStepPriority, h]
    split_ifs <;> simp

/-- `subStepPriority` leaves `expectedCompletionDate` unchanged. -/
theorem subStepPriority_exp (u : SubtaskUpdates) (p : Subtask × Bool) :
    (subStepPriority u p).1.expectedCompletionDate = p.1.expectedCompletionDate := by
  cases h : u.priority
  · simp [subStepPriority, h]
  · simp only [subStepPriority, h]
    split_ifs <;> simp

/-- `subStepPriority` leaves `activities` unchanged. -/
theorem subStepPriority_acts (u : SubtaskUpdates) (p : Subtask × Bool) :
    (subStepPriority u p).1.activities = p.1.activities := by
  cases h : u.priority
  · simp [subStepPriority, h]
  · simp only [subStepPriority, h]
    split_ifs <;> simp

/-- `subStepSerial` leaves `id` unchanged. -/
theorem subStepSerial_id (u : SubtaskUpdates) (p : Subtask × Bool) :
    (subStepSerial u p).1.id = p.1.id := by
  cases h : u.serialCompletionMandatory
  · simp [subStepSerial, h]
  · simp only [subStepSerial, h]
    split_ifs <;> simp

/-- `subStepSerial` leaves `creationDate` unchanged. -/
theorem subStepSerial_cre (u : SubtaskUpdates) (p : Subtask × Bool) :
    (subStepSerial u p).1.creationDate = p.1.creationDate := by
  cases h : u.serialCompletionMandatory
  · simp [subStepSerial, h]
  · simp only [subStepSerial, h]
    split_ifs <;> simp

/-- `subStepSerial` leaves `expectedCompletionDate` unchanged. -/
theorem subStepSerial_exp (u : SubtaskUpdates) (p : Subtask × Bool) :
    (subStepSerial u p).1.expectedCompletionDate = p.1.expectedCompletionDate := by
  cases h : u.serialCompletionMandatory
  · simp [subStepSerial, h]
  · simp only [subStepSerial, h]
    split_ifs <;> simp

/-- `subStepSerial` leaves `activities` unchanged. -/
theorem subStepSerial_acts (u : SubtaskUpdates) (p : Subtask × Bool) :
    (subStepSerial u p).1.activities = p.1.activities := by
  cases h : u.serialCompletionMandatory
  · simp [subStepSerial, h]
  · simp only [subStepSerial, h]
    split_ifs <;> simp

/-- `subStepSequence` leaves `id` unchanged. -/
theorem subStepSequence_id (u : SubtaskUpdates) (p : Subtask × Bool) :
    (subStepSequence u p).1.id = p.1.id := by
  cases h : u.sequenceMandatory
  · simp [subStepSequence, h]
  · simp only [subStepSequence, h]
    split_ifs <;> simp

/-- `subStepSequence` leaves `creationDate` unchanged. -/
theorem subStepSequence_cre (u : SubtaskUpdates) (p : Subtask × Bool) :
    (subStepSequence u p).1.creationDate = p.1.creationDate := by
  cases h : u.sequenceMandatory
  · simp [subStepSequence, h]
  · simp only [subStepSequence, h]
    split_ifs <;> simp

/-- `subStepSequence` leaves `expectedCompletionDate` unchanged. -/
theorem subStepSequence_exp (u : SubtaskUpdates) (p : Subtask × Bool) :
    (subStepSequence u p).1.expectedCompletionDate = p.1.expectedCompletionDate := by
  cases h : u.sequenceMandatory
  · simp [subStepSequence, h]
  · simp only [subStepSequence, h]
    split_ifs <;> simp

/-- `subStepSequence` leaves `activities` unchanged. -/
theorem subStepSequence_acts (u : SubtaskUpdates) (p : Subtask × Bool) :
    (subStepSequence u p).1.activities = p.1.activities := by
  cases h : u.sequenceMandatory
  · simp [subStepSequence, h]
  · simp only [subStepSequence, h]
    split_ifs <;> simp

/-- `subStepAutoRepeat` leaves `id` unchanged. -/
theorem subStepAutoRepeat_id (u : SubtaskUpdates) (p : Subtask × Bool) :
    (subStepAutoRepeat u p).1.id = p.1.id := by
  cases h : u.autoRepeat
  · simp [subStepAutoRepeat, h]
  · simp only [subStepAutoRepeat, h]
    split_ifs <;> simp

/-- `subStepAutoRepeat` leaves `creationDate` unchanged. -/
theorem subStepAutoRepeat_cre (u : SubtaskUpdates) (p : Subtask × Bool) :
    (subStepAutoRepeat u p).1.creationDate = p.1.creationDate := by
  cases h : u.autoRepeat
  · simp [subStepAutoRepeat, h]
  · simp only [subStepAutoRepeat, h]
    split_ifs <;> simp

/-- `subStepAutoRepeat` leaves `expectedCompletionDate` unchanged. -/
theorem subStepAutoRepeat_exp (u : SubtaskUpdates) (p : Subtask × Bool) :
    (subStepAutoRepeat u p).1.expectedCompletionDate = p.1.expectedCompletionDate := by
  cases h : u.autoRepeat
  · simp [subStepAutoRepeat, h]
  · simp only [subStepAutoRepeat, h]
    split_ifs <;> simp

/-- `subStepAutoRepeat` leaves `activities` unchanged. -/
theorem subStepAutoRepeat_acts (u : SubtaskUpdates) (p : Subtask × Bool) :
    (subStepAutoRepeat u p).1.activities = p.1.activities := by
  cases h : u.autoRepeat
  · simp [subStepAutoRepeat, h]
  · simp only [subStepAutoRepeat, h]
    split_ifs <;> simp

/-- The subtask description-history hook leaves id, dates and activities
unchanged. -/
theorem subHistoryStep_pres (u : SubtaskUpdates) (st : Subtask) :
    (subHistoryStep u st).1.id = st.id ∧
      (subHistoryStep u st).1.creationDate = st.creationDate ∧
      (subHistoryStep u st).1.expectedCompletionDate = st.expectedCompletionDate ∧
      (subHistoryStep u st).1.activities = st.activities := by
  cases h : u.description
  · simp [subHistoryStep, h]
  · simp only [subHistoryStep, h]
    split_ifs <;> simp

/-- The `updateSubtask` loop preserves id and activities and keeps
`expected >= creation`. -/
theorem subLoop_inv (pt : Task) (u : SubtaskUpdates) (p : Subtask × Bool)
    (h : p.1.creationDate ≤ p.1.expectedCompletionDate) :
    (subLoop pt u p).1.creationDate ≤ (subLoop pt u p).1.expectedCompletionDate ∧
      (subLoop pt u p).1.activities = p.1.activities ∧
      (subLoop pt u p).1.id = p.1.id := by
  unfold subLoop
  refine ⟨?_, ?_, ?_⟩
  · simp only [subStepAutoRepeat_cre, subStepAutoRepeat_exp, subStepSequence_cre,
      subStepSequence_exp, subStepSerial_cre, subStepSerial_exp, subStepPriority_cre,
      subStepPriority_exp, subStepStatus_cre, subStepStatus_exp]
    refine subStepActual_inv u _ (subStepExpected_inv pt u _ (subStepCreation_inv pt u _ ?_))
    simp only [subStepDescription_cre, subStepDescription_exp, subStepName_cre,
      subStepName_exp]
    exact h
  · simp only [subStepAutoRepeat_acts, subStepSequence_acts, subStepSerial_acts,
      subStepPriority_acts, subStepStatus_acts, subStepActual_acts, subStepExpected_acts,
      subStepCreation_acts, subStepDescription_acts, subStepName_acts]
  · simp only [subStepAutoRepeat_id, subStepSequence_id, subStepSerial_id,
      subStepPriority_id, subStepStatus_id, subStepActual_id, subStepExpected_id,
      subStepCreation_id, subStepDescription_id, subStepName_id]

/-- The `updateSubtask` tail keeps the subtask-subtree date invariant. -/
theorem subFinish_ok (u : SubtaskUpdates) (now : Int) (p : Subtask × Bool)
    (hce : p.1.creationDate ≤ p.1.expectedCompletionDate)
    (hacts : p.1.activities.all activityDatesOk = true) :
    subtaskDatesOk (subFinish u now p).1 = true := by
  have hmap : ∀ q : Subtask,
      (q.activities.map (cascadeActivity q.creationDate q.expectedCompletionDate now)).all
        activityDatesOk = true := by
    intro q
    simp only [List.all_eq_true]
    intro a ha
    obtain ⟨b, hb, rfl⟩ := List.mem_map.mp ha
    exact cascadeActivity_ok _ _ now b
  unfold subFinish
  split_ifs <;>
    simp_all [subtaskDatesOk, Bool.and_eq_true, decide_eq_true_eq]

/-- The whole `updateSubtask` body preserves the subtask-subtree date
invariant. -/
theorem applySubtaskUpdates_ok (pt : Task) (st : Subtask) (u : SubtaskUpdates) (now : Int)
    (h : subtaskDatesOk st = true) :
    subtaskDatesOk (applySubtaskUpdates pt st u now).1 = true := by
  simp only [subtaskDatesOk, Bool.and_eq_true, decide_eq_true_eq] at h
  obtain ⟨hce, hacts⟩ := h
  obtain ⟨_, hhc, hhe, hhs⟩ := subHistoryStep_pres u st
  have hce0 : (subHistoryStep u st).1.creationDate ≤
      (subHistoryStep u st).1.expectedCompletionDate := by rw [hhc, hhe]; exact hce
  obtain ⟨hlc, hls, _⟩ := subLoop_inv pt u (subHistoryStep u st) hce0
  unfold applySubtaskUpdates
  exact subFinish_ok u now _ hlc (by rw [hls, hhs]; exact hacts)

/-- Replacing one subtask by `applySubtaskUpdates` keeps every subtask of
the array invariant. -/
theorem replaceSubtaskInList_all {pt : Task} {i : Nat} {u : SubtaskUpdates} {now : Int}
    {sts : List Subtask} {r : List Subtask × Bool}
    (hrep : replaceSubtaskInList pt i u now sts = some r)
    (hall : ∀ st ∈ sts, subtaskDatesOk st = true) :
    ∀ st ∈ r.1, subtaskDatesOk st = true := by
  induction sts generalizing r with
  | nil => simp [replaceSubtaskInList] at hrep
  | cons st0 rest ih =>
    by_cases ht : st0.id = i
    · simp only [replaceSubtaskInList, ht, if_pos] at hrep
      injection hrep with hrep
      subst hrep
      intro st hst
      rcases List.mem_cons.mp hst with rfl | hmem
      · exact applySubtaskUpdates_ok pt st0 u now (hall st0 (by simp))
      · exact hall st (by simp [hmem])
    · simp only [replaceSubtaskInList, ht, if_false] at hrep
      cases hr : replaceSubtaskInList pt i u now rest with
      | none => rw [hr] at hrep; simp at hrep
      | some r2 =>
        rw [hr] at hrep
        simp at hrep
        subst hrep
        intro st hst
        rcases List.mem_cons.mp hst with rfl | hmem
        · exact hall st (by simp)
        · exact ih hr (fun st3 h3 => hall st3 (by simp [h3])) st hmem

/-- `applyUpdateSubtaskInTask` preserves the task-subtree date invariant. -/
theorem applyUpdateSubtaskInTask_ok (t : Task) (i : Nat) (u : SubtaskUpdates) (now : Int)
    (h : taskDatesOk t = true) :
    taskDatesOk (applyUpdateSubtaskInTask t i u now) = true := by
  simp only [taskDatesOk, Bool.and_eq_true, decide_eq_true_eq, List.all_eq_true] at h
  obtain ⟨hce, hsubs⟩ := h
  unfold applyUpdateSubtaskInTask
  cases hr : replaceSubtaskInList t i u now t.subtasks with
  | none =>
    simp only [taskDatesOk, Bool.and_eq_true, decide_eq_true_eq, List.all_eq_true]
    exact ⟨hce, hsubs⟩
  | some r =>
    have hall := replaceSubtaskInList_all hr hsubs
    obtain ⟨sts, ch⟩ := r
    simp only at hall
    dsimp only
    split_ifs <;>
      simp_all [taskDatesOk, Bool.and_eq_true, decide_eq_true_eq, List.all_eq_true]

/-- Array-level preservation for the subtask-site replacement. -/
theorem replaceFirstSubtaskSiteInTasks_all {i : Nat} {g : Task → Task} {ts ts2 : List Task}
    (hrep : replaceFirstSubtaskSiteInTasks i g ts = some ts2)
    (hall : ∀ t ∈ ts, taskDatesOk t = true)
    (hg : ∀ t, taskDatesOk t = true → taskDatesOk (g t) = true) :
    ∀ t ∈ ts2, taskDatesOk t = true := by
  induction ts generalizing ts2 with
  | nil => simp [replaceFirstSubtaskSiteInTasks] at hrep
  | cons t0 rest ih =>
    by_cases ht : taskContainsSubtask i t0 = true
    · simp only [replaceFirstSubtaskSiteInTasks, ht, if_pos] at hrep
      injection hrep with hrep
      subst hrep
      intro t hmem
      rcases List.mem_cons.mp hmem with rfl | hmem
      · exact hg t0 (hall t0 (by simp))
      · exact hall t (by simp [hmem])
    · simp only [replaceFirstSubtaskSiteInTasks, ht, if_false] at hrep
      cases hr : replaceFirstSubtaskSiteInTasks i g rest with
      | none => rw [hr] at hrep; simp at hrep
      | some r2 =>
        rw [hr] at hrep
        simp at hrep
        subst hrep
        intro t hmem
        rcases List.mem_cons.mp hmem with rfl | hmem
        · exact hall t (by simp)
        · exact ih hr (fun t3 h3 => hall t3 (by simp [h3])) t hmem

/-- Store-level preservation for the subtask-site replacement. -/
theorem replaceFirstSubtaskSite_ok {i : Nat} {g : Task → Task} {s : Store}
    (h : storeDatesOk s = true)
    (hg : ∀ t, taskDatesOk t = true → taskDatesOk (g t) = true) :
    storeDatesOk (replaceFirstSubtaskSite i g s) = true := by
  induction s with
  | nil => simp [replaceFirstSubtaskSite, storeDatesOk]
  | cons l rest ih =>
    simp only [storeDatesOk, List.all_cons, Bool.and_eq_true, List.all_eq_true] at h
    obtain ⟨hl, hrest⟩ := h
    unfold replaceFirstSubtaskSite
    cases hr : replaceFirstSubtaskSiteInTasks i g l.tasks with
    | some ts =>
      simp only [storeDatesOk, List.all_cons, Bool.and_eq_true, List.all_eq_true]
      exact ⟨fun t ht => replaceFirstSubtaskSiteInTasks_all hr hl hg t ht, hrest⟩
    | none =>
      simp only [storeDatesOk, List.all_cons, Bool.and_eq_true, List.all_eq_true]
      have h2 := ih (by simp [storeDatesOk, List.all_eq_true]; exact hrest)
      simp only [storeDatesOk, List.all_eq_true] at h2
      exact ⟨hl, h2⟩

/-- `actStepName` leaves `id` unchanged. -/
theorem actStepName_id (u : ActivityUpdates) (p : Activity × Bool) :
    (actStepName u p).1.id = p.1.id := by
  cases h : u.name
  · simp [actStepName, h]
  · simp only [actStepName, h]
    split_ifs <;> simp

/-- `actStepName` leaves `creationDate` unchanged. -/
theorem actStepName_cre (u : ActivityUpdates) (p : Activity × Bool) :
    (actStepName u p).1.creationDate = p.1.creationDate := by
  cases h : u.name
  · simp [actStepName, h]
  · simp only [actStepName, h]
    split_ifs <;> simp

/-- `actStepName` leaves `expectedCompletionDate` unchanged. -/
theorem actStepName_exp (u : ActivityUpdates) (p : Activity × Bool) :
    (actStepName u p).1.expectedCompletionDate = p.1.expectedCompletionDate := by
  cases h : u.name
  · simp [actStepName, h]
  · simp only [actStepName, h]
    split_ifs <;> simp

/-- `actStepDescription` leaves `id` unchanged. -/
theorem actStepDescription_id (u : ActivityUpdates) (p : Activity × Bool) :
    (actStepDescription u p).1.id = p.1.id := by
  cases h : u.description
  · simp [actStepDescription, h]
  · simp only [actStepDescription, h]
    split_ifs <;> simp

/-- `actStepDescription` leaves `creationDate` unchanged. -/
theorem actStepDescription_cre (u : ActivityUpdates) (p : Activity × Bool) :
    (actStepDescription u p).1.creationDate = p.1.creationDate := by
  cases h : u.description
  · simp [actStepDescription, h]
  · simp only [actStepDescription, h]
    split_ifs <;> simp

/-- `actStepDescription` leaves `expectedCompletionDate` unchanged. -/
theorem actStepDescription_exp (u : ActivityUpdates) (p : Activity × Bool) :
    (actStepDescription u p).1.expectedCompletionDate = p.1.expectedCompletionDate := by
  cases h : u.description
  · simp [actStepDescription, h]
  · simp only [actStepDescription, h]
    split_ifs <;> simp

/-- `actStepCreation` leaves `id` unchanged. -/
theorem actStepCreation_id (ps : Subtask) (u : ActivityUpdates) (p : Activity × Bool) :
    (actStepCreation ps u p).1.id = p.1.id := by
  cases h : u.creationDate
  · simp [actStepCreation, h]
  · simp only [actStepCreation, h]
    split_ifs <;> simp

/-- `actStepCreation` keeps `expected >= creation`. -/
theorem actStepCreation_inv (ps : Subtask) (u : ActivityUpdates) (p : Activity × Bool)
    (h : p.1.creationDate ≤ p.1.expectedCompletionDate) :
    (actStepCreation ps u p).1.creationDate ≤ (actStepCreation ps u p).1.expectedCompletionDate := by
  cases hc : u.creationDate <;> simp only [actStepCreation, hc] <;> (try split_ifs) <;>
    (try simp_all) <;> omega

/-- `actStepExpected` leaves `id` unchanged. -/
theorem actStepExpected_id (ps : Subtask) (u : ActivityUpdates) (p : Activity × Bool) :
    (actStepExpected ps u p).1.id = p.1.id := by
  cases h : u.expectedCompletionDate
  · simp [actStepExpected, h]
  · simp only [actStepExpected, h]
    split_ifs <;> simp

/-- `actStepExpected` keeps `expected >= creation`. -/
theorem actStepExpected_inv (ps : Subtask) (u : ActivityUpdates) (p : Activity × Bool)
    (h : p.1.creationDate ≤ p.1.expectedCompletionDate) :
    (actStepExpected ps u p).1.creationDate ≤ (actStepExpected ps u p).1.expectedCompletionDate := by
  cases hc : u.expectedCompletionDate <;> simp only [actStepExpected, hc] <;> (try split_ifs) <;>
    (try simp_all) <;> omega

/-- `actStepActual` leaves `id` unchanged. -/
theorem actStepActual_id (u : ActivityUpdates) (p : Activity × Bool) :
    (actStepActual u p).1.id = p.1.id := by
  cases h : u.actualCompletionDate
  · simp [actStepActual, h]
  · simp only [actStepActual, h]
    split_ifs <;> simp

/-- `actStepActual` keeps `expected >= creation`. -/
theorem actStepActual_inv (u : ActivityUpdates) (p : Activity × Bool)
    (h : p.1.creationDate ≤ p.1.expectedCompletionDate) :
    (actStepActual u p).1.creationDate ≤ (actStepActual u p).1.expectedCompletionDate := by
  cases hc : u.actualCompletionDate <;> simp only [actStepActual, hc] <;> (try split_ifs) <;>
    (try simp_all) <;> omega

/-- `actStepStatus` leaves `id` unchanged. -/
theorem actStepStatus_id (u : ActivityUpdates) (p : Activity × Bool) :
    (actStepStatus u p).1.id = p.1.id := by
  cases h : u.status
  · simp [actStepStatus, h]
  · simp only [actStepStatus, h]
    split_ifs <;> simp

/-- `actStepStatus` leaves `creationDate` unchanged. -/
theorem actStepStatus_cre (u : ActivityUpdates) (p : Activity × Bool) :
    (actStepStatus u p).1.creationDate = p.1.creationDate := by
  cases h : u.status
  · simp [actStepStatus, h]
  · simp only [actStepStatus, h]
    split_ifs <;> simp

/-- `actStepStatus` leaves `expectedCompletionDate` unchanged. -/
theorem actStepStatus_exp (u : ActivityUpdates) (p : Activity × Bool) :
    (actStepStatus u p).1.expectedCompletionDate = p.1.expectedCompletionDate := by
  cases h : u.status
  · simp [actStepStatus, h]
  · simp only [actStepStatus, h]
    split_ifs <;> simp

/-- `actStepPriority` leaves `id` unchanged. -/
theorem actStepPriority_id (u : ActivityUpdates) (p : Activity × Bool) :
    (actStepPriority u p).1.id = p.1.id := by
  cases h : u.priority
  · simp [actStepPriority, h]
  · simp only [actStepPriority, h]
    split_ifs <;> simp

/-- `actStepPriority` leaves `creationDate` unchanged. -/
theorem actStepPriority_cre (u : ActivityUpdates) (p : Activity × Bool) :
    (actStepPriority u p).1.creationDate = p.1.creationDate := by
  cases h : u.priority
  · simp [actStepPriority, h]
  · simp only [actStepPriority, h]
    split_ifs <;> simp

/-- `actStepPriority` leaves `expectedCompletionDate` unchanged. -/
theorem actStepPriority_exp (u : ActivityUpdates) (p : Activity × Bool) :
    (actStepPriority u p).1.expectedCompletionDate = p.1.expectedCompletionDate := by
  cases h : u.priority
  · simp [actStepPriority, h]
  · simp only [actStepPriority, h]
    split_ifs <;> simp

/-- The activity description-history hook leaves id and dates unchanged. -/
theorem actHistoryStep_pres (u : ActivityUpdates) (a : Activity) :
    (actHistoryStep u a).1.id = a.id ∧
      (actHistoryStep u a).1.creationDate = a.creationDate ∧
      (actHistoryStep u a).1.expectedCompletionDate = a.expectedCompletionDate := by
  cases h : u.description
  · simp [actHistoryStep, h]
  · simp only [actHistoryStep, h]
    split_ifs <;> simp

/-- The `updateActivity` loop preserves the id and keeps
`expected >= creation`. -/
theorem actLoop_inv (ps : Subtask) (u : ActivityUpdates) (p : Activity × Bool)
    (h : p.1.creationDate ≤ p.1.expectedCompletionDate) :
    (actLoop ps u p).1.creationDate ≤ (actLoop ps u p).1.expectedCompletionDate ∧
      (actLoop ps u p).1.id = p.1.id := by
  unfold actLoop
  constructor
  · simp only [actStepPriority_cre, actStepPriority_exp, actStepStatus_cre, actStepStatus_exp]
    refine actStepActual_inv u _ (actStepExpected_inv ps u _ (actStepCreation_inv ps u _ ?_))
    simp only [actStepDescription_cre, actStepDescription_exp, actStepName_cre,
      actStepName_exp]
    exact h
  · simp only [actStepPriority_id, actStepStatus_id, actStepActual_id, actStepExpected_id,
      actStepCreation_id, actStepDescription_id, actStepName_id]

/-- The whole `updateActivity` body preserves the activity date invariant. -/
theorem applyActivityUpdates_ok (ps : Subtask) (a : Activity) (u : ActivityUpdates)
    (now : Int) (h : activityDatesOk a = true) :
    activityDatesOk (applyActivityUpdates ps a u now).1 = true := by
  simp only [activityDatesOk, decide_eq_true_eq] at h
  obtain ⟨_, hhc, hhe⟩ := actHistoryStep_pres u a
  have hce0 : (actHistoryStep u a).1.creationDate ≤
      (actHistoryStep u a).1.expectedCompletionDate := by rw [hhc, hhe]; exact h
  obtain ⟨hl, _⟩ := actLoop_inv ps u (actHistoryStep u a) hce0
  unfold applyActivityUpdates
  simp only [activityDatesOk, decide_eq_true_eq]
  split_ifs <;> simp_all

/-- Replacing one activity by `applyActivityUpdates` keeps every activity
of the array invariant. -/
theorem replaceActivityInList_all {ps : Subtask} {i : Nat} {u : ActivityUpdates} {now : Int}
    {acts : List Activity} {r : List Activity × Bool}
    (hrep : replaceActivityInList ps i u now acts = some r)
    (hall : ∀ a ∈ acts, activityDatesOk a = true) :
    ∀ a ∈ r.1, activityDatesOk a = true := by
  induction acts generalizing r with
  | nil => simp [replaceActivityInList] at hrep
  | cons a0 rest ih =>
    by_cases ht : a0.id = i
    · simp only [replaceActivityInList, ht, if_pos] at hrep
      injection hrep with hrep
      subst hrep
      intro a ha
      rcases List.mem_cons.mp ha with rfl | hmem
      · exact applyActivityUpdates_ok ps a0 u now (hall a0 (by simp))
      · exact hall a (by simp [hmem])
    · simp only [replaceActivityInList, ht, if_false] at hrep
      cases hr : replaceActivityInList ps i u now rest with
      | none => rw [hr] at hrep; simp at hrep
      | some r2 =>
        rw [hr] at hrep
        simp at hrep
        subst hrep
        intro a ha
        rcases List.mem_cons.mp ha with rfl | hmem
        · exact hall a (by simp)
        · exact ih hr (fun a3 h3 => hall a3 (by simp [h3])) a hmem

/-- `applyUpdateActivityInSubtask` preserves the subtask-subtree date
invariant. -/
theorem applyUpdateActivityInSubtask_ok (st : Subtask) (i : Nat) (u : ActivityUpdates)
    (now : Int) (h : subtaskDatesOk st = true) :
    subtaskDatesOk (applyUpdateActivityInSubtask st i u now).1 = true := by
  simp only [subtaskDatesOk, Bool.and_eq_true, decide_eq_true_eq, List.all_eq_true] at h
  obtain ⟨hce, hacts⟩ := h
  unfold applyUpdateActivityInSubtask
  cases hr : replaceActivityInList st i u now st.activities with
  | none =>
    simp only [subtaskDatesOk, Bool.and_eq_true, decide_eq_true_eq, List.all_eq_true]
    exact ⟨hce, hacts⟩
  | some r =>
    have hall := replaceActivityInList_all hr hacts
    obtain ⟨acts, ch⟩ := r
    simp only at hall
    dsimp only
    split_ifs <;>
      simp_all [subtaskDatesOk, Bool.and_eq_true, decide_eq_true_eq, List.all_eq_true]

/-- Array-level preservation of `updateActivityInSubtasks`. -/
theorem updateActivityInSubtasks_all {i : Nat} {u : ActivityUpdates} {now : Int}
    {sts : List Subtask} {r : List Subtask × Bool}
    (hrep : updateActivityInSubtasks i u now sts = some r)
    (hall : ∀ st ∈ sts, subtaskDatesOk st = true) :
    ∀ st ∈ r.1, subtaskDatesOk st = true := by
  induction sts generalizing r with
  | nil => simp [updateActivityInSubtasks] at hrep
  | cons st0 rest ih =>
    by_cases ht : subtaskContainsActivity i st0 = true
    · simp only [updateActivityInSubtasks, ht, if_pos] at hrep
      injection hrep with hrep
      subst hrep
      intro st hst
      rcases List.mem_cons.mp hst with rfl | hmem
      · exact applyUpdateActivityInSubtask_ok st0 i u now (hall st0 (by simp))
      · exact hall st (by simp [hmem])
    · simp only [updateActivityInSubtasks, ht, if_false] at hrep
      cases hr : updateActivityInSubtasks i u now rest with
      | none => rw [hr] at hrep; simp at hrep
      | some r2 =>
        rw [hr] at hrep
        simp at hrep
        subst hrep
        intro st hst
        rcases List.mem_cons.mp hst with rfl | hmem
        · exact hall st (by simp)
        · exact ih hr (fun st3 h3 => hall st3 (by simp [h3])) st hmem

/-- Array-level preservation of `updateActivityInTasks`. -/
theorem updateActivityInTasks_all {i : Nat} {u : ActivityUpdates} {now : Int}
    {ts : List Task} {r : List Task × Bool}
    (hrep : updateActivityInTasks i u now ts = some r)
    (hall : ∀ t ∈ ts, taskDatesOk t = true) :
    ∀ t ∈ r.1, taskDatesOk t = true := by
  induction ts generalizing r with
  | nil => simp [updateActivityInTasks] at hrep
  | cons t0 rest ih =>
    cases hs : updateActivityInSubtasks i u now t0.subtasks with
    | some r2 =>
      simp only [updateActivityInTasks, hs] at hrep
      injection hrep with hrep
      subst hrep
      intro t ht
      have h0 := hall t0 (by simp)
      simp only [taskDatesOk, Bool.and_eq_true, decide_eq_true_eq, List.all_eq_true] at h0
      rcases List.mem_cons.mp ht with rfl | hmem
      · simp only [taskDatesOk, Bool.and_eq_true, decide_eq_true_eq, List.all_eq_true]
        exact ⟨h0.1, updateActivityInSubtasks_all hs h0.2⟩
      · exact hall t (by simp [hmem])
    | none =>
      simp only [updateActivityInTasks, hs] at hrep
      cases hr : updateActivityInTasks i u now rest with
      | none => rw [hr] at hrep; simp at hrep
      | some r2 =>
        rw [hr] at hrep
        simp at hrep
        subst hrep
        intro t ht
        rcases List.mem_cons.mp ht with rfl | hmem
        · exact hall t (by simp)
        · exact ih hr (fun t3 h3 => hall t3 (by simp [h3])) t hmem

/-- Store-level preservation of the `updateActivity` mutation pass. -/
theorem updateActivityStore_ok {i : Nat} {u : ActivityUpdates} {now : Int} {s : Store}
    (h : storeDatesOk s = true) :
    storeDatesOk (updateActivityStore i u now s).1 = true := by
  induction s with
  | nil => simp [updateActivityStore, storeDatesOk]
  | cons l rest ih =>
    simp only [storeDatesOk, List.all_cons, Bool.and_eq_true, List.all_eq_true] at h
    obtain ⟨hl, hrest⟩ := h
    unfold updateActivityStore
    cases hr : updateActivityInTasks i u now l.tasks with
    | some r =>
      simp only [storeDatesOk, List.all_cons, Bool.and_eq_true, List.all_eq_true]
      exact ⟨fun t ht => updateActivityInTasks_all hr hl t ht, hrest⟩
    | none =>
      simp only [storeDatesOk, List.all_cons, Bool.and_eq_true, List.all_eq_true]
      have h2 := ih (by simp [storeDatesOk, List.all_eq_true]; exact hrest)
      simp only [storeDatesOk, List.all_eq_true] at h2
      exact ⟨hl, h2⟩

/-- A `lastEditedDate` refresh does not affect the task date invariant. -/
theorem taskDatesOk_lastEdited (t : Task) (now : Int) :
    taskDatesOk { t with lastEditedDate := now } = taskDatesOk t := by
  simp [taskDatesOk]

/-- A `lastEditedDate` refresh does not affect the subtask date invariant. -/
theorem subtaskDatesOk_lastEdited (st : Subtask) (now : Int) :
    subtaskDatesOk { st with lastEditedDate := now } = subtaskDatesOk st := by
  simp [subtaskDatesOk]

/-- A `lastEditedDate` refresh does not affect the activity date invariant. -/
theorem activityDatesOk_lastEdited (a : Activity) (now : Int) :
    activityDatesOk { a with lastEditedDate := now } = activityDatesOk a := by
  simp [activityDatesOk]

/-- First-match subtask replacement by an invariant-preserving map keeps
every subtask invariant. -/
theorem replaceSubtaskInSubs_all {i : Nat} {g : Subtask → Subtask} {sts : List Subtask}
    (hg : ∀ st, subtaskDatesOk st = true → subtaskDatesOk (g st) = true)
    (hall : ∀ st ∈ sts, subtaskDatesOk st = true) :
    ∀ st ∈ replaceSubtaskInSubs i g sts, subtaskDatesOk st = true := by
  induction sts with
  | nil => simp [replaceSubtaskInSubs]
  | cons st0 rest ih =>
    unfold replaceSubtaskInSubs
    split_ifs <;> intro st hst <;> rcases List.mem_cons.mp hst with rfl | hmem
    · exact hg st0 (hall st0 (by simp))
    · exact hall st (by simp [hmem])
    · exact hall st (by simp)
    · exact ih (fun st3 h3 => hall st3 (by simp [h3])) st hmem

/-- First-match activity replacement by an invariant-preserving map keeps
every activity invariant. -/
theorem replaceActivityInActs_all {i : Nat} {g : Activity → Activity} {acts : List Activity}
    (hg : ∀ a, activityDatesOk a = true → activityDatesOk (g a) = true)
    (hall : ∀ a ∈ acts, activityDatesOk a = true) :
    ∀ a ∈ replaceActivityInActs i g acts, activityDatesOk a = true := by
  induction acts with
  | nil => simp [replaceActivityInActs]
  | cons a0 rest ih =>
    unfold replaceActivityInActs
    split_ifs <;> intro a ha <;> rcases List.mem_cons.mp ha with rfl | hmem
    · exact hg a0 (hall a0 (by simp))
    · exact hall a (by simp [hmem])
    · exact hall a (by simp)
    · exact ih (fun a3 h3 => hall a3 (by simp [h3])) a hmem

/-- First-container subtask replacement keeps every subtask invariant. -/
theorem replaceFirstMatchingSubtask_all {i : Nat} {g : Subtask → Subtask}
    {sts : List Subtask}
    (hg : ∀ st, subtaskDatesOk st = true → subtaskDatesOk (g st) = true)
    (hall : ∀ st ∈ sts, subtaskDatesOk st = true) :
    ∀ st ∈ replaceFirstMatchingSubtask i g sts, subtaskDatesOk st = true := by
  induction sts with
  | nil => simp [replaceFirstMatchingSubtask]
  | cons st0 rest ih =>
    unfold replaceFirstMatchingSubtask
    split_ifs <;> intro st hst <;> rcases List.mem_cons.mp hst with rfl | hmem
    · exact hg st0 (hall st0 (by simp))
    · exact hall st (by simp [hmem])
    · exact hall st (by simp)
    · exact ih (fun st3 h3 => hall st3 (by simp [h3])) st hmem

/-- Array-level preservation for the activity-container replacement. -/
theorem replaceFirstActivityContainerInTasks_all {i : Nat} {g : Subtask → Subtask}
    {ts ts2 : List Task}
    (hrep : replaceFirstActivityContainerInTasks i g ts = some ts2)
    (hall : ∀ t ∈ ts, taskDatesOk t = true)
    (hg : ∀ st, subtaskDatesOk st = true → subtaskDatesOk (g st) = true) :
    ∀ t ∈ ts2, taskDatesOk t = true := by
  induction ts generalizing ts2 with
  | nil => simp [replaceFirstActivityContainerInTasks] at hrep
  | cons t0 rest ih =>
    by_cases ht : t0.subtasks.any (subtaskContainsActivity i) = true
    · simp only [replaceFirstActivityContainerInTasks, ht, if_pos] at hrep
      injection hrep with hrep
      subst hrep
      intro t hmem
      have h0 := hall t0 (by simp)
      simp only [taskDatesOk, Bool.and_eq_true, decide_eq_true_eq, List.all_eq_true] at h0
      rcases List.mem_cons.mp hmem with rfl | hmem
      · simp only [taskDatesOk, Bool.and_eq_true, decide_eq_true_eq, List.all_eq_true]
        exact ⟨h0.1, replaceFirstMatchingSubtask_all hg h0.2⟩
      · exact hall t (by simp [hmem])
    · simp only [replaceFirstActivityContainerInTasks, ht, if_false] at hrep
      cases hr : replaceFirstActivityContainerInTasks i g rest with
      | none => rw [hr] at hrep; simp at hrep
      | some r2 =>
        rw [hr] at hrep
        simp at hrep
        subst hrep
        intro t hmem
        rcases List.mem_cons.mp hmem with rfl | hmem
        · exact hall t (by simp)
        · exact ih hr (fun t3 h3 => hall t3 (by simp [h3])) t hmem

/-- Store-level preservation for the activity-container replacement. -/
theorem replaceFirstActivityContainer_ok {i : Nat} {g : Subtask → Subtask} {s : Store}
    (h : storeDatesOk s = true)
    (hg : ∀ st, subtaskDatesOk st = true → subtaskDatesOk (g st) = true) :
    storeDatesOk (replaceFirstActivityContainer i g s) = true := by
  induction s with
  | nil => simp [replaceFirstActivityContainer, storeDatesOk]
  | cons l rest ih =>
    simp only [storeDatesOk, List.all_cons, Bool.and_eq_true, List.all_eq_true] at h
    obtain ⟨hl, hrest⟩ := h
    unfold replaceFirstActivityContainer
    cases hr : replaceFirstActivityContainerInTasks i g l.tasks with
    | some ts =>
      simp only [storeDatesOk, List.all_cons, Bool.and_eq_true, List.all_eq_true]
      exact ⟨fun t ht => replaceFirstActivityContainerInTasks_all hr hl hg t ht, hrest⟩
    | none =>
      simp only [storeDatesOk, List.all_cons, Bool.and_eq_true, List.all_eq_true]
      have h2 := ih (by simp [storeDatesOk, List.all_eq_true]; exact hrest)
      simp only [storeDatesOk, List.all_eq_true] at h2
      exact ⟨hl, h2⟩

/-- `bumpLastEdited` preserves the store date invariant. -/
theorem bumpLastEdited_ok (i : Nat) (now : Int) (s : Store) (h : storeDatesOk s = true) :
    storeDatesOk (bumpLastEdited i now s) = true := by
  unfold bumpLastEdited
  cases hf : findItemInDraft i s with
  | none => exact h
  | some r =>
    cases r with
    | taskList l => exact h
    | task t pl =>
      exact replaceFirstTask_ok h (fun t2 h2 => by rw [taskDatesOk_lastEdited]; exact h2)
    | subtask st pt =>
      refine replaceFirstSubtaskSite_ok h ?_
      intro t2 h2
      simp only [taskDatesOk, Bool.and_eq_true, decide_eq_true_eq, List.all_eq_true] at h2 ⊢
      refine ⟨h2.1, ?_⟩
      exact replaceSubtaskInSubs_all
        (fun st2 hst2 => by rw [subtaskDatesOk_lastEdited]; exact hst2) h2.2
    | activity a ps =>
      refine replaceFirstActivityContainer_ok h ?_
      intro st2 h2
      simp only [subtaskDatesOk, Bool.and_eq_true, decide_eq_true_eq, List.all_eq_true]
        at h2 ⊢
      refine ⟨h2.1, ?_⟩
      exact replaceActivityInActs_all
        (fun a2 ha2 => by rw [activityDatesOk_lastEdited]; exact ha2) h2.2

/-- C1: every update operation (`updateTask`, `updateSubtask`,
`updateActivity`) preserves the invariant
`expectedCompletionDate >= creationDate` for every item of the store —
a supplied date that would violate it is auto-adjusted (clamped), never
left invalid. -/
theorem updateOps_preserve_datesOk (s : Store) (i : Nat) (ut : TaskUpdates)
    (us : SubtaskUpdates) (ua : ActivityUpdates) (now : Int)
    (h : storeDatesOk s = true) :
    storeDatesOk (updateTask s i ut now).1 = true ∧
      storeDatesOk (updateSubtask s i us now).1 = true ∧
      storeDatesOk (updateActivity s i ua now).1 = true := by
  refine ⟨?_, ?_, ?_⟩
  · unfold updateTask
    cases hf : findItemInDraft i s with
    | none => exact h
    | some r =>
      cases r with
      | task t pl =>
        exact replaceFirstTask_ok h (fun t2 h2 => applyTaskUpdates_ok t2 ut now h2)
      | taskList l => exact h
      | subtask st pt => exact h
      | activity a ps => exact h
  · unfold updateSubtask
    cases hf : findItemInDraft i s with
    | none => exact h
    | some r =>
      cases r with
      | subtask st pt =>
        exact replaceFirstSubtaskSite_ok h
          (fun t2 h2 => applyUpdateSubtaskInTask_ok t2 i us now h2)
      | taskList l => exact h
      | task t pl => exact h
      | activity a ps => exact h
  · unfold updateActivity
    cases hf : findItemInDraft i s with
    | none => exact h
    | some r =>
      cases r with
      | activity a ps =>
        dsimp only
        cases hp : findItemInDraft ps.parentId s with
        | none => exact h
        | some r2 =>
          dsimp only
          split_ifs with hch
          · exact bumpLastEdited_ok ps.parentId now _ (updateActivityStore_ok h)
          · exact updateActivityStore_ok h
      | taskList l => exact h
      | task t pl => exact h
      | subtask st pt => exact h

/-- Store fixture for the C1 witness: the full three-level hierarchy. -/
def wStoreC1 : Store :=
  [{ id := 0, name := "P",
     tasks := [{ wTask with subtasks := [{ wSub with activities := [wAct] }] }] }]

/-- C1 witness: a concrete three-level store satisfies the invariant and
still satisfies it after an expected-completion update that undershoots
the creation date. -/
theorem updateOps_preserve_datesOk_witness :
    storeDatesOk wStoreC1 = true ∧
      storeDatesOk (updateTask wStoreC1 10 { expectedCompletionDate := some (-5) } 99).1 =
        true := by
  constructor
  · decide
  · exact (updateOps_preserve_datesOk wStoreC1 10 { expectedCompletionDate := some (-5) }
      {} {} 99 (by decide)).1

/-- The parent-bound invariant of spec section 3 for one task's subtree:
child creation not earlier than parent creation and child expected not
later than parent expected, at both levels. -/
def taskBoundsOk (t : Task) : Bool :=
  t.subtasks.all (fun st =>
    decide (t.creationDate ≤ st.creationDate) &&
    decide (st.expectedCompletionDate ≤ t.expectedCompletionDate) &&
    st.activities.all (fun a =>
      decide (st.creationDate ≤ a.creationDate) &&
      decide (a.expectedCompletionDate ≤ st.expectedCompletionDate)))

/-- The parent-bound invariant for the whole store. -/
def storeBoundsOk (s : Store) : Bool := s.all (fun l => l.tasks.all taskBoundsOk)

/-- Subtask fixture for the C2 counterexample: creation strictly inside the
parent's date range. -/
def wSubC2 : Subtask := { wSub with creationDate := 5 }

/-- Task fixture for the C2 counterexample. -/
def wTaskC2 : Task := { wTask with subtasks := [wSubC2] }

/-- List fixture for the C2 counterexample. -/
def wListC2 : TaskList := { id := 0, name := "P", tasks := [wTaskC2] }

/-- Store fixture for the C2 counterexample. -/
def wStoreC2 : Store := [wListC2]

/-- C2 counterexample: on a store satisfying every date invariant, lowering
the task's expectedCompletionDate (to 3) below a subtask's creationDate (5)
makes the cascade raise the subtask's expectedCompletionDate to its
creation date (5), leaving it strictly above the new task bound — the
parent-bound property does not hold after the update. -/
theorem updateTask_cascade_bounds_counterexample :
    storeBoundsOk wStoreC2 = true ∧
      storeDatesOk wStoreC2 = true ∧
      (updateTask wStoreC2 10 { expectedCompletionDate := some 3 } 99).2 = .ok ∧
      storeBoundsOk
          (updateTask wStoreC2 10 { expectedCompletionDate := some 3 } 99).1 = false ∧
      (foundTask (findItemInDraft 10
            (updateTask wStoreC2 10 { expectedCompletionDate := some 3 } 99).1)).map
          (fun t2 =>
            (t2.expectedCompletionDate,
              t2.subtasks.map (fun st2 =>
                (st2.creationDate, st2.expectedCompletionDate)))) =
        some (3, [(5, 5)]) := by
  refine ⟨by decide, by decide, by decide, by decide, by decide⟩

/-- Each cascaded activity lands at or above the subtask creation bound,
and within the expected bound whenever its (clamped) creation date permits. -/
theorem cascadeActivity_bounds (pc pe now : Int) (a : Activity) :
    pc ≤ (cascadeActivity pc pe now a).creationDate ∧
      ((cascadeActivity pc pe now a).creationDate ≤ pe →
        (cascadeActivity pc pe now a).expectedCompletionDate ≤ pe) := by
  simp only [cascadeActivity]
  split_ifs <;> constructor <;> (try intro h2) <;> simp_all <;> omega

/-- Each cascaded subtask lands at or above the task creation bound, within
the expected bound whenever its creation date permits, and its activities
satisfy the same two properties against the updated subtask bounds. -/
theorem cascadeSubtask_bounds (pc pe now : Int) (st : Subtask) :
    pc ≤ (cascadeSubtask pc pe now st).creationDate ∧
      ((cascadeSubtask pc pe now st).creationDate ≤ pe →
        (cascadeSubtask pc pe now st).expectedCompletionDate ≤ pe) ∧
      ∀ a ∈ (cascadeSubtask pc pe now st).activities,
        (cascadeSubtask pc pe now st).creationDate ≤ a.creationDate ∧
          (a.creationDate ≤ (cascadeSubtask pc pe now st).expectedCompletionDate →
            a.expectedCompletionDate ≤ (cascadeSubtask pc pe now st).expectedCompletionDate) := by
  simp only [cascadeSubtask]
  split_ifs <;>
    refine ⟨by simp_all <;> omega, by intro h2; simp_all <;> omega, ?_⟩ <;>
    · intro a ha
      obtain ⟨b, hb, rfl⟩ := List.mem_map.mp ha
      exact cascadeActivity_bounds _ _ now b

/-- `taskFinish` preserves the task id. -/
theorem taskFinish_id (u : TaskUpdates) (now : Int) (p : Task × Bool) :
    (taskFinish u now p).id = p.1.id := by
  unfold taskFinish
  split_ifs <;> simp

/-- The loop preserves the task id. -/
theorem taskLoop_id (u : TaskUpdates) (p : Task × Bool) :
    (taskLoop u p).1.id = p.1.id := by
  unfold taskLoop
  simp only [taskStepAutoRepeat_id, taskStepSequence_id, taskStepSerial_id,
    taskStepPriority_id, taskStepStatus_id, taskStepActual_id, taskStepExpected_id,
    taskStepCreation_id, taskStepDescription_id, taskStepName_id]

/-- `applyTaskUpdates` preserves the task id. -/
theorem applyTaskUpdates_id (t : Task) (u : TaskUpdates) (now : Int) :
    (applyTaskUpdates t u now).id = t.id := by
  unfold applyTaskUpdates
  rw [taskFinish_id]
  obtain ⟨hid, _, _, _⟩ := taskHistoryStep_pres u t
  rw [taskLoop_id, hid]

/-- With a date key present, every subtask of the updated task went through
the cascade and satisfies the clamped bound properties. -/
theorem applyTaskUpdates_cascade_bounds (t : Task) (u : TaskUpdates) (now : Int)
    (hdate : u.creationDate.isSome ∨ u.expectedCompletionDate.isSome) :
    ∀ st2 ∈ (applyTaskUpdates t u now).subtasks,
      (applyTaskUpdates t u now).creationDate ≤ st2.creationDate ∧
        (st2.creationDate ≤ (applyTaskUpdates t u now).expectedCompletionDate →
          st2.expectedCompletionDate ≤ (applyTaskUpdates t u now).expectedCompletionDate) ∧
        ∀ a2 ∈ st2.activities,
          st2.creationDate ≤ a2.creationDate ∧
            (a2.creationDate ≤ st2.expectedCompletionDate →
              a2.expectedCompletionDate ≤ st2.expectedCompletionDate) := by
  have hcond : (u.creationDate.isSome || u.expectedCompletionDate.isSome) = true := by
    rcases hdate with hd | hd <;> simp [hd]
  unfold applyTaskUpdates taskFinish
  simp only [hcond, if_true]
  intro st2 hmem
  obtain ⟨b, hb, rfl⟩ := List.mem_map.mp hmem
  obtain ⟨h1, h2, h3⟩ := cascadeSubtask_bounds
    (if (taskLoop u (taskHistoryStep u t)).2 then
        { (taskLoop u (taskHistoryStep u t)).1 with lastEditedDate := now }
      else (taskLoop u (taskHistoryStep u t)).1).creationDate
    (if (taskLoop u (taskHistoryStep u t)).2 then
        { (taskLoop u (taskHistoryStep u t)).1 with lastEditedDate := now }
      else (taskLoop u (taskHistoryStep u t)).1).expectedCompletionDate
    now b
  exact ⟨h1, h2, h3⟩

/-- With a date key present, every activity of the updated subtask went
through the cascade and satisfies the clamped bound properties. -/
theorem applySubtaskUpdates_cascade_bounds (pt : Task) (st : Subtask) (u : SubtaskUpdates)
    (now : Int) (hdate : u.creationDate.isSome ∨ u.expectedCompletionDate.isSome) :
    ∀ a2 ∈ (applySubtaskUpdates pt st u now).1.activities,
      (applySubtaskUpdates pt st u now).1.creationDate ≤ a2.creationDate ∧
        (a2.creationDate ≤ (applySubtaskUpdates pt st u now).1.expectedCompletionDate →
          a2.expectedCompletionDate ≤
            (applySubtaskUpdates pt st u now).1.expectedCompletionDate) := by
  have hcond : (u.creationDate.isSome || u.expectedCompletionDate.isSome) = true := by
    rcases hdate with hd | hd <;> simp [hd]
  unfold applySubtaskUpdates subFinish
  simp only [hcond, if_true]
  intro a2 hmem
  obtain ⟨b, hb, rfl⟩ := List.mem_map.mp hmem
  exact cascadeActivity_bounds _ _ now b

/-- C2 amended: after an `updateTask` carrying a date key, every subtask of
the updated task satisfies `task.creationDate <= subtask.creationDate`, and
`subtask.expectedCompletionDate <= task.expectedCompletionDate` holds
whenever the subtask's (clamped) creationDate does not exceed the new task
expected bound — when it does, the final restoration sets the subtask's
expected date to its creation date, above the task bound (see the
counterexample); activities obey the same two properties against the
updated subtask bounds, and likewise for `updateSubtask` date changes. -/
theorem updateOps_cascade_bounds (s : Store) (now : Int) :
    (∀ tid t pl (ut : TaskUpdates), findItemInDraft tid s = some (.task t pl) →
      (ut.creationDate.isSome ∨ ut.expectedCompletionDate.isSome) →
      (updateTask s tid ut now).2 = .ok ∧
        foundTask (findItemInDraft tid (updateTask s tid ut now).1) =
          some (applyTaskUpdates t ut now) ∧
        ∀ st2 ∈ (applyTaskUpdates t ut now).subtasks,
          (applyTaskUpdates t ut now).creationDate ≤ st2.creationDate ∧
            (st2.creationDate ≤ (applyTaskUpdates t ut now).expectedCompletionDate →
              st2.expectedCompletionDate ≤
                (applyTaskUpdates t ut now).expectedCompletionDate) ∧
            ∀ a2 ∈ st2.activities,
              st2.creationDate ≤ a2.creationDate ∧
                (a2.creationDate ≤ st2.expectedCompletionDate →
                  a2.expectedCompletionDate ≤ st2.expectedCompletionDate)) ∧
    (∀ sid st pt (us : SubtaskUpdates), findItemInDraft sid s = some (.subtask st pt) →
      (us.creationDate.isSome ∨ us.expectedCompletionDate.isSome) →
      (updateSubtask s sid us now).2 = .ok ∧
        ∀ a2 ∈ (applySubtaskUpdates pt st us now).1.activities,
          (applySubtaskUpdates pt st us now).1.creationDate ≤ a2.creationDate ∧
            (a2.creationDate ≤ (applySubtaskUpdates pt st us now).1.expectedCompletionDate →
              a2.expectedCompletionDate ≤
                (applySubtaskUpdates pt st us now).1.expectedCompletionDate)) := by
  constructor
  · intro tid t pl ut hfind hdate
    have hid : (applyTaskUpdates t ut now).id = tid := by
      rw [applyTaskUpdates_id]; exact (find_task_id hfind).1
    obtain ⟨_, hrefind⟩ :=
      replaceFirstTask_of_find hfind (fun t2 => applyTaskUpdates t2 ut now) hid
    refine ⟨by simp [updateTask, hfind], ?_, applyTaskUpdates_cascade_bounds t ut now hdate⟩
    simp only [updateTask, hfind]
    exact hrefind
  · intro sid st pt us hfind hdate
    exact ⟨by simp [updateSubtask, hfind], applySubtaskUpdates_cascade_bounds pt st us now hdate⟩

/-- C2 witness: the amended bounds at the counterexample store. -/
theorem updateOps_cascade_bounds_witness :
    (updateTask wStoreC2 10 { expectedCompletionDate := some 3 } 99).2 = .ok ∧
      foundTask (findItemInDraft 10
          (updateTask wStoreC2 10 { expectedCompletionDate := some 3 } 99).1) =
        some (applyTaskUpdates wTaskC2 { expectedCompletionDate := some 3 } 99) ∧
      ∀ st2 ∈ (applyTaskUpdates wTaskC2 { expectedCompletionDate := some 3 } 99).subtasks,
        (applyTaskUpdates wTaskC2 { expectedCompletionDate := some 3 } 99).creationDate ≤
            st2.creationDate ∧
          (st2.creationDate ≤
              (applyTaskUpdates wTaskC2
                { expectedCompletionDate := some 3 } 99).expectedCompletionDate →
            st2.expectedCompletionDate ≤
              (applyTaskUpdates wTaskC2
                { expectedCompletionDate := some 3 } 99).expectedCompletionDate) ∧
          ∀ a2 ∈ st2.activities,
            st2.creationDate ≤ a2.creationDate ∧
              (a2.creationDate ≤ st2.expectedCompletionDate →
                a2.expectedCompletionDate ≤ st2.expectedCompletionDate) := by
  exact (updateOps_cascade_bounds wStoreC2 99).1 10 wTaskC2 wListC2
    { expectedCompletionDate := some 3 } (by decide) (Or.inr (by decide))

/-- A produced Today row carries the flattened item's id. -/
theorem todayEntry_some_id {s : Store} {now : Int} {it : FlatItem} {e : TodayItem}
    (h : todayEntry s now it = some e) : e.id = it.id := by
  unfold todayEntry at h
  dsimp only at h
  split_ifs at h <;> cases h <;> rfl

/-- The Today filter keeps an item exactly when it is not done, is high or
medium priority, and is overdue or due within seven (truncated) days. -/
theorem todayEntry_isSome_iff (s : Store) (now : Int) (it : FlatItem) :
    (todayEntry s now it).isSome = true ↔
      (it.status ≠ Status.done ∧
        (it.priority = Priority.high ∨ it.priority = Priority.medium) ∧
        (it.expectedCompletionDate < now ∨
          Int.tdiv (it.expectedCompletionDate - now) msPerDay ≤ 7)) := by
  unfold todayEntry
  dsimp only
  split_ifs with h1 h2 h3 <;> (try simp_all) <;> tauto

/-- C6: `getTodayItems` includes an item (of duplicate-free id) exactly when
its status is not `done`, its priority is high or medium, and it is overdue
(`now` strictly past the expected completion) or due within seven days. -/
theorem getTodayItems_membership (s : Store) (now : Int) (it : FlatItem)
    (hmem : it ∈ getAllItems s)
    (hnodup : ((getAllItems s).map (fun x => x.id)).Nodup) :
    it.id ∈ (getTodayItems s now).map (fun e => e.id) ↔
      (it.status ≠ Status.done ∧
        (it.priority = Priority.high ∨ it.priority = Priority.medium) ∧
        (it.expectedCompletionDate < now ∨
          Int.tdiv (it.expectedCompletionDate - now) msPerDay ≤ 7)) := by
  have hperm :=
    List.perm_insertionSort (fun a b : TodayItem => b.urgencyScore ≤ a.urgencyScore)
      ((getAllItems s).filterMap (todayEntry s now))
  constructor
  · intro hin
    rw [List.mem_map] at hin
    obtain ⟨e, he, heid⟩ := hin
    have he2 : e ∈ (getAllItems s).filterMap (todayEntry s now) := by
      unfold getTodayItems sortTodayByUrgency at he
      exact hperm.mem_iff.mp he
    rw [List.mem_filterMap] at he2
    obtain ⟨it2, hit2, hsome⟩ := he2
    have hid2 : it2.id = it.id := by rw [← todayEntry_some_id hsome, heid]
    have heq : it2 = it := List.inj_on_of_nodup_map hnodup hit2 hmem hid2
    subst heq
    exact (todayEntry_isSome_iff s now it2).mp (by rw [hsome]; rfl)
  · intro hpred
    have hs : (todayEntry s now it).isSome = true :=
      (todayEntry_isSome_iff s now it).mpr hpred
    obtain ⟨e, he⟩ := Option.isSome_iff_exists.mp hs
    rw [List.mem_map]
    refine ⟨e, ?_, todayEntry_some_id he⟩
    unfold getTodayItems sortTodayByUrgency
    exact hperm.mem_iff.mpr (List.mem_filterMap.mpr ⟨it, hmem, he⟩)

/-- C6 witness: the plain medium-priority todo task (due at 10, now 0) is
selected. -/
theorem getTodayItems_membership_witness :
    (taskFlat wTask).id ∈ (getTodayItems wStorePlain 0).map (fun e => e.id) := by
  exact (getTodayItems_membership wStorePlain 0 (taskFlat wTask) (by decide)
    (by decide)).mpr (by decide)

/-- Modelled from the spec: spec section 4.4 step 4 words
`daysUntilDue = floor(expectedCompletionDate - now, in days)`, i.e. the
floor-rounded day difference (`Int.fdiv`). -/
def daysUntilDueSpec (now exp2 : Int) : Int := Int.fdiv (exp2 - now) msPerDay

/-- Modelled from the spec: the urgency-score formula of spec step 6 with
the spec's floor-based daysUntilDue. -/
def urgencyScoreSpec (now : Int) (it : FlatItem) : Int :=
  priorityScore it.priority * 10 + statusScore it.status * 5 -
    daysUntilDueSpec now it.expectedCompletionDate +
    (if now > it.expectedCompletionDate then 10 else 0)

/-- Overdue high-priority task fixture for the C7 counterexample. -/
def wTaskC7 : Task := { wTask with priority := .high, expectedCompletionDate := 0 }

/-- List fixture for the C7 counterexample. -/
def wListC7 : TaskList := { id := 0, name := "P", tasks := [wTaskC7] }

/-- Store fixture for the C7 counterexample. -/
def wStoreC7 : Store := [wListC7]

/-- C7 counterexample: for an item overdue by 1.5 days the code's
daysUntilDue (date-fns `differenceInDays`, truncation toward zero) is -1
and the produced urgencyScore is 51, while the spec formula with
floor-based daysUntilDue (-2) yields 52. -/
theorem urgencyScore_floor_counterexample :
    (getTodayItems wStoreC7 129600000).map (fun e => (e.id, e.daysUntilDue, e.urgencyScore)) =
        [(10, -1, 51)] ∧
      daysUntilDueSpec 129600000 0 = -2 ∧
      urgencyScoreSpec 129600000 (taskFlat wTaskC7) = 52 := by
  refine ⟨by decide, by decide, by decide⟩

/-- The fields a produced Today row carries, straight from the filter body. -/
theorem todayEntry_fields {s : Store} {now : Int} {it : FlatItem} {e : TodayItem}
    (h : todayEntry s now it = some e) :
    e.daysUntilDue = Int.tdiv (e.expectedCompletionDate - now) msPerDay ∧
      e.isOverdue = (decide (e.expectedCompletionDate < now) && !(e.status = Status.done)) ∧
      e.urgencyScore =
        priorityScore e.priority * 10 + statusScore e.status * 5 -
          Int.tdiv (e.expectedCompletionDate - now) msPerDay +
          (if e.isOverdue then 10 else 0) := by
  unfold todayEntry at h
  dsimp only at h
  split_ifs at h <;> cases h <;> refine ⟨rfl, rfl, ?_⟩ <;> simp_all

/-- C7 amended: every included item's urgencyScore equals
`priorityWeight*10 + statusWeight*5 - daysUntilDue + (10 if isOverdue)`
with the stated weight tables, where daysUntilDue is the day difference
truncated toward zero (date-fns `differenceInDays`), not floored. -/
theorem getTodayItems_urgencyScore (s : Store) (now : Int) (e : TodayItem)
    (he : e ∈ getTodayItems s now) :
    e.urgencyScore =
        priorityScore e.priority * 10 + statusScore e.status * 5 -
          Int.tdiv (e.expectedCompletionDate - now) msPerDay +
          (if e.isOverdue then 10 else 0) ∧
      e.daysUntilDue = Int.tdiv (e.expectedCompletionDate - now) msPerDay ∧
      e.isOverdue = (decide (e.expectedCompletionDate < now) && !(e.status = Status.done)) ∧
      priorityScore .high = 3 ∧ priorityScore .medium = 2 ∧ priorityScore .low = 1 ∧
      statusScore .inprogress = 4 ∧ statusScore .started = 3 ∧ statusScore .todo = 2 ∧
      statusScore .done = 0 := by
  have he2 : e ∈ (getAllItems s).filterMap (todayEntry s now) := by
    unfold getTodayItems sortTodayByUrgency at he
    exact (List.perm_insertionSort _ _).mem_iff.mp he
  rw [List.mem_filterMap] at he2
  obtain ⟨it2, _, hsome⟩ := he2
  obtain ⟨h1, h2, h3⟩ := todayEntry_fields hsome
  exact ⟨h3, h1, h2, rfl, rfl, rfl, rfl, rfl, rfl, rfl⟩

/-- The single Today row of the C7 fixture store. -/
def wEntryC7 : TodayItem := (getTodayItems wStoreC7 129600000).head!

/-- C7 witness: the amended score formula evaluated on the concrete row. -/
theorem getTodayItems_urgencyScore_witness :
    wEntryC7.urgencyScore =
      priorityScore wEntryC7.priority * 10 + statusScore wEntryC7.status * 5 -
        Int.tdiv (wEntryC7.expectedCompletionDate - 129600000) msPerDay +
        (if wEntryC7.isOverdue then 10 else 0) := by
  exact (getTodayItems_urgencyScore wStoreC7 129600000 wEntryC7 (by decide)).1

/-- Density of a sibling order multiset: the order values are a permutation
of `0..n-1` (no gaps, no duplicates). -/
def denseOrders (l : List Nat) : Prop := l.Perm (List.range l.length)

instance (l : List Nat) : Decidable (denseOrders l) := List.decidablePerm _ _

/-- Dense orders among one subtask's activities. -/
def subtaskOrdersDense (st : Subtask) : Prop :=
  denseOrders (st.activities.map (fun a => a.order))

instance (st : Subtask) : Decidable (subtaskOrdersDense st) := by
  unfold subtaskOrdersDense; infer_instance

/-- Dense orders among one task's subtasks and inside each subtask. -/
def taskOrdersDense (t : Task) : Prop :=
  denseOrders (t.subtasks.map (fun st => st.order)) ∧
    ∀ st ∈ t.subtasks, subtaskOrdersDense st

instance (t : Task) : Decidable (taskOrdersDense t) := by
  unfold taskOrdersDense; infer_instance

/-- Dense orders among one list's tasks and inside each task. -/
def listOrdersDense (l : TaskList) : Prop :=
  denseOrders (l.tasks.map (fun t => t.order)) ∧ ∀ t ∈ l.tasks, taskOrdersDense t

instance (l : TaskList) : Decidable (listOrdersDense l) := by
  unfold listOrdersDense; infer_instance

/-- Dense orders for every sibling set of the store. -/
def storeOrdersDense (s : Store) : Prop := ∀ l ∈ s, listOrdersDense l

instance (s : Store) : Decidable (storeOrdersDense s) := by
  unfold storeOrdersDense; infer_instance

/-- Second task fixture for the C5 counterexample. -/
def wTaskB : Task := { wTask with id := 11, order := 1 }

/-- List fixture for the C5 counterexample: two tasks with orders 0 and 1. -/
def wListC5 : TaskList := { id := 0, name := "P", tasks := [wTask, wTaskB] }

/-- Store fixture for the C5 counterexample. -/
def wStoreC5 : Store := [wListC5]

/-- C5 counterexample: reordering with a partial id list (only the second
task's id) assigns that task order 0 while the other keeps order 0, leaving
the sibling set with duplicate orders `[0, 0]` — not a dense permutation. -/
theorem reorder_dense_counterexample :
    storeOrdersDense wStoreC5 ∧
      ¬storeOrdersDense (reorderTasks wStoreC5 0 [11]) ∧
      (reorderTasks wStoreC5 0 [11]).map (fun l => l.tasks.map (fun t => t.order)) =
        [[0, 0]] := by
  refine ⟨by decide, by decide, by decide⟩

/-- Membership in a `mapIdx` image comes from membership in the base list. -/
theorem mem_mapIdx_weak {α β : Type} {f : Nat → α → β} {l : List α} {b : β}
    (h : b ∈ List.mapIdx f l) : ∃ i a, a ∈ l ∧ b = f i a := by
  induction l generalizing f with
  | nil => simp at h
  | cons x xs ih =>
    rw [List.mapIdx_cons] at h
    rcases List.mem_cons.mp h with rfl | h2
    · exact ⟨0, x, by simp, rfl⟩
    · obtain ⟨i, a, ha, rfl⟩ := ih h2
      exact ⟨i + 1, a, by simp [ha], rfl⟩

/-- The renumbering pass assigns exactly the orders `0..n-1`. -/
theorem renumberTasks_orders (ts : List Task) :
    (renumberTasks ts).map (fun t => t.order) = List.range ts.length := by
  unfold renumberTasks
  rw [List.mapIdx_eq_enum_map, List.map_map]
  have hfun : ((fun t : Task => t.order) ∘
      Function.uncurry fun idx (t : Task) => { t with order := idx }) = Prod.fst := by
    funext p
    cases p
    rfl
  rw [hfun, List.enum_map_fst]

/-- The subtask renumbering pass assigns exactly the orders `0..n-1`. -/
theorem renumberSubtasks_orders (sts : List Subtask) :
    (renumberSubtasks sts).map (fun st => st.order) = List.range sts.length := by
  unfold renumberSubtasks
  rw [List.mapIdx_eq_enum_map, List.map_map]
  have hfun : ((fun st : Subtask => st.order) ∘
      Function.uncurry fun idx (st : Subtask) => { st with order := idx }) = Prod.fst := by
    funext p
    cases p
    rfl
  rw [hfun, List.enum_map_fst]

/-- The activity renumbering pass assigns exactly the orders `0..n-1`. -/
theorem renumberActivities_orders (acts : List Activity) :
    (renumberActivities acts).map (fun a => a.order) = List.range acts.length := by
  unfold renumberActivities
  rw [List.mapIdx_eq_enum_map, List.map_map]
  have hfun : ((fun a : Activity => a.order) ∘
      Function.uncurry fun idx (a : Activity) => { a with order := idx }) = Prod.fst := by
    funext p
    cases p
    rfl
  rw [hfun, List.enum_map_fst]

/-- A key absent from the id list is absent from the order map. -/
theorem orderMapGetAux_not_mem {k : Nat} {ids : List Nat} (h : k ∉ ids) (i : Nat) :
    orderMapGetAux k i ids = none := by
  induction ids generalizing i with
  | nil => rfl
  | cons x xs ih =>
    have h2 : ¬(k = x ∨ k ∈ xs) := by simpa using h
    push_neg at h2
    simp only [orderMapGetAux, ih h2.2]
    have hxk : ¬x = k := fun hxk => h2.1 hxk.symm
    simp [hxk]

/-- A key present in the id list is present in the order map. -/
theorem orderMapGetAux_isSome {k : Nat} {ids : List Nat} (h : k ∈ ids) (i : Nat) :
    (orderMapGetAux k i ids).isSome = true := by
  induction ids generalizing i with
  | nil => simp at h
  | cons x xs ih =>
    simp only [orderMapGetAux]
    by_cases hm : k ∈ xs
    · cases hx : orderMapGetAux k (i + 1) xs with
      | none =>
        have := ih hm (i + 1)
        rw [hx] at this
        simp at this
      | some n => simp
    · have hk : k = x := by
        rcases List.mem_cons.mp h with h1 | h1
        · exact h1
        · exact absurd h1 hm
      rw [orderMapGetAux_not_mem hm]
      simp [hk]

/-- Mapping each id of a duplicate-free list through the order map yields
the successive indices starting at `i`. -/
theorem orderMapGetAux_map {ids : List Nat} (h : ids.Nodup) (i : Nat) :
    ids.map (fun k => orderMapGetAux k i ids) =
      (List.range ids.length).map (fun j => some (i + j)) := by
  induction ids generalizing i with
  | nil => rfl
  | cons x xs ih =>
    have hx : x ∉ xs := (List.nodup_cons.mp h).1
    have hxs : xs.Nodup := (List.nodup_cons.mp h).2
    have hhead : orderMapGetAux x i (x :: xs) = some i := by
      simp only [orderMapGetAux]
      rw [orderMapGetAux_not_mem hx]
      simp
    have htail : xs.map (fun k => orderMapGetAux k i (x :: xs)) =
        xs.map (fun k => orderMapGetAux k (i + 1) xs) := by
      refine List.map_congr_left ?_
      intro y hy
      simp only [orderMapGetAux]
      cases hys : orderMapGetAux y (i + 1) xs with
      | none =>
        have := orderMapGetAux_isSome hy (i + 1)
        rw [hys] at this
        simp at this
      | some n => rfl
    rw [List.map_cons, hhead, htail, ih hxs (i + 1), List.length_cons,
      List.range_succ_eq_map, List.map_cons, List.map_map]
    refine congrArg₂ List.cons (by simp) ?_
    refine List.map_congr_left ?_
    intro j _
    simp only [Function.comp_apply, Option.some.injEq]
    omega

/-- Mapping each id of a duplicate-free list through the finished order map
yields exactly the indices `0..n-1`. -/
theorem orderMapGet_map {ids : List Nat} (h : ids.Nodup) :
    ids.map (fun k => (orderMapGet ids k).getD 0) = List.range ids.length := by
  unfold orderMapGet
  have h2 := orderMapGetAux_map h 0
  have h3 : ids.map (fun k => (orderMapGetAux k 0 ids).getD 0) =
      (ids.map (fun k => orderMapGetAux k 0 ids)).map (fun o => o.getD 0) := by
    rw [List.map_map]
    rfl
  have h4 : ((fun o : Option Nat => o.getD 0) ∘ fun j : Nat => some (0 + j)) =
      fun j => j := by
    funext j
    simp
  rw [h3, h2, List.map_map, h4]
  simp

/-- A list permuted with `0..n-1` (for its own length) is dense. -/
theorem denseOrders_of_perm {l : List Nat} {n : Nat} (h : l.Perm (List.range n)) :
    denseOrders l := by
  have hlen : l.length = n := by simpa using h.length_eq
  unfold denseOrders
  rw [hlen]
  exact h

/-- Appending the next index keeps a dense order list dense. -/
theorem denseOrders_append {l : List Nat} (h : denseOrders l) :
    denseOrders (l ++ [l.length]) := by
  unfold denseOrders at h ⊢
  simp only [List.length_append, List.length_cons, List.length_nil]
  rw [List.range_succ]
  exact h.append_right [l.length]

/-- The empty sibling set is dense. -/
theorem denseOrders_nil : denseOrders [] := by
  unfold denseOrders
  simp

/-- The orders `0..n-1` themselves are dense. -/
theorem denseOrders_range (n : Nat) : denseOrders (List.range n) := by
  unfold denseOrders
  simp

/-- Replacing the first id-matched task by an `f` that preserves order and
density keeps the task array's orders and densities. -/
theorem replaceTaskInList_dense_pres {i : Nat} {f : Task → Task} {ts ts2 : List Task}
    (hrep : replaceTaskInList i f ts = some ts2)
    (hall : ∀ t ∈ ts, taskOrdersDense t)
    (hf : ∀ t ∈ ts, t.id = i → taskOrdersDense t →
      taskOrdersDense (f t) ∧ (f t).order = t.order) :
    (∀ t ∈ ts2, taskOrdersDense t) ∧
      ts2.map (fun t => t.order) = ts.map (fun t => t.order) := by
  induction ts generalizing ts2 with
  | nil => simp [replaceTaskInList] at hrep
  | cons t0 rest ih =>
    by_cases ht : t0.id = i
    · simp only [replaceTaskInList, ht, if_pos] at hrep
      injection hrep with hrep
      subst hrep
      obtain ⟨hfd, hfo⟩ := hf t0 (by simp) ht (hall t0 (by simp))
      constructor
      · intro t htm
        rcases List.mem_cons.mp htm with rfl | hmem
        · exact hfd
        · exact hall t (by simp [hmem])
      · simp [hfo]
    · simp only [replaceTaskInList, ht, if_false] at hrep
      cases hr : replaceTaskInList i f rest with
      | none => rw [hr] at hrep; simp at hrep
      | some r2 =>
        rw [hr] at hrep
        simp at hrep
        subst hrep
        obtain ⟨ih1, ih2⟩ := ih hr (fun t h2 => hall t (by simp [h2]))
          (fun t h2 h3 h4 => hf t (by simp [h2]) h3 h4)
        constructor
        · intro t htm
          rcases List.mem_cons.mp htm with rfl | hmem
          · exact hall t (by simp)
          · exact ih1 t hmem
        · simp [ih2]

/-- Store-level density preservation for `replaceFirstTask`. -/
theorem replaceFirstTask_dense {i : Nat} {f : Task → Task} {s : Store}
    (h : storeOrdersDense s)
    (hf : ∀ l ∈ s, ∀ t ∈ l.tasks, t.id = i → taskOrdersDense t →
      taskOrdersDense (f t) ∧ (f t).order = t.order) :
    storeOrdersDense (replaceFirstTask i f s) := by
  induction s with
  | nil => intro l hl; simp [replaceFirstTask] at hl
  | cons l rest ih =>
    have hl := h l (by simp)
    have hrest : storeOrdersDense rest := fun l2 h2 => h l2 (by simp [h2])
    unfold replaceFirstTask
    cases hr : replaceTaskInList i f l.tasks with
    | some ts =>
      obtain ⟨h1, h2⟩ := replaceTaskInList_dense_pres hr hl.2
        (fun t ht h3 h4 => hf l (by simp) t ht h3 h4)
      intro l2 hl2
      rcases List.mem_cons.mp hl2 with rfl | hmem
      · exact ⟨by simpa [h2] using hl.1, h1⟩
      · exact hrest l2 hmem
    | none =>
      intro l2 hl2
      rcases List.mem_cons.mp hl2 with rfl | hmem
      · exact hl
      · exact ih hrest (fun l3 h3 t ht h4 h5 => hf l3 (by simp [h3]) t ht h4 h5) l2 hmem

/-- Replacing the first container task by an order/density preserving map
keeps the array dense. -/
theorem replaceFirstSubtaskSiteInTasks_dense_pres {i : Nat} {g : Task → Task}
    {ts ts2 : List Task}
    (hrep : replaceFirstSubtaskSiteInTasks i g ts = some ts2)
    (hall : ∀ t ∈ ts, taskOrdersDense t)
    (hg : ∀ t ∈ ts, taskContainsSubtask i t = true → taskOrdersDense t →
      taskOrdersDense (g t) ∧ (g t).order = t.order) :
    (∀ t ∈ ts2, taskOrdersDense t) ∧
      ts2.map (fun t => t.order) = ts.map (fun t => t.order) := by
  induction ts generalizing ts2 with
  | nil => simp [replaceFirstSubtaskSiteInTasks] at hrep
  | cons t0 rest ih =>
    by_cases ht : taskContainsSubtask i t0 = true
    · simp only [replaceFirstSubtaskSiteInTasks, ht, if_pos] at hrep
      injection hrep with hrep
      subst hrep
      obtain ⟨hfd, hfo⟩ := hg t0 (by simp) ht (hall t0 (by simp))
      constructor
      · intro t htm
        rcases List.mem_cons.mp htm with rfl | hmem
        · exact hfd
        · exact hall t (by simp [hmem])
      · simp [hfo]
    · simp only [replaceFirstSubtaskSiteInTasks, ht, if_false] at hrep
      cases hr : replaceFirstSubtaskSiteInTasks i g rest with
      | none => rw [hr] at hrep; simp at hrep
      | some r2 =>
        rw [hr] at hrep
        simp at hrep
        subst hrep
        obtain ⟨ih1, ih2⟩ := ih hr (fun t h2 => hall t (by simp [h2]))
          (fun t h2 h3 h4 => hg t (by simp [h2]) h3 h4)
        constructor
        · intro t htm
          rcases List.mem_cons.mp htm with rfl | hmem
          · exact hall t (by simp)
          · exact ih1 t hmem
        · simp [ih2]

/-- Store-level density preservation for `replaceFirstSubtaskSite`. -/
theorem replaceFirstSubtaskSite_dense {i : Nat} {g : Task → Task} {s : Store}
    (h : storeOrdersDense s)
    (hg : ∀ l ∈ s, ∀ t ∈ l.tasks, taskContainsSubtask i t = true → taskOrdersDense t →
      taskOrdersDense (g t) ∧ (g t).order = t.order) :
    storeOrdersDense (replaceFirstSubtaskSite i g s) := by
  induction s with
  | nil => intro l hl; simp [replaceFirstSubtaskSite] at hl
  | cons l rest ih =>
    have hl := h l (by simp)
    have hrest : storeOrdersDense rest := fun l2 h2 => h l2 (by simp [h2])
    unfold replaceFirstSubtaskSite
    cases hr : replaceFirstSubtaskSiteInTasks i g l.tasks with
    | some ts =>
      obtain ⟨h1, h2⟩ :=
        replaceFirstSubtaskSiteInTasks_dense_pres hr hl.2
          (fun t ht h3 h4 => hg l (by simp) t ht h3 h4)
      intro l2 hl2
      rcases List.mem_cons.mp hl2 with rfl | hmem
      · exact ⟨by simpa [h2] using hl.1, h1⟩
      · exact hrest l2 hmem
    | none =>
      intro l2 hl2
      rcases List.mem_cons.mp hl2 with rfl | hmem
      · exact hl
      · exact ih hrest (fun l3 h3 t ht h4 h5 => hg l3 (by simp [h3]) t ht h4 h5) l2 hmem

/-- Replacing the first matched subtask by an order/density preserving map
keeps the subtask array dense. -/
theorem replaceSubtaskInSubs_dense_pres {i : Nat} {g : Subtask → Subtask}
    {sts : List Subtask}
    (hall : ∀ st ∈ sts, subtaskOrdersDense st)
    (hg : ∀ st ∈ sts, st.id = i → subtaskOrdersDense st →
      subtaskOrdersDense (g st) ∧ (g st).order = st.order) :
    (∀ st ∈ replaceSubtaskInSubs i g sts, subtaskOrdersDense st) ∧
      (replaceSubtaskInSubs i g sts).map (fun st => st.order) =
        sts.map (fun st => st.order) := by
  induction sts with
  | nil => simp [replaceSubtaskInSubs]
  | cons st0 rest ih =>
    unfold replaceSubtaskInSubs
    by_cases ht : st0.id = i
    · rw [if_pos ht]
      obtain ⟨hgd, hgo⟩ := hg st0 (by simp) ht (hall st0 (by simp))
      constructor
      · intro st hst
        rcases List.mem_cons.mp hst with rfl | hmem
        · exact hgd
        · exact hall st (by simp [hmem])
      · simp [hgo]
    · rw [if_neg ht]
      obtain ⟨ih1, ih2⟩ := ih (fun st h2 => hall st (by simp [h2]))
        (fun st h2 h3 h4 => hg st (by simp [h2]) h3 h4)
      constructor
      · intro st hst
        rcases List.mem_cons.mp hst with rfl | hmem
        · exact hall st (by simp)
        · exact ih1 st hmem
      · simp [ih2]

/-- Replacing the first activity-container subtask by an order/density
preserving map keeps the subtask array dense. -/
theorem replaceFirstMatchingSubtask_dense_pres {i : Nat} {g : Subtask → Subtask}
    {sts : List Subtask}
    (hall : ∀ st ∈ sts, subtaskOrdersDense st)
    (hg : ∀ st ∈ sts, subtaskContainsActivity i st = true → subtaskOrdersDense st →
      subtaskOrdersDense (g st) ∧ (g st).order = st.order) :
    (∀ st ∈ replaceFirstMatchingSubtask i g sts, subtaskOrdersDense st) ∧
      (replaceFirstMatchingSubtask i g sts).map (fun st => st.order) =
        sts.map (fun st => st.order) := by
  induction sts with
  | nil => simp [replaceFirstMatchingSubtask]
  | cons st0 rest ih =>
    unfold replaceFirstMatchingSubtask
    by_cases ht : subtaskContainsActivity i st0 = true
    · rw [if_pos ht]
      obtain ⟨hgd, hgo⟩ := hg st0 (by simp) ht (hall st0 (by simp))
      constructor
      · intro st hst
        rcases List.mem_cons.mp hst with rfl | hmem
        · exact hgd
        · exact hall st (by simp [hmem])
      · simp [hgo]
    · rw [if_neg ht]
      obtain ⟨ih1, ih2⟩ := ih (fun st h2 => hall st (by simp [h2]))
        (fun st h2 h3 h4 => hg st (by simp [h2]) h3 h4)
      constructor
      · intro st hst
        rcases List.mem_cons.mp hst with rfl | hmem
        · exact hall st (by simp)
        · exact ih1 st hmem
      · simp [ih2]

/-- Array-level density preservation for the activity-container
replacement. -/
theorem replaceFirstActivityContainerInTasks_dense_pres {i : Nat} {g : Subtask → Subtask}
    {ts ts2 : List Task}
    (hrep : replaceFirstActivityContainerInTasks i g ts = some ts2)
    (hall : ∀ t ∈ ts, taskOrdersDense t)
    (hg : ∀ st, subtaskContainsActivity i st = true → subtaskOrdersDense st →
      subtaskOrdersDense (g st) ∧ (g st).order = st.order) :
    (∀ t ∈ ts2, taskOrdersDense t) ∧
      ts2.map (fun t => t.order) = ts.map (fun t => t.order) := by
  induction ts generalizing ts2 with
  | nil => simp [replaceFirstActivityContainerInTasks] at hrep
  | cons t0 rest ih =>
    by_cases ht : t0.subtasks.any (subtaskContainsActivity i) = true
    · simp only [replaceFirstActivityContainerInTasks, ht, if_pos] at hrep
      injection hrep with hrep
      subst hrep
      have h0 := hall t0 (by simp)
      obtain ⟨hsub1, hsub2⟩ := replaceFirstMatchingSubtask_dense_pres h0.2
        (fun st _ h3 h4 => hg st h3 h4)
      constructor
      · intro t htm
        rcases List.mem_cons.mp htm with rfl | hmem
        · exact ⟨by simpa [hsub2] using h0.1, hsub1⟩
        · exact hall t (by simp [hmem])
      · simp
    · simp only [replaceFirstActivityContainerInTasks, ht, if_false] at hrep
      cases hr : replaceFirstActivityContainerInTasks i g rest with
      | none => rw [hr] at hrep; simp at hrep
      | some r2 =>
        rw [hr] at hrep
        simp at hrep
        subst hrep
        obtain ⟨ih1, ih2⟩ := ih hr (fun t h2 => hall t (by simp [h2]))
        constructor
        · intro t htm
          rcases List.mem_cons.mp htm with rfl | hmem
          · exact hall t (by simp)
          · exact ih1 t hmem
        · simp [ih2]

/-- Store-level density preservation for the activity-container
replacement. -/
theorem replaceFirstActivityContainer_dense {i : Nat} {g : Subtask → Subtask} {s : Store}
    (h : storeOrdersDense s)
    (hg : ∀ st, subtaskContainsActivity i st = true → subtaskOrdersDense st →
      subtaskOrdersDense (g st) ∧ (g st).order = st.order) :
    storeOrdersDense (replaceFirstActivityContainer i g s) := by
  induction s with
  | nil => intro l hl; simp [replaceFirstActivityContainer] at hl
  | cons l rest ih =>
    have hl := h l (by simp)
    have hrest : storeOrdersDense rest := fun l2 h2 => h l2 (by simp [h2])
    unfold replaceFirstActivityContainer
    cases hr : replaceFirstActivityContainerInTasks i g l.tasks with
    | some ts =>
      obtain ⟨h1, h2⟩ := replaceFirstActivityContainerInTasks_dense_pres hr hl.2 hg
      intro l2 hl2
      rcases List.mem_cons.mp hl2 with rfl | hmem
      · exact ⟨by simpa [h2] using hl.1, h1⟩
      · exact hrest l2 hmem
    | none =>
      intro l2 hl2
      rcases List.mem_cons.mp hl2 with rfl | hmem
      · exact hl
      · exact ih hrest l2 hmem

/-- Density preservation for `replaceFirstList`. -/
theorem replaceFirstList_dense {listId : Nat} {g : TaskList → TaskList} {s : Store}
    (h : storeOrdersDense s)
    (hg : ∀ l ∈ s, l.id = listId → listOrdersDense l → listOrdersDense (g l)) :
    storeOrdersDense (replaceFirstList listId g s) := by
  induction s with
  | nil => intro l hl; simp [replaceFirstList] at hl
  | cons l rest ih =>
    have hl := h l (by simp)
    have hrest : storeOrdersDense rest := fun l2 h2 => h l2 (by simp [h2])
    unfold replaceFirstList
    by_cases hid : l.id = listId
    · rw [if_pos hid]
      intro l2 hl2
      rcases List.mem_cons.mp hl2 with rfl | hmem
      · exact hg l (by simp) hid hl
      · exact hrest l2 hmem
    · rw [if_neg hid]
      intro l2 hl2
      rcases List.mem_cons.mp hl2 with rfl | hmem
      · exact hl
      · exact ih hrest (fun l3 h3 h4 h5 => hg l3 (by simp [h3]) h4 h5) l2 hmem

/-- Density is a permutation-invariant property of the order list. -/
theorem denseOrders_perm {l1 l2 : List Nat} (h : l1.Perm l2) (h2 : denseOrders l2) :
    denseOrders l1 := by
  unfold denseOrders at h2 ⊢
  rw [h.length_eq]
  exact h.trans h2

/-- A task's density only reads its subtask array. -/
theorem taskOrdersDense_of_subtasks_eq {t t2 : Task} (h : t2.subtasks = t.subtasks)
    (ht : taskOrdersDense t) : taskOrdersDense t2 := by
  unfold taskOrdersDense at ht ⊢
  rw [h]
  exact ht

/-- A subtask's density only reads its activity array. -/
theorem subtaskOrdersDense_of_activities_eq {st st2 : Subtask}
    (h : st2.activities = st.activities) (hd : subtaskOrdersDense st) :
    subtaskOrdersDense st2 := by
  unfold subtaskOrdersDense at hd ⊢
  rw [h]
  exact hd

/-- A task without subtasks is trivially dense. -/
theorem taskOrdersDense_of_no_subtasks {t : Task} (h : t.subtasks = []) :
    taskOrdersDense t := by
  unfold taskOrdersDense
  rw [h]
  exact ⟨by simpa using denseOrders_nil, by simp⟩

/-- A subtask without activities is trivially dense. -/
theorem subtaskOrdersDense_of_no_activities {st : Subtask} (h : st.activities = []) :
    subtaskOrdersDense st := by
  unfold subtaskOrdersDense
  rw [h]
  simpa using denseOrders_nil

/-- When the reorder id list enumerates exactly the sibling ids, the mapped
orders of the task array are a permutation of `0..n-1`. -/
theorem applyTaskOrders_dense {ids : List Nat} {ts : List Task}
    (hperm : ids.Perm (ts.map (fun t => t.id)))
    (hnodup : (ts.map (fun t => t.id)).Nodup) :
    denseOrders ((applyTaskOrders ids ts).map (fun t => t.order)) := by
  have hidsnodup : ids.Nodup := hperm.symm.nodup hnodup
  have hmap : (applyTaskOrders ids ts).map (fun t => t.order) =
      ts.map (fun t => (orderMapGet ids t.id).getD 0) := by
    unfold applyTaskOrders
    rw [List.map_map]
    apply List.map_congr_left
    intro t ht
    have hmem : t.id ∈ ids := hperm.mem_iff.mpr (List.mem_map_of_mem _ ht)
    have hsome := orderMapGetAux_isSome hmem 0
    cases hx : orderMapGetAux t.id 0 ids with
    | none => rw [hx] at hsome; simp at hsome
    | some n => simp [Function.comp, orderMapGet, hx]
  rw [hmap]
  have h6 := (hperm.map (fun k => (orderMapGet ids k).getD 0)).symm
  rw [List.map_map, orderMapGet_map hidsnodup] at h6
  exact denseOrders_of_perm h6

/-- Subtask analogue of `applyTaskOrders_dense`. -/
theorem applySubtaskOrders_dense {ids : List Nat} {sts : List Subtask}
    (hperm : ids.Perm (sts.map (fun st => st.id)))
    (hnodup : (sts.map (fun st => st.id)).Nodup) :
    denseOrders ((applySubtaskOrders ids sts).map (fun st => st.order)) := by
  have hidsnodup : ids.Nodup := hperm.symm.nodup hnodup
  have hmap : (applySubtaskOrders ids sts).map (fun st => st.order) =
      sts.map (fun st => (orderMapGet ids st.id).getD 0) := by
    unfold applySubtaskOrders
    rw [List.map_map]
    apply List.map_congr_left
    intro st ht
    have hmem : st.id ∈ ids := hperm.mem_iff.mpr (List.mem_map_of_mem _ ht)
    have hsome := orderMapGetAux_isSome hmem 0
    cases hx : orderMapGetAux st.id 0 ids with
    | none => rw [hx] at hsome; simp at hsome
    | some n => simp [Function.comp, orderMapGet, hx]
  rw [hmap]
  have h6 := (hperm.map (fun k => (orderMapGet ids k).getD 0)).symm
  rw [List.map_map, orderMapGet_map hidsnodup] at h6
  exact denseOrders_of_perm h6

/-- Activity analogue of `applyTaskOrders_dense`. -/
theorem applyActivityOrders_dense {ids : List Nat} {acts : List Activity}
    (hperm : ids.Perm (acts.map (fun a => a.id)))
    (hnodup : (acts.map (fun a => a.id)).Nodup) :
    denseOrders ((applyActivityOrders ids acts).map (fun a => a.order)) := by
  have hidsnodup : ids.Nodup := hperm.symm.nodup hnodup
  have hmap : (applyActivityOrders ids acts).map (fun a => a.order) =
      acts.map (fun a => (orderMapGet ids a.id).getD 0) := by
    unfold applyActivityOrders
    rw [List.map_map]
    apply List.map_congr_left
    intro a ht
    have hmem : a.id ∈ ids := hperm.mem_iff.mpr (List.mem_map_of_mem _ ht)
    have hsome := orderMapGetAux_isSome hmem 0
    cases hx : orderMapGetAux a.id 0 ids with
    | none => rw [hx] at hsome; simp at hsome
    | some n => simp [Function.comp, orderMapGet, hx]
  rw [hmap]
  have h6 := (hperm.map (fun k => (orderMapGet ids k).getD 0)).symm
  rw [List.map_map, orderMapGet_map hidsnodup] at h6
  exact denseOrders_of_perm h6

/-- `applyTaskOrders` only rewrites `order` fields: every output shares its
subtask array with an input. -/
theorem applyTaskOrders_mem {ids : List Nat} {ts : List Task} {t2 : Task}
    (h : t2 ∈ applyTaskOrders ids ts) : ∃ t ∈ ts, t2.subtasks = t.subtasks := by
  unfold applyTaskOrders at h
  obtain ⟨t, ht, heq⟩ := List.mem_map.mp h
  refine ⟨t, ht, ?_⟩
  cases hx : orderMapGet ids t.id with
  | none => rw [hx] at heq; subst heq; rfl
  | some n => rw [hx] at heq; subst heq; rfl

/-- `applySubtaskOrders` only rewrites `order` fields. -/
theorem applySubtaskOrders_mem {ids : List Nat} {sts : List Subtask} {st2 : Subtask}
    (h : st2 ∈ applySubtaskOrders ids sts) : ∃ st ∈ sts, st2.activities = st.activities := by
  unfold applySubtaskOrders at h
  obtain ⟨st, ht, heq⟩ := List.mem_map.mp h
  refine ⟨st, ht, ?_⟩
  cases hx : orderMapGet ids st.id with
  | none => rw [hx] at heq; subst heq; rfl
  | some n => rw [hx] at heq; subst heq; rfl

/-- First-match activity replacement by an order-preserving map keeps the
order column. -/
theorem replaceActivityInActs_orders {i : Nat} {f : Activity → Activity}
    {acts : List Activity}
    (hf : ∀ a ∈ acts, a.id = i → (f a).order = a.order) :
    (replaceActivityInActs i f acts).map (fun a => a.order) =
      acts.map (fun a => a.order) := by
  induction acts with
  | nil => rfl
  | cons a rest ih =>
    unfold replaceActivityInActs
    by_cases ha : a.id = i
    · rw [if_pos ha]
      simp [hf a (by simp) ha]
    · rw [if_neg ha]
      simp only [List.map_cons]
      rw [ih (fun a2 h2 h3 => hf a2 (by simp [h2]) h3)]

/-- Appending the fresh task (childless, `order := length`) keeps the store
dense. -/
theorem addTaskToLists_dense {base : Task} {listId : Nat} {s : Store} {r : Store × Task}
    (h : storeOrdersDense s) (hbase : base.subtasks = [])
    (hrep : addTaskToLists base listId s = some r) : storeOrdersDense r.1 := by
  induction s generalizing r with
  | nil => simp [addTaskToLists] at hrep
  | cons l rest ih =>
    have hl := h l (by simp)
    have hrest : storeOrdersDense rest := fun l2 h2 => h l2 (by simp [h2])
    by_cases hid : l.id = listId
    · simp only [addTaskToLists, hid, if_pos] at hrep
      injection hrep with hrep
      subst hrep
      intro l2 hl2
      rcases List.mem_cons.mp hl2 with rfl | hmem
      · constructor
        · simp only [List.map_append, List.map_cons, List.map_nil]
          simpa using denseOrders_append hl.1
        · intro t ht
          rcases List.mem_append.mp ht with hmem2 | hmem2
          · exact hl.2 t hmem2
          · simp at hmem2
            subst hmem2
            exact taskOrdersDense_of_no_subtasks hbase
      · exact hrest l2 hmem
    · simp only [addTaskToLists, hid, if_false] at hrep
      cases hr2 : addTaskToLists base listId rest with
      | none => rw [hr2] at hrep; simp at hrep
      | some r2 =>
        rw [hr2] at hrep
        simp at hrep
        subst hrep
        intro l2 hl2
        rcases List.mem_cons.mp hl2 with rfl | hmem
        · exact hl
        · exact ih hrest hr2 l2 hmem

/-- `addTask` keeps every sibling order set dense. -/
theorem addTask_dense (s : Store) (h : storeOrdersDense s) (listId : Nat) (name : String)
    (prio : Priority) (c e : Int) (nid : Nat) (now : Int) :
    storeOrdersDense (addTask s listId name prio c e nid now).1 := by
  unfold addTask
  cases hr : addTaskToLists (mkTask listId name prio c e nid now) listId s with
  | none => exact h
  | some r => exact addTaskToLists_dense h rfl hr

/-- `addSubtask` keeps every sibling order set dense. -/
theorem addSubtask_dense (s : Store) (h : storeOrdersDense s) (taskId : Nat)
    (name : String) (prio : Priority) (nid : Nat) (now : Int) :
    storeOrdersDense (addSubtask s taskId name prio nid now).1 := by
  unfold addSubtask
  cases hf : findItemInDraft taskId s with
  | none => exact h
  | some it =>
    cases it with
    | taskList l0 => exact h
    | subtask st pt => exact h
    | activity a ps => exact h
    | task t pl =>
      dsimp only
      apply replaceFirstTask_dense h
      intro l hl t2 ht2 hid hd
      refine ⟨?_, rfl⟩
      unfold taskOrdersDense
      dsimp only
      constructor
      · simp only [List.map_append, List.map_cons, List.map_nil]
        rw [show (mkSubtask t2 taskId name prio nid now).order = t2.subtasks.length
          from rfl]
        simpa using denseOrders_append hd.1
      · intro st hst
        rcases List.mem_append.mp hst with hmem | hmem
        · exact hd.2 st hmem
        · simp at hmem
          subst hmem
          exact subtaskOrdersDense_of_no_activities rfl

/-- `addActivity` keeps every sibling order set dense. -/
theorem addActivity_dense (s : Store) (h : storeOrdersDense s) (subId : Nat)
    (name : String) (prio : Priority) (nid : Nat) (now : Int) :
    storeOrdersDense (addActivity s subId name prio nid now).1 := by
  unfold addActivity
  cases hf : findItemInDraft subId s with
  | none => exact h
  | some it =>
    cases it with
    | taskList l0 => exact h
    | task t pl => exact h
    | activity a ps => exact h
    | subtask st pt =>
      dsimp only
      apply replaceFirstSubtaskSite_dense h
      intro l hl t2 ht2 hc hd
      refine ⟨?_, rfl⟩
      have hg : ∀ st2 ∈ t2.subtasks, st2.id = subId → subtaskOrdersDense st2 →
          subtaskOrdersDense
              ({ st2 with
                activities :=
                  st2.activities ++ [mkActivity st2 subId name prio nid now],
                lastEditedDate := now }) ∧
            ({ st2 with
              activities :=
                st2.activities ++ [mkActivity st2 subId name prio nid now],
              lastEditedDate := now } : Subtask).order = st2.order := by
        intro st2 hmem hid2 hdst
        refine ⟨?_, rfl⟩
        unfold subtaskOrdersDense at hdst ⊢
        dsimp only
        simp only [List.map_append, List.map_cons, List.map_nil]
        rw [show (mkActivity st2 subId name prio nid now).order = st2.activities.length
          from rfl]
        simpa using denseOrders_append hdst
      obtain ⟨h1, h2⟩ := replaceSubtaskInSubs_dense_pres hd.2 hg
      unfold taskOrdersDense
      dsimp only
      exact ⟨by rw [h2]; exact hd.1, h1⟩

/-- `deleteTask` keeps every sibling order set dense: the surviving siblings
are renumbered `0..n-1`. -/
theorem deleteTask_dense (s : Store) (h : storeOrdersDense s) (taskId : Nat) :
    storeOrdersDense (deleteTask taskId s) := by
  induction s with
  | nil => intro l hl; simp [deleteTask] at hl
  | cons l rest ih =>
    have hl := h l (by simp)
    have hrest : storeOrdersDense rest := fun l2 h2 => h l2 (by simp [h2])
    simp only [deleteTask]
    by_cases hlen :
        (l.tasks.filter (fun t => t.id ≠ taskId)).length < l.tasks.length
    · rw [if_pos hlen]
      intro l2 hl2
      rcases List.mem_cons.mp hl2 with rfl | hmem
      · constructor
        · rw [renumberTasks_orders]
          exact denseOrders_range _
        · intro t ht
          obtain ⟨i, t0, ht0, rfl⟩ := mem_mapIdx_weak ht
          exact taskOrdersDense_of_subtasks_eq rfl (hl.2 t0 (List.mem_of_mem_filter ht0))
      · exact hrest l2 hmem
    · rw [if_neg hlen]
      intro l2 hl2
      rcases List.mem_cons.mp hl2 with rfl | hmem
      · exact hl
      · exact ih hrest l2 hmem

/-- `deleteSubtask` keeps every sibling order set dense. -/
theorem deleteSubtask_dense (s : Store) (h : storeOrdersDense s) (subId : Nat)
    (now : Int) : storeOrdersDense (deleteSubtask s subId now) := by
  unfold deleteSubtask
  cases hf : findItemInDraft subId s with
  | none => exact h
  | some it =>
    cases it with
    | taskList l0 => exact h
    | task t pl => exact h
    | activity a ps => exact h
    | subtask st pt =>
      dsimp only
      apply replaceFirstSubtaskSite_dense h
      intro l hl t2 ht2 hc hd
      dsimp only
      by_cases hlen :
          (t2.subtasks.filter (fun st2 => st2.id ≠ subId)).length < t2.subtasks.length
      · rw [if_pos hlen]
        refine ⟨?_, rfl⟩
        unfold taskOrdersDense
        dsimp only
        constructor
        · rw [renumberSubtasks_orders]
          exact denseOrders_range _
        · intro st2 hst2
          obtain ⟨i, st0, hst0, rfl⟩ := mem_mapIdx_weak hst2
          exact subtaskOrdersDense_of_activities_eq rfl
            (hd.2 st0 (List.mem_of_mem_filter hst0))
      · rw [if_neg hlen]
        exact ⟨hd, rfl⟩

/-- `bumpLastEdited` never touches an `order` field or an array. -/
theorem bumpLastEdited_dense (i : Nat) (now : Int) {s : Store}
    (h : storeOrdersDense s) : storeOrdersDense (bumpLastEdited i now s) := by
  unfold bumpLastEdited
  cases hf : findItemInDraft i s with
  | none => exact h
  | some it =>
    cases it with
    | taskList l0 => exact h
    | task t pl =>
      apply replaceFirstTask_dense h
      intro l hl t2 ht2 hid hd
      exact ⟨taskOrdersDense_of_subtasks_eq rfl hd, rfl⟩
    | subtask st pt =>
      apply replaceFirstSubtaskSite_dense h
      intro l hl t2 ht2 hc hd
      refine ⟨?_, rfl⟩
      have hg : ∀ st2 ∈ t2.subtasks, st2.id = i → subtaskOrdersDense st2 →
          subtaskOrdersDense ({ st2 with lastEditedDate := now }) ∧
            ({ st2 with lastEditedDate := now } : Subtask).order = st2.order := by
        intro st2 hmem hid2 hdst
        exact ⟨subtaskOrdersDense_of_activities_eq rfl hdst, rfl⟩
      obtain ⟨h1, h2⟩ := replaceSubtaskInSubs_dense_pres hd.2 hg
      unfold taskOrdersDense
      dsimp only
      exact ⟨by rw [h2]; exact hd.1, h1⟩
    | activity a ps =>
      apply replaceFirstActivityContainer_dense h
      intro st2 hc hdst
      refine ⟨?_, rfl⟩
      unfold subtaskOrdersDense at hdst ⊢
      dsimp only
      rw [@replaceActivityInActs_orders i (fun a2 => { a2 with lastEditedDate := now })
        st2.activities (fun a2 hmem hid2 => rfl)]
      exact hdst

/-- `deleteActivity` keeps every sibling order set dense. -/
theorem deleteActivity_dense (s : Store) (h : storeOrdersDense s) (actId : Nat)
    (now : Int) : storeOrdersDense (deleteActivity s actId now) := by
  unfold deleteActivity
  cases hf : findItemInDraft actId s with
  | none => exact h
  | some it =>
    cases it with
    | taskList l0 => exact h
    | task t pl => exact h
    | subtask st pt => exact h
    | activity a ps =>
      dsimp only
      cases hp : findItemInDraft ps.parentId s with
      | none => exact h
      | some it2 =>
        dsimp only
        apply bumpLastEdited_dense
        apply replaceFirstActivityContainer_dense h
        intro st2 hc hdst
        dsimp only
        by_cases hlen :
            (st2.activities.filter (fun a2 => a2.id ≠ actId)).length <
              st2.activities.length
        · rw [if_pos hlen]
          refine ⟨?_, rfl⟩
          unfold subtaskOrdersDense
          dsimp only
          rw [renumberActivities_orders]
          exact denseOrders_range _
        · rw [if_neg hlen]
          exact ⟨hdst, rfl⟩

/-- `reorderTasks` restores density when the id list enumerates exactly the
target list's task ids. -/
theorem reorderTasks_dense {s : Store} (h : storeOrdersDense s) (listId : Nat)
    (ids : List Nat)
    (hids : ∀ l ∈ s, l.id = listId →
      ids.Perm (l.tasks.map (fun t => t.id)) ∧ (l.tasks.map (fun t => t.id)).Nodup) :
    storeOrdersDense (reorderTasks s listId ids) := by
  unfold reorderTasks
  apply replaceFirstList_dense h
  intro l hl hid hld
  obtain ⟨hperm, hnodup⟩ := hids l hl hid
  unfold listOrdersDense
  dsimp only
  have hp := List.perm_insertionSort (fun a b : Task => a.order ≤ b.order)
    (applyTaskOrders ids l.tasks)
  constructor
  · exact denseOrders_perm (hp.map (fun t : Task => t.order))
      (applyTaskOrders_dense hperm hnodup)
  · intro t ht
    have ht2 : t ∈ applyTaskOrders ids l.tasks := hp.mem_iff.mp ht
    obtain ⟨t0, ht0, hsub⟩ := applyTaskOrders_mem ht2
    exact taskOrdersDense_of_subtasks_eq hsub (hld.2 t0 ht0)

/-- `reorderSubtasks` restores density when the id list enumerates exactly the
target task's subtask ids. -/
theorem reorderSubtasks_dense {s : Store} (h : storeOrdersDense s) (taskId : Nat)
    (ids : List Nat) (now : Int)
    (hids : ∀ l ∈ s, ∀ t ∈ l.tasks, t.id = taskId →
      ids.Perm (t.subtasks.map (fun st => st.id)) ∧
        (t.subtasks.map (fun st => st.id)).Nodup) :
    storeOrdersDense (reorderSubtasks s taskId ids now) := by
  unfold reorderSubtasks
  cases hf : findItemInDraft taskId s with
  | none => exact h
  | some it =>
    cases it with
    | taskList l0 => exact h
    | subtask st pt => exact h
    | activity a ps => exact h
    | task t pl =>
      dsimp only
      cases hsm : t.sequenceMandatory with
      | true => exact h
      | false =>
        simp only [Bool.not_false, if_true]
        apply replaceFirstTask_dense h
        intro l hl t2 ht2 hid hd
        obtain ⟨hperm, hnodup⟩ := hids l hl t2 ht2 hid
        refine ⟨?_, rfl⟩
        unfold taskOrdersDense
        dsimp only
        have hp := List.perm_insertionSort (fun a b : Subtask => a.order ≤ b.order)
          (applySubtaskOrders ids t2.subtasks)
        constructor
        · exact denseOrders_perm (hp.map (fun st2 : Subtask => st2.order))
            (applySubtaskOrders_dense hperm hnodup)
        · intro st2 hst2
          have hst3 : st2 ∈ applySubtaskOrders ids t2.subtasks := hp.mem_iff.mp hst2
          obtain ⟨st0, hst0, hact⟩ := applySubtaskOrders_mem hst3
          exact subtaskOrdersDense_of_activities_eq hact (hd.2 st0 hst0)

/-- `reorderActivities` restores density when the id list enumerates exactly
the target subtask's activity ids. -/
theorem reorderActivities_dense {s : Store} (h : storeOrdersDense s) (subId : Nat)
    (ids : List Nat) (now : Int)
    (hids : ∀ l ∈ s, ∀ t ∈ l.tasks, ∀ st ∈ t.subtasks, st.id = subId →
      ids.Perm (st.activities.map (fun a => a.id)) ∧
        (st.activities.map (fun a => a.id)).Nodup) :
    storeOrdersDense (reorderActivities s subId ids now) := by
  unfold reorderActivities
  cases hf : findItemInDraft subId s with
  | none => exact h
  | some it =>
    cases it with
    | taskList l0 => exact h
    | task t pl => exact h
    | activity a ps => exact h
    | subtask st pt =>
      dsimp only
      cases hsm : st.sequenceMandatory with
      | true => exact h
      | false =>
        simp only [Bool.not_false, if_true]
        apply replaceFirstSubtaskSite_dense h
        intro l hl t2 ht2 hc hd
        refine ⟨?_, rfl⟩
        have hg : ∀ st2 ∈ t2.subtasks, st2.id = subId → subtaskOrdersDense st2 →
            subtaskOrdersDense
                ({ st2 with
                  activities :=
                    sortActivitiesByOrder (applyActivityOrders ids st2.activities),
                  lastEditedDate := now }) ∧
              ({ st2 with
                activities :=
                  sortActivitiesByOrder (applyActivityOrders ids st2.activities),
                lastEditedDate := now } : Subtask).order = st2.order := by
          intro st2 hmem hid2 hdst
          obtain ⟨hperm, hnodup⟩ := hids l hl t2 ht2 st2 hmem hid2
          refine ⟨?_, rfl⟩
          unfold subtaskOrdersDense
          dsimp only
          have hp := List.perm_insertionSort (fun a b : Activity => a.order ≤ b.order)
            (applyActivityOrders ids st2.activities)
          exact denseOrders_perm (hp.map (fun a2 : Activity => a2.order))
            (applyActivityOrders_dense hperm hnodup)
        obtain ⟨h1, h2⟩ := replaceSubtaskInSubs_dense_pres hd.2 hg
        unfold taskOrdersDense
        dsimp only
        exact ⟨by rw [h2]; exact hd.1, h1⟩

/-- C5 (amended): in a store whose sibling `order` sets are dense zero-based
permutations `0..n-1`, every add and delete operation (`addTask`,
`addSubtask`, `addActivity`, `deleteTask`, `deleteSubtask`,
`deleteActivity`) preserves that density unconditionally, and each reorder
operation (`reorderTasks`, `reorderSubtasks`, `reorderActivities`)
preserves it whenever the supplied id list is a permutation of the target
sibling set's duplicate-free ids.  The claim's unconditional reorder part
is refuted by `reorder_dense_counterexample`: a partial id list leaves
duplicate orders behind. -/
theorem addDeleteReorder_preserve_dense (s : Store) (h : storeOrdersDense s) :
    (∀ (listId : Nat) (name : String) (prio : Priority) (c e : Int) (nid : Nat)
      (now : Int), storeOrdersDense (addTask s listId name prio c e nid now).1) ∧
    (∀ (taskId : Nat) (name : String) (prio : Priority) (nid : Nat) (now : Int),
      storeOrdersDense (addSubtask s taskId name prio nid now).1) ∧
    (∀ (subId : Nat) (name : String) (prio : Priority) (nid : Nat) (now : Int),
      storeOrdersDense (addActivity s subId name prio nid now).1) ∧
    (∀ taskId : Nat, storeOrdersDense (deleteTask taskId s)) ∧
    (∀ (subId : Nat) (now : Int), storeOrdersDense (deleteSubtask s subId now)) ∧
    (∀ (actId : Nat) (now : Int), storeOrdersDense (deleteActivity s actId now)) ∧
    (∀ (listId : Nat) (ids : List Nat),
      (∀ l ∈ s, l.id = listId →
        ids.Perm (l.tasks.map (fun t => t.id)) ∧
          (l.tasks.map (fun t => t.id)).Nodup) →
      storeOrdersDense (reorderTasks s listId ids)) ∧
    (∀ (taskId : Nat) (ids : List Nat) (now : Int),
      (∀ l ∈ s, ∀ t ∈ l.tasks, t.id = taskId →
        ids.Perm (t.subtasks.map (fun st => st.id)) ∧
          (t.subtasks.map (fun st => st.id)).Nodup) →
      storeOrdersDense (reorderSubtasks s taskId ids now)) ∧
    (∀ (subId : Nat) (ids : List Nat) (now : Int),
      (∀ l ∈ s, ∀ t ∈ l.tasks, ∀ st ∈ t.subtasks, st.id = subId →
        ids.Perm (st.activities.map (fun a => a.id)) ∧
          (st.activities.map (fun a => a.id)).Nodup) →
      storeOrdersDense (reorderActivities s subId ids now)) := by
  refine ⟨fun listId name prio c e nid now =>
      addTask_dense s h listId name prio c e nid now,
    fun taskId name prio nid now => addSubtask_dense s h taskId name prio nid now,
    fun subId name prio nid now => addActivity_dense s h subId name prio nid now,
    fun taskId => deleteTask_dense s h taskId,
    fun subId now => deleteSubtask_dense s h subId now,
    fun actId now => deleteActivity_dense s h actId now,
    fun listId ids hids => reorderTasks_dense h listId ids hids,
    fun taskId ids now hids => reorderSubtasks_dense h taskId ids now hids,
    fun subId ids now hids => reorderActivities_dense h subId ids now hids⟩

/-- Witness for the amended C5 theorem: a concrete dense two-task store stays
dense under a full-permutation `reorderTasks`. -/
theorem addDeleteReorder_preserve_dense_witness :
    storeOrdersDense wStoreC5 ∧ storeOrdersDense (reorderTasks wStoreC5 0 [11, 10]) :=
  ⟨by decide,
    (addDeleteReorder_preserve_dense wStoreC5 (by decide)).2.2.2.2.2.2.1 0 [11, 10]
      (by decide)⟩

end DayFlow
